import Mathlib

/-!
Shallow embedding of the PhoneGame supply-chain tick engine.

Sources embedded here:
  src/src/engine/tickProcessor.ts     (tick pipeline, order/contract lifecycle)
  src/src/engine/configLoader.ts      (Dijkstra routing, config accessors)
  src/src/engine/ai/productionAI.ts   (production decisions)
  src/src/engine/ai/contractAI.ts     (contract proposal/evaluation)
  src/unnamed/part_005                (fulfillment AI, price-aware variant –
                                       the variant actually imported by the
                                       tick processor, which passes `config`
                                       as fifth argument to
                                       decideOrderFulfillment)
  ai/index.ts                         (procurement AI, contract-aware variant –
                                       the variant whose orders carry
                                       pricePerUnit, as read by the tick
                                       processor)
  src/src/engine/createInitialState.ts

Modelling conventions:
 * JavaScript numbers are modelled as exact rationals (ℚ).
 * A JavaScript object used as a string-keyed record is modelled as an
   insertion-ordered association list `List (String × α)`; `{...obj, [k]: v}`
   keeps an existing key in place and appends a fresh key, which `smSet`
   reproduces.
 * A thrown exception is modelled by `Option`: `none` means the TypeScript
   code would throw, so the whole tick aborts with no next state.
 * The module-level mutable `idCounter` of tickProcessor.ts is carried as an
   extra `idCounter` field of the game state; `Math.random()` is modelled by
   an oracle `rand : ℕ → ℚ` consumed through a `randCounter` field.
 * `Array.prototype.sort` with a comparator is stable (ECMAScript 2019); for
   the total preorders used by the comparators of this program a stable sort
   has a unique result, reproduced here by insertion sort `stableSort`.
-/

/-- JS record: insertion-ordered association list with string keys. -/
abbrev StrMap (α : Type) : Type := List (String × α)

/-- Record lookup `m[k]` returning `undefined` as `none`. -/
def smLookup {α : Type} (m : StrMap α) (k : String) : Option α :=
  (m.find? (fun p => p.1 == k)).map (·.2)

/-- Record lookup with a default, `m[k] ?? d`. -/
def smGet {α : Type} (m : StrMap α) (k : String) (d : α) : α :=
  (smLookup m k).getD d

/-- Does the record have key `k`? -/
def smHasKey {α : Type} (m : StrMap α) (k : String) : Bool :=
  m.any (fun p => p.1 == k)

/-- Record update `{...m, [k]: v}`: replace in place or append. -/
def smSet {α : Type} (m : StrMap α) (k : String) (v : α) : StrMap α :=
  if smHasKey m k then m.map (fun p => if p.1 == k then (k, v) else p)
  else m ++ [(k, v)]

/-- Record key deletion, `delete m[k]`. -/
def smErase {α : Type} (m : StrMap α) (k : String) : StrMap α :=
  m.filter (fun p => ¬ p.1 == k)

/-- JS object spread merge `{...a, ...b}`. -/
def smMerge {α : Type} (a b : StrMap α) : StrMap α :=
  b.foldl (fun acc p => smSet acc p.1 p.2) a

/-- `Object.values(m)`. -/
def smValues {α : Type} (m : StrMap α) : List α :=
  m.map (·.2)

/-- Stable insertion of `x` into a sorted list: `x` goes after every strictly
smaller element and before the first element not strictly smaller. -/
def sInsert {α : Type} (le : α → α → Bool) (x : α) : List α → List α
  | [] => [x]
  | y :: ys => if le y x ∧ ¬ le x y then y :: sInsert le x ys else x :: y :: ys

/-- Stable sort by a boolean total preorder; models the (stable) ECMAScript
`Array.prototype.sort` for the consistent comparators used in this program. -/
def stableSort {α : Type} (le : α → α → Bool) : List α → List α
  | [] => []
  | x :: xs => sInsert le x (stableSort le xs)

-- ===========================================================================
-- Data model (src/types/game.ts as used by the final tickProcessor.ts)
-- ===========================================================================

/-- A quantity of a resource (process inputs/outputs). -/
structure ResourceAmount where
  resource : String
  quantity : ℚ
deriving DecidableEq

/-- Production process definition (startup/cycle/tick inputs, outputs). -/
structure ProductionProcess where
  id : String
  name : String
  startupInputs : List ResourceAmount
  cycleInputs : List ResourceAmount
  tickInputs : List ResourceAmount
  outputs : List ResourceAmount
  cycleTicks : ℚ
  startupTicks : ℚ
  minVolume : ℚ
  maxVolume : ℚ
deriving DecidableEq

/-- Retail process definition. -/
structure RetailProcess where
  id : String
  name : String
  resource : String
deriving DecidableEq

/-- Procurement process definition. -/
structure ProcurementProcess where
  id : String
  name : String
  resource : String
deriving DecidableEq

/-- Fulfillment process definition. -/
structure FulfillmentProcess where
  id : String
  name : String
  resource : String
deriving DecidableEq

/-- All process definitions grouped by category. -/
structure ProcessesConfig where
  production : List ProductionProcess
  retail : List RetailProcess
  procurement : List ProcurementProcess
  fulfillment : List FulfillmentProcess
deriving DecidableEq

/-- Process IDs an entity type can run, by category. -/
structure EntityTypeProcesses where
  production : List String
  retail : List String
  procurement : List String
  fulfillment : List String
deriving DecidableEq

/-- Entity type definition. -/
structure EntityTypeConfig where
  name : String
  canHold : List String
  maxProcessLines : ℚ
  processes : EntityTypeProcesses
deriving DecidableEq

/-- Demand phase in a location's cycle. -/
structure DemandPhase where
  name : String
  ticks : ℚ
  multiplier : ℚ
deriving DecidableEq

/-- Demand cycle configuration (per-location). -/
structure DemandCycleConfig where
  phases : List DemandPhase
  variance : ℚ
deriving DecidableEq

/-- Location definition. -/
structure LocationConfig where
  id : String
  name : String
  localTransportTicks : ℚ
  demand : StrMap ℚ
  demandCycle : Option DemandCycleConfig
deriving DecidableEq

/-- Corridor type (currently inert). -/
inductive CorridorType
  | land
  | maritime
  | air
deriving DecidableEq

/-- Bi-directional corridor between two locations. -/
structure CorridorConfig where
  locationA : String
  locationB : String
  cost : ℚ
  type : CorridorType
deriving DecidableEq

/-- Result of shortest-path computation (corridor-only cost). -/
structure PathResult where
  cost : ℚ
  path : List String
deriving DecidableEq

/-- Pricing tables. -/
structure PricingConfig where
  basePrices : StrMap ℚ
  retailPrices : StrMap ℚ
  storageCostPerUnit : ℚ
deriving DecidableEq

/-- Entity definition in the scenario file.
The `money` field is not present in the scenario types of the sources.
Modelled from the spec: the scenario carries each entity's starting money
("scenario (initial entities, inventories, supplier eligibility lists,
starting money, designated default controlled entity)"). -/
structure ScenarioEntity where
  id : String
  type : String
  name : String
  locationId : String
  inventory : StrMap ℚ
  money : ℚ
  suppliers : Option (StrMap (List String))
deriving DecidableEq

/-- Scenario configuration. -/
structure ScenarioConfig where
  name : String
  description : String
  entities : List ScenarioEntity
  defaultPlayerEntity : String
deriving DecidableEq

/-- Resource definition. -/
structure ResourceConfig where
  id : String
  name : String
deriving DecidableEq

/-- Full validated game configuration handed to the engine (the UI-only
tick-speed settings are omitted). -/
structure GameConfig where
  resources : List ResourceConfig
  processes : ProcessesConfig
  entityTypes : StrMap EntityTypeConfig
  locations : List LocationConfig
  corridors : List CorridorConfig
  scenario : ScenarioConfig
  pricing : PricingConfig
  contractWaitTicks : ℚ
  contractDefaultPenaltyRate : ℚ
  contractDefaultCancellationThreshold : ℚ
deriving DecidableEq

/-- Runtime entity. -/
structure Entity where
  id : String
  type : String
  name : String
  locationId : String
  inventory : StrMap ℚ
  committed : StrMap ℚ
  money : ℚ
  isPlayerControlled : Bool
  suppliers : StrMap (List String)
deriving DecidableEq

/-- Phase of a process line. -/
inductive ProcessLinePhase
  | starting
  | running
deriving DecidableEq

/-- A running instance of a production process. -/
structure ProcessLine where
  id : String
  processId : String
  entityId : String
  phase : ProcessLinePhase
  startupTicksRemaining : ℚ
  progress : ℚ
  volume : ℚ
deriving DecidableEq

/-- Order status. -/
inductive OrderStatus
  | pending
  | accepted
  | in_transit
  | delivered
  | declined
deriving DecidableEq

/-- An order placed by a buyer to a seller. -/
structure Order where
  id : String
  placedAtTick : ℚ
  deliveredAtTick : Option ℚ
  buyerEntityId : String
  sellerEntityId : String
  resource : String
  requestedQuantity : ℚ
  fulfilledQuantity : ℚ
  wasAmended : Bool
  status : OrderStatus
  pricePerUnit : ℚ
  contractId : Option String
deriving DecidableEq

/-- A delivery in transit. -/
structure Delivery where
  id : String
  orderId : String
  fromEntityId : String
  toEntityId : String
  resource : String
  quantity : ℚ
  ticksRemaining : ℚ
  route : List String
  pricePerUnit : ℚ
deriving DecidableEq

/-- Contract status. -/
inductive ContractStatus
  | proposed
  | active
  | completed
  | cancelled
deriving DecidableEq

/-- A scheduled recurring supply agreement. -/
structure Contract where
  id : String
  buyerEntityId : String
  sellerEntityId : String
  resource : String
  pricePerUnit : ℚ
  unitsPerDelivery : ℚ
  deliveryInterval : ℚ
  totalUnits : ℚ
  unitsShipped : ℚ
  unitsMissed : ℚ
  penaltyPerUnit : ℚ
  cancellationThreshold : ℚ
  proposedAtTick : ℚ
  acceptedAtTick : Option ℚ
  nextDeliveryTick : ℚ
  status : ContractStatus
deriving DecidableEq

/-- Contract proposal payload of a player action. -/
structure ContractProposalSpec where
  supplierId : String
  resource : String
  pricePerUnit : ℚ
  unitsPerDelivery : ℚ
  deliveryInterval : ℚ
  totalUnits : ℚ
deriving DecidableEq

/-- Kind of a queued player action. -/
inductive PlayerActionKind
  | start_line
  | stop_line
  | set_volume
  | order
  | propose_contract
  | accept_contract
  | decline_contract
deriving DecidableEq

/-- Queued external (player) action. -/
structure PlayerOrder where
  entityId : String
  action : PlayerActionKind
  targetId : String
  quantity : ℚ
  supplierId : Option String
  lineId : Option String
  contractProposal : Option ContractProposalSpec
deriving DecidableEq

/-- Position in a location's demand cycle. -/
structure DemandPhaseState where
  phaseIndex : ℕ
  ticksInPhase : ℚ
deriving DecidableEq

/-- Per-resource sales statistics. -/
structure ResourceSalesStats where
  totalSold : ℚ
  totalDemand : ℚ
  lostSales : ℚ
deriving DecidableEq

/-- Full game state. `idCounter` models the module-level id counter of
tickProcessor.ts and `randCounter` the consumed positions of the
`Math.random()` stream. -/
structure GameState where
  tick : ℚ
  entities : List Entity
  processLines : List ProcessLine
  orders : List Order
  deliveries : List Delivery
  demandPhases : StrMap DemandPhaseState
  sales : StrMap (StrMap ResourceSalesStats)
  contracts : List Contract
  idCounter : ℕ
  randCounter : ℕ
deriving DecidableEq

/-- Default order used for (always in-range) JS array indexing. -/
def defaultOrder : Order :=
  { id := "", placedAtTick := 0, deliveredAtTick := none, buyerEntityId := ""
    sellerEntityId := "", resource := "", requestedQuantity := 0
    fulfilledQuantity := 0, wasAmended := false, status := OrderStatus.pending
    pricePerUnit := 0, contractId := none }

/-- Default contract used for (always in-range) JS array indexing. -/
def defaultContract : Contract :=
  { id := "", buyerEntityId := "", sellerEntityId := "", resource := ""
    pricePerUnit := 0, unitsPerDelivery := 0, deliveryInterval := 0
    totalUnits := 0, unitsShipped := 0, unitsMissed := 0, penaltyPerUnit := 0
    cancellationThreshold := 0, proposedAtTick := 0, acceptedAtTick := none
    nextDeliveryTick := 0, status := ContractStatus.proposed }

/-- Thrown exceptions: `none` aborts the tick (the TypeScript code throws). -/
abbrev Thr (α : Type) : Type := Option α

/-- The id produced by `nextId` once the counter has been bumped to `n`. -/
def nextIdStr (tag : String) (n : ℕ) : String :=
  tag ++ "-" ++ toString n

-- ===========================================================================
-- configLoader.ts: pathfinding and accessors
-- ===========================================================================

/-- buildAdjacencyList: bi-directional adjacency from corridors, with JS
object/array insertion order. -/
def buildAdjacencyList (corridors : List CorridorConfig) :
    StrMap (List (String × ℚ)) :=
  corridors.foldl (fun adj c =>
    let adj := if smHasKey adj c.locationA then adj else smSet adj c.locationA []
    let adj := if smHasKey adj c.locationB then adj else smSet adj c.locationB []
    let adj := smSet adj c.locationA
      (smGet adj c.locationA [] ++ [(c.locationB, c.cost)])
    smSet adj c.locationB
      (smGet adj c.locationB [] ++ [(c.locationA, c.cost)])) []

/-- One `Object.entries(dist)` scan for the unvisited node of smallest finite
distance (strict improvement over `Infinity`, first winner kept). -/
def findMinUnvisited (dist : StrMap (WithTop ℚ)) (visited : List String) :
    Option (String × WithTop ℚ) :=
  dist.foldl (fun best p =>
    if ¬ visited.contains p.1 ∧ p.2 < (best.map (·.2)).getD ⊤ then some p
    else best) none

/-- Relax the neighbors of `current` (JS inner `for` loop). A neighbor absent
from `dist` is never improved (`newDist < undefined` is false in JS). -/
def relaxNeighbors (current : String) (currentDist : WithTop ℚ)
    (neighbors : List (String × ℚ)) (visited : List String)
    (dist : StrMap (WithTop ℚ)) (prev : StrMap (Option String)) :
    StrMap (WithTop ℚ) × StrMap (Option String) :=
  neighbors.foldl (fun (acc : StrMap (WithTop ℚ) × StrMap (Option String)) nb =>
    if visited.contains nb.1 then acc
    else
      let newDist := currentDist + (nb.2 : WithTop ℚ)
      match smLookup acc.1 nb.1 with
      | none => acc
      | some d =>
          if newDist < d then (smSet acc.1 nb.1 newDist, smSet acc.2 nb.1 (some current))
          else acc) (dist, prev)

/-- The Dijkstra `while (true)` loop. Each iteration either breaks or adds one
of the finitely many `dist` keys to `visited`, so fuel `dist.length + 1` is
never exhausted; the fuel-out branch is unreachable. -/
def dijkstraLoop (adj : StrMap (List (String × ℚ))) (dst : String) :
    ℕ → StrMap (WithTop ℚ) → StrMap (Option String) → List String →
    StrMap (WithTop ℚ) × StrMap (Option String)
  | 0, dist, prev, _ => (dist, prev)
  | fuel + 1, dist, prev, visited =>
    match findMinUnvisited dist visited with
    | none => (dist, prev)
    | some (current, currentDist) =>
        if current = dst then (dist, prev)
        else
          let visited := visited ++ [current]
          let (dist, prev) :=
            relaxNeighbors current currentDist (smGet adj current []) visited dist prev
          dijkstraLoop adj dst fuel dist prev visited

/-- Path reconstruction by walking `prev` links (JS `while (node !== null)`
with `unshift`). The `prev` chain of a Dijkstra run is acyclic, so fuel
`prev.length + 1` is never exhausted. A missing key ends the walk like
`null` (unreachable for states produced by the loop). -/
def reconstructPath (prev : StrMap (Option String)) :
    ℕ → String → List String → List String
  | 0, node, acc => node :: acc
  | fuel + 1, node, acc =>
    match smLookup prev node with
    | some (some parent) => reconstructPath prev fuel parent (node :: acc)
    | _ => node :: acc

/-- findShortestPath (configLoader.ts): Dijkstra over the corridor graph;
returns corridor-only cost and the node list, `none` when unreachable. -/
def findShortestPath (corridors : List CorridorConfig) (src dst : String) :
    Option PathResult :=
  if src = dst then some { cost := 0, path := [src] }
  else
    let adj := buildAdjacencyList corridors
    let dist : StrMap (WithTop ℚ) := adj.map (fun p => (p.1, (⊤ : WithTop ℚ)))
    let prev : StrMap (Option String) := adj.map (fun p => (p.1, none))
    let dist := smSet dist src 0
    let (dist, prev) := dijkstraLoop adj dst (dist.length + 1) dist prev []
    match smLookup dist dst with
    | none => none
    | some ⊤ => none
    | some (WithTop.some c) =>
        some { cost := c, path := reconstructPath prev (prev.length + 1) dst [] }

/-- getPath: the cached all-pairs table stores `findShortestPath` results, so
with the cache made transparent a lookup is a direct computation; a missing
entry throws. (Callers reach this only with validated location ids, for which
the table entry and the direct computation agree.) -/
def getPath (cfg : GameConfig) (src dst : String) : Thr PathResult :=
  findShortestPath cfg.corridors src dst

/-- getTransportTime: local(from) + corridor path cost + local(to); for the
same location just the local transport ticks, with no path lookup. Unknown
locations throw. -/
def getTransportTime (cfg : GameConfig) (src dst : String) : Thr ℚ := do
  let fromLoc ← cfg.locations.find? (fun l => l.id == src)
  let toLoc ← cfg.locations.find? (fun l => l.id == dst)
  if src = dst then pure fromLoc.localTransportTicks
  else do
    let pr ← getPath cfg src dst
    pure (fromLoc.localTransportTicks + pr.cost + toLoc.localTransportTicks)

/-- Result of getTransportRoute. -/
structure TransportRoute where
  totalTime : ℚ
  route : List String
deriving DecidableEq

/-- getTransportRoute: total time plus the ordered location list. -/
def getTransportRoute (cfg : GameConfig) (src dst : String) :
    Thr TransportRoute := do
  let fromLoc ← cfg.locations.find? (fun l => l.id == src)
  let toLoc ← cfg.locations.find? (fun l => l.id == dst)
  if src = dst then
    pure { totalTime := fromLoc.localTransportTicks, route := [src] }
  else do
    let pr ← getPath cfg src dst
    pure { totalTime := fromLoc.localTransportTicks + pr.cost + toLoc.localTransportTicks
           route := pr.path }

/-- getEntityType: throws for an unknown entity type. -/
def getEntityType (cfg : GameConfig) (entityType : String) :
    Thr EntityTypeConfig :=
  smLookup cfg.entityTypes entityType

/-- getProductionProcess: throws for an unknown process id. -/
def getProductionProcess (cfg : GameConfig) (processId : String) :
    Thr ProductionProcess :=
  cfg.processes.production.find? (fun p => p.id == processId)

/-- getProcurementProcess: throws for an unknown process id. -/
def getProcurementProcess (cfg : GameConfig) (processId : String) :
    Thr ProcurementProcess :=
  cfg.processes.procurement.find? (fun p => p.id == processId)

/-- getLocation: throws for an unknown location id. -/
def getLocation (cfg : GameConfig) (locationId : String) : Thr LocationConfig :=
  cfg.locations.find? (fun l => l.id == locationId)

/-- getProductionCostPerUnit: input cost (cycle + tick × cycleTicks) at base
prices divided by total output units; 0 for processes without outputs. -/
def getProductionCostPerUnit (cfg : GameConfig) (processId : String) :
    Thr ℚ := do
  let process ← getProductionProcess cfg processId
  let cycleCost := (process.cycleInputs.map
    (fun input => input.quantity * smGet cfg.pricing.basePrices input.resource 0)).sum
  let tickCost := (process.tickInputs.map
    (fun input => input.quantity * process.cycleTicks *
      smGet cfg.pricing.basePrices input.resource 0)).sum
  let totalInputCost := cycleCost + tickCost
  let totalOutputUnits := (process.outputs.map (·.quantity)).sum
  if totalOutputUnits = 0 then pure 0
  else pure (totalInputCost / totalOutputUnits)

/-- getBasePrice: base price table with default 0. -/
def getBasePrice (cfg : GameConfig) (resource : String) : ℚ :=
  smGet cfg.pricing.basePrices resource 0

/-- getRetailPrice: retail table, falling back to base table, then 0. -/
def getRetailPrice (cfg : GameConfig) (resource : String) : ℚ :=
  ((smLookup cfg.pricing.retailPrices resource).or
    (smLookup cfg.pricing.basePrices resource)).getD 0

-- ===========================================================================
-- tickProcessor.ts helpers
-- ===========================================================================

/-- getEntity: find an entity by id. -/
def getEntity (s : GameState) (id : String) : Option Entity :=
  s.entities.find? (fun e => e.id == id)

/-- updateEntity: map the updater over the entity with the given id. -/
def updateEntity (s : GameState) (id : String) (updater : Entity → Entity) :
    GameState :=
  { s with entities := s.entities.map (fun e => if e.id == id then updater e else e) }

/-- addToInventory: add quantity (no-op for a missing entity). -/
def addToInventory (s : GameState) (entityId resource : String) (quantity : ℚ) :
    GameState :=
  match getEntity s entityId with
  | none => s
  | some entity =>
      let current := smGet entity.inventory resource 0
      updateEntity s entityId (fun e =>
        { e with inventory := smSet e.inventory resource (current + quantity) })

/-- removeFromInventory: `null` (none) when stock is insufficient, otherwise
the updated state; never a partial removal. -/
def removeFromInventory (s : GameState) (entityId resource : String)
    (quantity : ℚ) : Option GameState :=
  match getEntity s entityId with
  | none => none
  | some entity =>
      let current := smGet entity.inventory resource 0
      if current < quantity then none
      else some (updateEntity s entityId (fun e =>
        { e with inventory := smSet e.inventory resource (current - quantity) }))

/-- getAvailable: inventory minus committed. -/
def getAvailable (entity : Entity) (resource : String) : ℚ :=
  smGet entity.inventory resource 0 - smGet entity.committed resource 0

/-- addCommitted. -/
def addCommitted (s : GameState) (entityId resource : String) (quantity : ℚ) :
    GameState :=
  match getEntity s entityId with
  | none => s
  | some entity =>
      let current := smGet entity.committed resource 0
      updateEntity s entityId (fun e =>
        { e with committed := smSet e.committed resource (current + quantity) })

/-- removeCommitted: clamped at 0; the key is deleted when it reaches 0. -/
def removeCommitted (s : GameState) (entityId resource : String) (quantity : ℚ) :
    GameState :=
  match getEntity s entityId with
  | none => s
  | some entity =>
      let current := smGet entity.committed resource 0
      let newValue := max 0 (current - quantity)
      let newCommitted :=
        if newValue = 0 then smErase (smSet entity.committed resource newValue) resource
        else smSet entity.committed resource newValue
      updateEntity s entityId (fun e => { e with committed := newCommitted })

/-- transferMoney (the negative-balance console warning has no state effect). -/
def transferMoney (s : GameState) (fromEntityId toEntityId : String)
    (amount : ℚ) : GameState :=
  if amount ≤ 0 then s
  else
    match getEntity s fromEntityId, getEntity s toEntityId with
    | some _, some _ =>
        let s := updateEntity s fromEntityId (fun e => { e with money := e.money - amount })
        updateEntity s toEntityId (fun e => { e with money := e.money + amount })
    | _, _ => s

/-- deductMoney. -/
def deductMoney (s : GameState) (entityId : String) (amount : ℚ) : GameState :=
  if amount ≤ 0 then s
  else updateEntity s entityId (fun e => { e with money := e.money - amount })

/-- addMoney. -/
def addMoney (s : GameState) (entityId : String) (amount : ℚ) : GameState :=
  if amount ≤ 0 then s
  else updateEntity s entityId (fun e => { e with money := e.money + amount })

-- ===========================================================================
-- fulfillmentAI (part_005, price-aware variant)
-- ===========================================================================

/-- Transport time from the seller to an order's buyer as used by the
priority comparator: a missing buyer is `Infinity` (⊤). A throwing transport
lookup cannot be reached with a validated configuration; it is mapped to ⊤ so
the comparator stays total. -/
def orderBuyerTime (seller : Entity) (orders : List Order) (s : GameState)
    (cfg : GameConfig) (idx : ℕ) : WithTop ℚ :=
  let o := orders.getD idx defaultOrder
  match s.entities.find? (fun e => e.id == o.buyerEntityId) with
  | none => ⊤
  | some buyer =>
      match getTransportTime cfg seller.locationId buyer.locationId with
      | some t => (t : WithTop ℚ)
      | none => ⊤

/-- The sort comparator of sortOrdersByPriority as a boolean preorder:
`le i j` holds when the order at index `i` may precede the one at `j`
(comparator value ≤ 0): higher price first, then shorter transport time,
then earlier placement tick. -/
def orderPriorityLe (seller : Entity) (orders : List Order) (s : GameState)
    (cfg : GameConfig) (i j : ℕ) : Bool :=
  let a := orders.getD i defaultOrder
  let b := orders.getD j defaultOrder
  if a.pricePerUnit ≠ b.pricePerUnit then decide (b.pricePerUnit < a.pricePerUnit)
  else
    let timeA := orderBuyerTime seller orders s cfg i
    let timeB := orderBuyerTime seller orders s cfg j
    if timeA ≠ timeB then decide (timeA < timeB)
    else decide (a.placedAtTick ≤ b.placedAtTick)

/-- sortOrdersByPriority: sorted order indices, highest priority first. -/
def sortOrdersByPriority (seller : Entity) (orderIndices : List ℕ)
    (orders : List Order) (s : GameState) (cfg : GameConfig) : List ℕ :=
  stableSort (orderPriorityLe seller orders s cfg) orderIndices

/-- The cost-floor scan of decideOrderFulfillment: the first production
process of the seller's type that outputs the resource fixes the floor;
otherwise 0. -/
def findCostFloor (cfg : GameConfig) (resource : String) :
    List String → Thr ℚ
  | [] => pure 0
  | processId :: rest =>
    match cfg.processes.production.find? (fun p => p.id == processId) with
    | none => findCostFloor cfg resource rest
    | some process =>
        if process.outputs.any (fun o => o.resource == resource) then
          getProductionCostPerUnit cfg processId
        else findCostFloor cfg resource rest

/-- decideOrderFulfillment (price-aware variant): quantity to fulfill,
0 to decline; declines prices below the seller's production cost floor. -/
def decideOrderFulfillment (seller : Entity) (order : Order)
    (availableStock requestedQuantity : ℚ) (cfg : GameConfig) : Thr ℚ := do
  if availableStock ≤ 0 then pure 0
  else
    match smLookup cfg.entityTypes seller.type with
    | none => pure (min requestedQuantity availableStock)
    | some sellerType => do
        let minCost ← findCostFloor cfg order.resource sellerType.processes.production
        if order.pricePerUnit < minCost then pure 0
        else pure (min requestedQuantity availableStock)

-- ===========================================================================
-- productionAI.ts
-- ===========================================================================

/-- Threshold above which a source process entity stops producing. -/
def MINE_MAX_STOCK : ℚ := 30

/-- Production decision intents. -/
structure ProductionDecision where
  linesToStart : List (String × ℚ)
  linesToStop : List String
deriving DecidableEq

/-- A source process has no cycle and no tick inputs. -/
def isSourceProcess (process : ProductionProcess) : Bool :=
  process.cycleInputs.isEmpty && process.tickInputs.isEmpty

/-- hasRequiredInputs: enough stock for cycle and tick inputs at a volume. -/
def hasRequiredInputs (entity : Entity) (process : ProductionProcess)
    (volume : ℚ) : Bool :=
  (process.cycleInputs.all (fun input =>
    decide (input.quantity * volume ≤ smGet entity.inventory input.resource 0))) &&
  (process.tickInputs.all (fun input =>
    decide (input.quantity * volume ≤ smGet entity.inventory input.resource 0)))

/-- decideSourceProduction: stop all lines when overstocked, else start one
line at minimum volume when none runs and a slot is free. -/
def decideSourceProduction (entity : Entity) (process : ProductionProcess)
    (linesForProcess : List ProcessLine) (availableSlots : ℚ)
    (decision : ProductionDecision) : ProductionDecision :=
  match process.outputs.head? with
  | none => decision
  | some out =>
      let currentStock := smGet entity.inventory out.resource 0
      if MINE_MAX_STOCK ≤ currentStock then
        { decision with linesToStop := decision.linesToStop ++ linesForProcess.map (·.id) }
      else if linesForProcess.isEmpty ∧ 0 < availableSlots then
        { decision with linesToStart := decision.linesToStart ++ [(process.id, process.minVolume)] }
      else decision

/-- decideNormalProduction: start one line at minimum volume when none runs,
a slot is free and the inputs are currently available. -/
def decideNormalProduction (entity : Entity) (process : ProductionProcess)
    (linesForProcess : List ProcessLine) (availableSlots : ℚ)
    (decision : ProductionDecision) : ProductionDecision :=
  if linesForProcess.isEmpty ∧ 0 < availableSlots ∧
      hasRequiredInputs entity process process.minVolume then
    { decision with linesToStart := decision.linesToStart ++ [(process.id, process.minVolume)] }
  else decision

/-- decideProduction: per-process start/stop intents of an AI entity. -/
def decideProduction (entity : Entity) (entityType : EntityTypeConfig)
    (entityLines : List ProcessLine) (_s : GameState) (cfg : GameConfig) :
    Thr ProductionDecision := do
  let availableSlots := entityType.maxProcessLines - (entityLines.length : ℚ)
  entityType.processes.production.foldlM (fun decision processId => do
    let process ← getProductionProcess cfg processId
    let linesForProcess := entityLines.filter (fun l => l.processId == processId)
    if isSourceProcess process then
      pure (decideSourceProduction entity process linesForProcess availableSlots decision)
    else
      pure (decideNormalProduction entity process linesForProcess availableSlots decision))
    { linesToStart := [], linesToStop := [] }

-- ===========================================================================
-- procurementAI (ai/index.ts, contract-aware variant)
-- ===========================================================================

/-- Threshold below which the AI places emergency spot orders. -/
def AI_EMERGENCY_THRESHOLD : ℚ := 5

/-- Emergency spot order size. -/
def AI_EMERGENCY_QUANTITY : ℚ := 10

/-- General reorder threshold without a covering contract. -/
def AI_REORDER_THRESHOLD : ℚ := 10

/-- Standard order quantity. -/
def AI_ORDER_QUANTITY : ℚ := 10

/-- A spot-order intent. -/
structure ProcurementOrderIntent where
  resource : String
  quantity : ℚ
  supplierId : Option String
  pricePerUnit : ℚ
deriving DecidableEq

/-- A supplier candidate scored by the procurement AI. -/
structure SupplierCandidate where
  id : String
  available : ℚ
  distance : ℚ
deriving DecidableEq

/-- Comparator of pickBestSupplier as a preorder: shorter transport time
first, ties by larger available stock. -/
def supplierRankLe (a b : SupplierCandidate) : Bool :=
  if a.distance ≠ b.distance then decide (a.distance < b.distance)
  else decide (b.available ≤ a.available)

/-- Distance-only comparator (fallback ranking and contract suppliers). -/
def supplierDistanceLe (a b : SupplierCandidate) : Bool :=
  decide (a.distance ≤ b.distance)

/-- Candidate list shared by the supplier pickers: per listed supplier its
available stock and transport time; missing suppliers are dropped, and a
transport-time lookup for any listed supplier may throw. -/
def supplierCandidates (entity : Entity) (resource : String)
    (supplierIds : List String) (s : GameState) (cfg : GameConfig) :
    Thr (List SupplierCandidate) :=
  supplierIds.foldlM (fun acc id =>
    match s.entities.find? (fun e => e.id == id) with
    | none => pure acc
    | some supplier => do
        let available := smGet supplier.inventory resource 0 -
          smGet supplier.committed resource 0
        let distance ← getTransportTime cfg supplier.locationId entity.locationId
        pure (acc ++ [{ id := id, available := available, distance := distance }])) []

/-- pickBestSupplier (procurement AI): among suppliers with stock the closest
(ties by larger stock); otherwise the closest supplier overall; none when the
candidate list is empty. -/
def pickBestSupplier (entity : Entity) (resource : String)
    (supplierIds : List String) (s : GameState) (cfg : GameConfig) :
    Thr (Option String) := do
  let candidates ← supplierCandidates entity resource supplierIds s cfg
  let withStock := candidates.filter (fun c => decide (0 < c.available))
  match stableSort supplierRankLe withStock with
  | c :: _ => pure (some c.id)
  | [] =>
    match stableSort supplierDistanceLe candidates with
    | c :: _ => pure (some c.id)
    | [] => pure none

/-- decideOrderForResource: emergency policy under an active contract,
standard reorder policy otherwise. -/
def decideOrderForResource (entity : Entity) (resource : String)
    (s : GameState) (cfg : GameConfig)
    (decision : List ProcurementOrderIntent) :
    Thr (List ProcurementOrderIntent) := do
  let supplierIds := smGet entity.suppliers resource []
  if supplierIds.isEmpty then pure decision
  else
    let currentStock := smGet entity.inventory resource 0
    let hasContract := s.contracts.any (fun c =>
      c.buyerEntityId == entity.id && c.resource == resource &&
        c.status == ContractStatus.active)
    let threshold := if hasContract then AI_EMERGENCY_THRESHOLD else AI_REORDER_THRESHOLD
    let quantity := if hasContract then AI_EMERGENCY_QUANTITY else AI_ORDER_QUANTITY
    if currentStock < threshold then do
      let best ← pickBestSupplier entity resource supplierIds s cfg
      match best with
      | some supplierId =>
          pure (decision ++ [{ resource := resource, quantity := quantity
                               supplierId := some supplierId
                               pricePerUnit := getBasePrice cfg resource }])
      | none => pure decision
    else pure decision

/-- decideProcurement: spot-order intents of an AI entity. -/
def decideProcurement (entity : Entity) (entityType : EntityTypeConfig)
    (s : GameState) (cfg : GameConfig) : Thr (List ProcurementOrderIntent) :=
  entityType.processes.procurement.foldlM (fun decision processId => do
    let process ← getProcurementProcess cfg processId
    decideOrderForResource entity process.resource s cfg decision) []

-- ===========================================================================
-- contractAI.ts
-- ===========================================================================

/-- Number of deliveries per AI-proposed contract. -/
def CONTRACT_DELIVERIES : ℚ := 5

/-- Units per delivery of an AI-proposed contract. -/
def CONTRACT_UNITS_PER_DELIVERY : ℚ := 10

/-- Ticks between deliveries of an AI-proposed contract. -/
def CONTRACT_DELIVERY_INTERVAL : ℚ := 5

/-- Stock threshold below which the AI proposes a contract. -/
def CONTRACT_PROPOSE_THRESHOLD : ℚ := 15

/-- A contract-proposal intent. -/
structure ContractProposalIntent where
  resource : String
  supplierId : String
  unitsPerDelivery : ℚ
  deliveryInterval : ℚ
  totalUnits : ℚ
  pricePerUnit : ℚ
deriving DecidableEq

/-- pickContractSupplier: closest supplier with stock, else closest overall,
none if no candidate. -/
def pickContractSupplier (entity : Entity) (resource : String)
    (supplierIds : List String) (s : GameState) (cfg : GameConfig) :
    Thr (Option String) := do
  let candidates ← supplierCandidates entity resource supplierIds s cfg
  if candidates.isEmpty then pure none
  else
    let withStock := candidates.filter (fun c => decide (0 < c.available))
    match stableSort supplierDistanceLe withStock with
    | c :: _ => pure (some c.id)
    | [] =>
      match stableSort supplierDistanceLe candidates with
      | c :: _ => pure (some c.id)
      | [] => pure none

/-- proposeContracts: one proposal per procurement resource with low stock and
no existing active/proposed contract. -/
def proposeContracts (entity : Entity) (entityType : EntityTypeConfig)
    (s : GameState) (cfg : GameConfig) : Thr (List ContractProposalIntent) :=
  entityType.processes.procurement.foldlM (fun decision processId => do
    let process ← getProcurementProcess cfg processId
    let resource := process.resource
    let currentStock := smGet entity.inventory resource 0
    if CONTRACT_PROPOSE_THRESHOLD ≤ currentStock then pure decision
    else
      let hasExisting := s.contracts.any (fun c =>
        c.buyerEntityId == entity.id && c.resource == resource &&
          (c.status == ContractStatus.active || c.status == ContractStatus.proposed))
      if hasExisting then pure decision
      else do
        let supplierIds := smGet entity.suppliers resource []
        let best ← pickContractSupplier entity resource supplierIds s cfg
        match best with
        | none => pure decision
        | some supplierId =>
            pure (decision ++ [{
              resource := resource, supplierId := supplierId
              unitsPerDelivery := CONTRACT_UNITS_PER_DELIVERY
              deliveryInterval := CONTRACT_DELIVERY_INTERVAL
              totalUnits := CONTRACT_UNITS_PER_DELIVERY * CONTRACT_DELIVERIES
              pricePerUnit := getBasePrice cfg resource }])) []

/-- Contract-evaluation result: contract ids to accept and to decline. -/
structure ContractEvaluationResult where
  accept : List String
  decline : List String
deriving DecidableEq

/-- Price-descending preorder on contract proposals. -/
def contractPriceLe (a b : Contract) : Bool :=
  decide (b.pricePerUnit ≤ a.pricePerUnit)

/-- Cost floors per output resource: the minimum production cost over the
seller type's production processes producing that resource. A process id of
the entity type that is absent from the process table throws (the cost is
computed before the `find` guard). -/
def contractCostFloors (cfg : GameConfig) : List String → StrMap ℚ → Thr (StrMap ℚ)
  | [], floors => pure floors
  | processId :: rest, floors => do
    let costPerUnit ← getProductionCostPerUnit cfg processId
    match cfg.processes.production.find? (fun p => p.id == processId) with
    | none => contractCostFloors cfg rest floors
    | some process =>
        let floors := process.outputs.foldl (fun fl output =>
          match smLookup fl output.resource with
          | none => smSet fl output.resource costPerUnit
          | some existing =>
              if costPerUnit < existing then smSet fl output.resource costPerUnit
              else fl) floors
        contractCostFloors cfg rest floors

/-- Group a list by a string key, preserving first-occurrence key order and
within-key order (JS Map grouping). -/
def groupByKey {α : Type} (key : α → String) (l : List α) :
    List (String × List α) :=
  l.foldl (fun acc x =>
    let k := key x
    if smHasKey acc k then smSet acc k (smGet acc k [] ++ [x])
    else acc ++ [(k, [x])]) []

/-- evaluateContractProposals: per resource accept at most one proposal — the
highest-priced at or above the cost floor — and decline the rest. -/
def evaluateContractProposals (_seller : Entity)
    (entityType : EntityTypeConfig) (matureProposals : List Contract)
    (_s : GameState) (cfg : GameConfig) : Thr ContractEvaluationResult := do
  if matureProposals.isEmpty then pure { accept := [], decline := [] }
  else do
    let costFloors ← contractCostFloors cfg entityType.processes.production []
    let byResource := groupByKey (·.resource) matureProposals
    pure (byResource.foldl (fun result entry =>
      let costFloor := smGet costFloors entry.1 0
      let sorted := stableSort contractPriceLe entry.2
      (sorted.foldl (fun (st : ContractEvaluationResult × Bool) proposal =>
        if costFloor ≤ proposal.pricePerUnit ∧ ¬ st.2 then
          (({ st.1 with accept := st.1.accept ++ [proposal.id] }), true)
        else if proposal.pricePerUnit < costFloor then
          ({ st.1 with decline := st.1.decline ++ [proposal.id] }, st.2)
        else
          ({ st.1 with decline := st.1.decline ++ [proposal.id] }, st.2))
        (result, false)).1)
      { accept := [], decline := [] })

-- ===========================================================================
-- Phase 2: arrivals
-- ===========================================================================

/-- Loop body state of processArrivals: threaded game state, surviving
deliveries, and the orders array updated by index. -/
def arrivalsLoop (s : GameState) (stillActive : List Delivery)
    (updatedOrders : List Order) : List Delivery →
    GameState × List Delivery × List Order
  | [] => (s, stillActive, updatedOrders)
  | d :: rest =>
    if d.ticksRemaining ≤ 0 then
      let s := addToInventory s d.toEntityId d.resource d.quantity
      let payment := d.quantity * d.pricePerUnit
      let s := if 0 < payment then transferMoney s d.toEntityId d.fromEntityId payment else s
      let updatedOrders :=
        match updatedOrders.findIdx? (fun o => o.id == d.orderId) with
        | none => updatedOrders
        | some idx =>
            updatedOrders.set idx
              { updatedOrders.getD idx defaultOrder with
                status := OrderStatus.delivered, deliveredAtTick := some s.tick }
      arrivalsLoop s stillActive updatedOrders rest
    else
      arrivalsLoop s (stillActive ++ [{ d with ticksRemaining := d.ticksRemaining - 1 }])
        updatedOrders rest

/-- processArrivals: complete due deliveries (stock to the buyer, payment to
the seller, order marked delivered), age the rest by one tick. -/
def processArrivals (s : GameState) : GameState :=
  let r := arrivalsLoop s [] s.orders s.deliveries
  { r.1 with deliveries := r.2.1, orders := r.2.2 }

-- ===========================================================================
-- Phase 3: demand phases
-- ===========================================================================

/-- advanceDemandPhases: advance each demanding location's phase cycle; an
out-of-range phase index throws at the `.ticks` access. -/
def advanceDemandPhases (s : GameState) (cfg : GameConfig) : Thr GameState := do
  let updated ← cfg.locations.foldlM
    (fun (acc : StrMap DemandPhaseState) loc => do
      let hasDemand := loc.demand.any (fun p => decide (0 < p.2))
      match loc.demandCycle with
      | none => pure acc
      | some cycle =>
          if ¬ hasDemand then pure acc
          else do
            let current := smGet s.demandPhases loc.id
              { phaseIndex := 0, ticksInPhase := 0 }
            let currentPhase ← cycle.phases.get? current.phaseIndex
            let np : DemandPhaseState :=
              { phaseIndex := current.phaseIndex
                ticksInPhase := current.ticksInPhase + 1 }
            let np :=
              if currentPhase.ticks ≤ np.ticksInPhase then
                { phaseIndex := (current.phaseIndex + 1) % cycle.phases.length
                  ticksInPhase := 0 }
              else np
            pure (smSet acc loc.id np)) []
  pure { s with demandPhases := smMerge s.demandPhases updated }

/-- getCurrentDemand: instantaneous demand with the random factor drawn from
the oracle; threads the oracle position through the state. -/
def getCurrentDemand (s : GameState) (cfg : GameConfig) (rand : ℕ → ℚ)
    (locationId resource : String) : Thr (ℚ × GameState) := do
  let location ← getLocation cfg locationId
  let baseDemand := smGet location.demand resource 0
  if baseDemand = 0 then pure (0, s)
  else
    match location.demandCycle with
    | none => pure (baseDemand, s)
    | some cycle =>
      match smLookup s.demandPhases locationId with
      | none => pure (baseDemand, s)
      | some phaseState =>
        match cycle.phases.get? phaseState.phaseIndex with
        | none => pure (baseDemand, s)
        | some phase =>
            let demand := baseDemand * phase.multiplier
            let randomFactor := 1 + (rand s.randCounter * 2 - 1) * cycle.variance
            let s := { s with randCounter := s.randCounter + 1 }
            pure (max 0 ((⌊demand * randomFactor⌋ : ℤ) : ℚ), s)

-- ===========================================================================
-- Phase 4: process lines
-- ===========================================================================

/-- Live inventory read `getEntity(s, eid)?.inventory[r] ?? 0`. -/
def invOf (s : GameState) (entityId resource : String) : ℚ :=
  ((getEntity s entityId).map (fun e => smGet e.inventory resource 0)).getD 0

/-- Consume a scaled input list one by one, skipping any single failing
removal (`if (consumed) nextState = consumed`). -/
def consumeInputs (s : GameState) (entityId : String)
    (inputs : List ResourceAmount) (volume : ℚ) : GameState :=
  inputs.foldl (fun s input =>
    (removeFromInventory s entityId input.resource (input.quantity * volume)).getD s) s

/-- All inputs individually available at the given scale (each input checked
against the live inventory). -/
def canConsume (s : GameState) (entityId : String)
    (inputs : List ResourceAmount) (volume : ℚ) : Bool :=
  inputs.all (fun input =>
    decide (input.quantity * volume ≤ invOf s entityId input.resource))

/-- Cycle-completion part of the loop body: bump progress, emit outputs and
reset on completion. -/
def lineAdvance (process : ProductionProcess) (line : ProcessLine)
    (s : GameState) : GameState × Option ProcessLine :=
  let progress := line.progress + 1
  if process.cycleTicks ≤ progress then
    let s := process.outputs.foldl (fun s output =>
      addToInventory s line.entityId output.resource (output.quantity * line.volume)) s
    (s, some { line with progress := 0 })
  else (s, some { line with progress := progress })

/-- Tick-input part of the loop body: stall when tick inputs are missing,
else consume them and advance. -/
def lineTickPhase (process : ProductionProcess) (line : ProcessLine)
    (s : GameState) : GameState × Option ProcessLine :=
  if ¬ process.tickInputs.isEmpty then
    if ¬ canConsume s line.entityId process.tickInputs line.volume then (s, some line)
    else lineAdvance process line (consumeInputs s line.entityId process.tickInputs line.volume)
  else lineAdvance process line s

/-- One iteration of the processProductionLines loop: the returned option is
the line pushed onto the new line list (`none` when the owning entity is
missing and the line is dropped). -/
def processOneLine (cfg : GameConfig) (s : GameState) (line : ProcessLine) :
    Thr (GameState × Option ProcessLine) := do
  match getEntity s line.entityId with
  | none => pure (s, none)
  | some _ => do
    let process ← getProductionProcess cfg line.processId
    if line.phase = ProcessLinePhase.starting then
      let consumeNow :=
        line.startupTicksRemaining = process.startupTicks ∧
          ¬ process.startupInputs.isEmpty
      let stalled :=
        consumeNow ∧ ¬ canConsume s line.entityId process.startupInputs 1
      if stalled then pure (s, some line)
      else
        let s :=
          if consumeNow then consumeInputs s line.entityId process.startupInputs 1
          else s
        let l := { line with startupTicksRemaining := line.startupTicksRemaining - 1 }
        let l :=
          if l.startupTicksRemaining ≤ 0 then
            { l with phase := ProcessLinePhase.running, progress := 0 }
          else l
        pure (s, some l)
    else
      if line.progress = 0 ∧ ¬ process.cycleInputs.isEmpty then
        if ¬ canConsume s line.entityId process.cycleInputs line.volume then
          pure (s, some line)
        else
          pure (lineTickPhase process line
            (consumeInputs s line.entityId process.cycleInputs line.volume))
      else pure (lineTickPhase process line s)

/-- processProductionLines: fold the loop body over the snapshot of the line
list, collecting the surviving lines. -/
def processProductionLines (s : GameState) (cfg : GameConfig) :
    Thr GameState := do
  let r ← s.processLines.foldlM
    (fun (acc : GameState × List ProcessLine) line => do
      let (s1, pushed) ← processOneLine cfg acc.1 line
      pure (s1, acc.2 ++ pushed.toList)) (s, [])
  pure { r.1 with processLines := r.2 }

-- ===========================================================================
-- Phase 5: retail selling
-- ===========================================================================

/-- One retail process of one entity: sell against demand, earn revenue,
update sales statistics. `entity` is the loop snapshot, `s` the live state. -/
def retailOneProcess (cfg : GameConfig) (rand : ℕ → ℚ) (entity : Entity)
    (s : GameState) (retailProcessId : String) : Thr GameState := do
  match cfg.processes.retail.find? (fun p => p.id == retailProcessId) with
  | none => pure s
  | some retailProcess => do
      let resource := retailProcess.resource
      let (demand, s) ← getCurrentDemand s cfg rand entity.locationId resource
      let available := getAvailable entity resource
      let sold := min available demand
      let lostSales := max 0 (demand - sold)
      let s :=
        if 0 < sold then
          let s := (removeFromInventory s entity.id resource sold).getD s
          addMoney s entity.id (sold * getRetailPrice cfg resource)
        else s
      let entitySales := smGet s.sales entity.id []
      let currentStats := smGet entitySales resource
        { totalSold := 0, totalDemand := 0, lostSales := 0 }
      pure { s with sales := smSet s.sales entity.id (smSet entitySales resource
        { totalSold := currentStats.totalSold + sold
          totalDemand := currentStats.totalDemand + demand
          lostSales := currentStats.lostSales + lostSales }) }

/-- processRetailSelling: iterate the entity snapshot; entities whose type has
retail processes sell each of them. -/
def processRetailSelling (s : GameState) (cfg : GameConfig) (rand : ℕ → ℚ) :
    Thr GameState :=
  s.entities.foldlM (fun s entity => do
    let entityType ← getEntityType cfg entity.type
    if entityType.processes.retail.isEmpty then pure s
    else entityType.processes.retail.foldlM (retailOneProcess cfg rand entity) s) s

-- ===========================================================================
-- Phase 6: storage costs
-- ===========================================================================

/-- processStorageCosts: deduct the per-unit storage cost of each entity's
total held units. -/
def processStorageCosts (s : GameState) (cfg : GameConfig) : GameState :=
  let costPerUnit := cfg.pricing.storageCostPerUnit
  if costPerUnit ≤ 0 then s
  else
    s.entities.foldl (fun acc entity =>
      let totalUnits := (smValues entity.inventory).sum
      if 0 < totalUnits then deductMoney acc entity.id (totalUnits * costPerUnit)
      else acc) s

-- ===========================================================================
-- Phase 7 support: supplier selection and order placement
-- ===========================================================================

/-- Entity-valued supplier candidate of findBestSupplier. -/
structure EntityCandidate where
  supplier : Entity
  available : ℚ
  distance : ℚ
deriving DecidableEq

/-- Comparator of findBestSupplier: shorter transport time first, ties by
larger available stock. -/
def entityCandidateLe (a b : EntityCandidate) : Bool :=
  if a.distance ≠ b.distance then decide (a.distance < b.distance)
  else decide (b.available ≤ a.available)

/-- findBestSupplier (tickProcessor.ts): closest listed supplier with
positive available stock (ties by larger stock); with no stocked candidate,
the first listed supplier if it exists. -/
def findBestSupplier (s : GameState) (cfg : GameConfig)
    (buyerEntityId resource : String) : Thr (Option Entity) := do
  match getEntity s buyerEntityId with
  | none => pure none
  | some buyer => do
    let supplierIds := smGet buyer.suppliers resource []
    if supplierIds.isEmpty then pure none
    else do
      let candidates ← supplierIds.foldlM (fun acc id =>
        match getEntity s id with
        | none => pure acc
        | some supplier => do
            let distance ← getTransportTime cfg supplier.locationId buyer.locationId
            pure (acc ++ [{ supplier := supplier
                            available := getAvailable supplier resource
                            distance := distance }])) ([] : List EntityCandidate)
      let candidates := candidates.filter (fun c => decide (0 < c.available))
      match stableSort entityCandidateLe candidates with
      | c :: _ => pure (some c.supplier)
      | [] => pure (getEntity s (supplierIds.getD 0 ""))

/-- placePendingOrder: create a pending order against a named (validated)
or best-available seller; silently no order when none is found. -/
def placePendingOrder (s : GameState) (cfg : GameConfig)
    (buyerEntityId resource : String) (requestedQuantity pricePerUnit : ℚ)
    (supplierId : Option String) (contractId : Option String) :
    Thr GameState := do
  match getEntity s buyerEntityId with
  | none => pure s
  | some buyer => do
    let named : Option Entity :=
      match supplierId with
      | some sid =>
          if (smGet buyer.suppliers resource []).contains sid then getEntity s sid
          else none
      | none => none
    let seller ←
      match named with
      | some e => pure (some e)
      | none => findBestSupplier s cfg buyerEntityId resource
    match seller with
    | none => pure s
    | some seller =>
        let counter := s.idCounter + 1
        let order : Order :=
          { id := nextIdStr "order" counter
            placedAtTick := s.tick
            deliveredAtTick := none
            buyerEntityId := buyerEntityId
            sellerEntityId := seller.id
            resource := resource
            requestedQuantity := requestedQuantity
            fulfilledQuantity := 0
            wasAmended := false
            status := OrderStatus.pending
            pricePerUnit := pricePerUnit
            contractId := contractId }
        pure { s with orders := s.orders ++ [order], idCounter := counter }

-- ===========================================================================
-- Phase 9: order acceptance
-- ===========================================================================

/-- Inner loop of processOrderAcceptance over one seller's sorted pending
indices: decline or accept each order, committing the fulfilled quantity.
`seller` is the snapshot taken at group start (used for the cost-floor type
lookup); availability is read live. The non-null assertion on the live seller
lookup throws if it ever failed. -/
def acceptLoop (cfg : GameConfig) (sellerId : String) (seller : Entity) :
    List ℕ → GameState × List Order → Thr (GameState × List Order)
  | [], acc => pure acc
  | idx :: rest, (s, updatedOrders) => do
    let order := updatedOrders.getD idx defaultOrder
    let sellerNow ← getEntity s sellerId
    let available := getAvailable sellerNow order.resource
    let fulfilledQuantity ←
      decideOrderFulfillment seller order available order.requestedQuantity cfg
    if fulfilledQuantity ≤ 0 then
      acceptLoop cfg sellerId seller rest
        (s, updatedOrders.set idx
          { order with status := OrderStatus.declined, fulfilledQuantity := 0 })
    else
      let wasAmended := fulfilledQuantity < order.requestedQuantity
      let updatedOrders := updatedOrders.set idx
        { order with status := OrderStatus.accepted
                     fulfilledQuantity := fulfilledQuantity
                     wasAmended := wasAmended }
      acceptLoop cfg sellerId seller rest
        (addCommitted s sellerId order.resource fulfilledQuantity, updatedOrders)

/-- Outer loop of processOrderAcceptance over the seller groups. -/
def acceptSellerGroups (cfg : GameConfig) :
    List (String × List ℕ) → GameState × List Order →
    Thr (GameState × List Order)
  | [], acc => pure acc
  | (sellerId, orderIndices) :: rest, (s, updatedOrders) => do
    match getEntity s sellerId with
    | none =>
        let updatedOrders := orderIndices.foldl (fun os idx =>
          os.set idx { os.getD idx defaultOrder with status := OrderStatus.declined })
          updatedOrders
        acceptSellerGroups cfg rest (s, updatedOrders)
    | some seller => do
        let sortedIndices := sortOrdersByPriority seller orderIndices updatedOrders s cfg
        let acc ← acceptLoop cfg sellerId seller sortedIndices (s, updatedOrders)
        acceptSellerGroups cfg rest acc

/-- Indices of pending orders, in array order. -/
def pendingIndices (orders : List Order) : List ℕ :=
  (List.range orders.length).filter (fun i =>
    (orders.getD i defaultOrder).status == OrderStatus.pending)

/-- Pending indices grouped by seller, js-object key order. -/
def ordersBySeller (orders : List Order) : List (String × List ℕ) :=
  (pendingIndices orders).foldl (fun acc i =>
    let sid := (orders.getD i defaultOrder).sellerEntityId
    if smHasKey acc sid then smSet acc sid (smGet acc sid [] ++ [i])
    else acc ++ [(sid, [i])]) []

/-- processOrderAcceptance: sellers process their pending orders in priority
order against live available stock. -/
def processOrderAcceptance (s : GameState) (cfg : GameConfig) :
    Thr GameState := do
  let acc ← acceptSellerGroups cfg (ordersBySeller s.orders) (s, s.orders)
  pure { acc.1 with orders := acc.2 }

-- ===========================================================================
-- Phase 10: departures
-- ===========================================================================

/-- Loop body of processDepartures over order indices: each accepted order
ships — deduct inventory and committed, create the delivery via the routing
engine — or is declined when its parties, quantity or stock fail. -/
def departLoop (cfg : GameConfig) :
    List ℕ → GameState × List Order × List Delivery →
    Thr (GameState × List Order × List Delivery)
  | [], acc => pure acc
  | i :: rest, (s, updatedOrders, newDeliveries) => do
    let order := updatedOrders.getD i defaultOrder
    if order.status ≠ OrderStatus.accepted then
      departLoop cfg rest (s, updatedOrders, newDeliveries)
    else
      match getEntity s order.sellerEntityId, getEntity s order.buyerEntityId with
      | some seller, some buyer =>
        if order.fulfilledQuantity ≤ 0 then
          departLoop cfg rest
            (s, updatedOrders.set i { order with status := OrderStatus.declined },
              newDeliveries)
        else
          match removeFromInventory s seller.id order.resource order.fulfilledQuantity with
          | none =>
              departLoop cfg rest
                (s, updatedOrders.set i
                  { order with status := OrderStatus.declined, fulfilledQuantity := 0 },
                  newDeliveries)
          | some s => do
              let s := removeCommitted s seller.id order.resource order.fulfilledQuantity
              let tr ← getTransportRoute cfg seller.locationId buyer.locationId
              let counter := s.idCounter + 1
              let delivery : Delivery :=
                { id := nextIdStr "delivery" counter
                  orderId := order.id
                  fromEntityId := seller.id
                  toEntityId := order.buyerEntityId
                  resource := order.resource
                  quantity := order.fulfilledQuantity
                  ticksRemaining := tr.totalTime
                  route := tr.route
                  pricePerUnit := order.pricePerUnit }
              departLoop cfg rest
                ({ s with idCounter := counter },
                  updatedOrders.set i { order with status := OrderStatus.in_transit },
                  newDeliveries ++ [delivery])
      | _, _ =>
          departLoop cfg rest
            (s, updatedOrders.set i { order with status := OrderStatus.declined },
              newDeliveries)

/-- processDepartures: ship every accepted order. -/
def processDepartures (s : GameState) (cfg : GameConfig) : Thr GameState := do
  let acc ← departLoop cfg (List.range s.orders.length) (s, s.orders, s.deliveries)
  pure { acc.1 with orders := acc.2.1, deliveries := acc.2.2 }

-- ===========================================================================
-- Phase 7b: AI decisions
-- ===========================================================================

/-- The lines-to-start loop with its capacity `break`: the counter is read
from the live line list, and each started line consumes a fresh id. -/
def startLinesLoop (cfg : GameConfig) (entity : Entity)
    (entityType : EntityTypeConfig) :
    List (String × ℚ) → List ProcessLine × ℕ → Thr (List ProcessLine × ℕ)
  | [], acc => pure acc
  | toStart :: rest, (newLines, counter) => do
    let currentCount := (newLines.filter (fun l => l.entityId == entity.id)).length
    if entityType.maxProcessLines ≤ (currentCount : ℚ) then pure (newLines, counter)
    else do
      let process ← getProductionProcess cfg toStart.1
      let counter := counter + 1
      let line : ProcessLine :=
        { id := nextIdStr "line" counter
          processId := toStart.1
          entityId := entity.id
          phase := if 0 < process.startupTicks then ProcessLinePhase.starting
                   else ProcessLinePhase.running
          startupTicksRemaining := process.startupTicks
          progress := 0
          volume := toStart.2 }
      startLinesLoop cfg entity entityType rest (newLines ++ [line], counter)

/-- processAIDecisions: non-player entities act on production and procurement
intents; the orchestrator alone commits them. -/
def processAIDecisions (s : GameState) (cfg : GameConfig) : Thr GameState := do
  let acc ← s.entities.foldlM
    (fun (acc : GameState × List ProcessLine) entity => do
      let (s, newLines) := acc
      if entity.isPlayerControlled then pure (s, newLines)
      else do
        let entityType ← getEntityType cfg entity.type
        let entityLines := newLines.filter (fun l => l.entityId == entity.id)
        let (s, newLines) ←
          if ¬ entityType.processes.production.isEmpty then do
            let prodDecision ← decideProduction entity entityType entityLines s cfg
            let newLines := prodDecision.linesToStop.foldl (fun nl lineId =>
              match nl.findIdx? (fun l => l.id == lineId) with
              | some idx => nl.eraseIdx idx
              | none => nl) newLines
            let (newLines, counter) ←
              startLinesLoop cfg entity entityType prodDecision.linesToStart
                (newLines, s.idCounter)
            pure ({ s with idCounter := counter }, newLines)
          else pure (s, newLines)
        if ¬ entityType.processes.procurement.isEmpty then do
          let procDecision ← decideProcurement entity entityType s cfg
          let s ← procDecision.foldlM (fun s intent =>
            placePendingOrder s cfg entity.id intent.resource intent.quantity
              intent.pricePerUnit intent.supplierId none) s
          pure (s, newLines)
        else pure (s, newLines))
    (s, s.processLines)
  pure { acc.1 with processLines := acc.2 }

-- ===========================================================================
-- Phase 8: contract management
-- ===========================================================================

/-- 8a: AI entities propose new contracts. Only the id counter of the
threaded state changes; the proposals accumulate separately and existing
contracts are read from the phase-entry state. -/
def contractProposalsLoop (cfg : GameConfig) (sEntry : GameState) :
    List Entity → ℕ × List Contract → Thr (ℕ × List Contract)
  | [], acc => pure acc
  | entity :: rest, (counter, updatedContracts) => do
    if entity.isPlayerControlled then
      contractProposalsLoop cfg sEntry rest (counter, updatedContracts)
    else do
      let entityType ← getEntityType cfg entity.type
      if entityType.processes.procurement.isEmpty then
        contractProposalsLoop cfg sEntry rest (counter, updatedContracts)
      else do
        let proposals ← proposeContracts entity entityType sEntry cfg
        let (counter, updatedContracts) :=
          proposals.foldl (fun (acc : ℕ × List Contract) proposal =>
            let counter := acc.1 + 1
            let contract : Contract :=
              { id := nextIdStr "contract" counter
                buyerEntityId := entity.id
                sellerEntityId := proposal.supplierId
                resource := proposal.resource
                pricePerUnit := proposal.pricePerUnit
                unitsPerDelivery := proposal.unitsPerDelivery
                deliveryInterval := proposal.deliveryInterval
                totalUnits := proposal.totalUnits
                unitsShipped := 0
                unitsMissed := 0
                penaltyPerUnit := proposal.pricePerUnit * cfg.contractDefaultPenaltyRate
                cancellationThreshold := cfg.contractDefaultCancellationThreshold
                proposedAtTick := sEntry.tick
                acceptedAtTick := none
                nextDeliveryTick := 0
                status := ContractStatus.proposed }
            (counter, acc.2 ++ [contract])) (counter, updatedContracts)
        contractProposalsLoop cfg sEntry rest (counter, updatedContracts)

/-- 8b: evaluate one seller's mature proposals and fold the verdicts into the
contract array (by id lookup). -/
def evaluateSellerProposals (cfg : GameConfig) (s : GameState)
    (sellerId : String) (proposals : List Contract)
    (updatedContracts : List Contract) : Thr (List Contract) := do
  match getEntity s sellerId with
  | none =>
      pure (proposals.foldl (fun cs p =>
        match cs.findIdx? (fun c => c.id == p.id) with
        | some idx => cs.set idx
            { cs.getD idx defaultContract with status := ContractStatus.cancelled }
        | none => cs) updatedContracts)
  | some seller =>
      if seller.isPlayerControlled then pure updatedContracts
      else do
        let entityType ← getEntityType cfg seller.type
        let evalResult ← evaluateContractProposals seller entityType proposals s cfg
        let updatedContracts := evalResult.accept.foldl (fun cs contractId =>
          match cs.findIdx? (fun c => c.id == contractId) with
          | some idx =>
              let c := cs.getD idx defaultContract
              cs.set idx { c with status := ContractStatus.active
                                  acceptedAtTick := some s.tick
                                  nextDeliveryTick := s.tick + c.deliveryInterval }
          | none => cs) updatedContracts
        pure (evalResult.decline.foldl (fun cs contractId =>
          match cs.findIdx? (fun c => c.id == contractId) with
          | some idx => cs.set idx
              { cs.getD idx defaultContract with status := ContractStatus.cancelled }
          | none => cs) updatedContracts)

/-- 8c: process one due active contract at index `i`: inject an auto-approved
order when stock suffices, else record the miss and charge the penalty; the
schedule advances either way. -/
def contractDueStep (cfg : GameConfig) (i : ℕ)
    (acc : GameState × List Contract) : Thr (GameState × List Contract) := do
  let (s, updatedContracts) := acc
  let contract := updatedContracts.getD i defaultContract
  if contract.status ≠ ContractStatus.active then pure (s, updatedContracts)
  else if s.tick < contract.nextDeliveryTick then pure (s, updatedContracts)
  else
    match getEntity s contract.sellerEntityId with
    | none =>
        pure (s, updatedContracts.set i
          { contract with status := ContractStatus.cancelled })
    | some seller =>
        let available := getAvailable seller contract.resource
        let deliveryQty := min contract.unitsPerDelivery
          (contract.totalUnits - contract.unitsShipped - contract.unitsMissed)
        if deliveryQty ≤ 0 then
          pure (s, updatedContracts.set i
            { contract with status := ContractStatus.completed })
        else if deliveryQty ≤ available then do
          let s ← placePendingOrder s cfg contract.buyerEntityId contract.resource
            deliveryQty contract.pricePerUnit (some contract.sellerEntityId)
            (some contract.id)
          pure (s, updatedContracts.set i
            { contract with
              unitsShipped := contract.unitsShipped + deliveryQty
              nextDeliveryTick := contract.nextDeliveryTick + contract.deliveryInterval })
        else
          let s := deductMoney s contract.sellerEntityId
            (deliveryQty * contract.penaltyPerUnit)
          pure (s, updatedContracts.set i
            { contract with
              unitsMissed := contract.unitsMissed + deliveryQty
              nextDeliveryTick := contract.nextDeliveryTick + contract.deliveryInterval })

/-- processContractManagement: proposals (8a), mature-proposal evaluation
(8b), due contract deliveries (8c). -/
def processContractManagement (s : GameState) (cfg : GameConfig) :
    Thr GameState := do
  let (counter, updatedContracts) ←
    contractProposalsLoop cfg s s.entities (s.idCounter, s.contracts)
  let s := { s with contracts := updatedContracts, idCounter := counter }
  let matureTick := s.tick - cfg.contractWaitTicks
  let mature := updatedContracts.filter (fun c =>
    c.status == ContractStatus.proposed && decide (c.proposedAtTick ≤ matureTick))
  let proposalsBySeller := groupByKey (·.sellerEntityId) mature
  let updatedContracts ← proposalsBySeller.foldlM
    (fun cs entry => evaluateSellerProposals cfg s entry.1 entry.2 cs)
    updatedContracts
  let s := { s with contracts := updatedContracts }
  let acc ← (List.range updatedContracts.length).foldlM
    (fun acc i => contractDueStep cfg i acc) (s, updatedContracts)
  pure { acc.1 with contracts := acc.2 }

-- ===========================================================================
-- Phase 11: contract status update
-- ===========================================================================

/-- updateContractStatuses: an active contract completes when
shipped + missed reaches its total, else cancels when the missed fraction
exceeds the cancellation threshold. (The division cannot see a zero total:
a zero or negative total is caught by the completion branch for the
non-negative counters produced by the engine.) -/
def updateContractStatuses (s : GameState) : GameState :=
  { s with contracts := s.contracts.map (fun contract =>
      if contract.status ≠ ContractStatus.active then contract
      else if contract.totalUnits ≤ contract.unitsShipped + contract.unitsMissed then
        { contract with status := ContractStatus.completed }
      else if contract.cancellationThreshold <
          contract.unitsMissed / contract.totalUnits then
        { contract with status := ContractStatus.cancelled }
      else contract) }

-- ===========================================================================
-- Phase 7a: player actions
-- ===========================================================================

/-- Apply one queued player action (the entity is known to exist and be
player-controlled). -/
def applyPlayerAction (cfg : GameConfig) (s : GameState) (entity : Entity)
    (pa : PlayerOrder) : Thr GameState := do
  match pa.action with
  | PlayerActionKind.start_line => do
      let process ← getProductionProcess cfg pa.targetId
      let entityType ← getEntityType cfg entity.type
      let entityLines := s.processLines.filter (fun l => l.entityId == entity.id)
      if entityType.maxProcessLines ≤ (entityLines.length : ℚ) then pure s
      else
        let requested := if pa.quantity = 0 then process.minVolume else pa.quantity
        let volume := max process.minVolume (min process.maxVolume requested)
        let counter := s.idCounter + 1
        let line : ProcessLine :=
          { id := nextIdStr "line" counter
            processId := process.id
            entityId := entity.id
            phase := if 0 < process.startupTicks then ProcessLinePhase.starting
                     else ProcessLinePhase.running
            startupTicksRemaining := process.startupTicks
            progress := 0
            volume := volume }
        pure { s with processLines := s.processLines ++ [line], idCounter := counter }
  | PlayerActionKind.stop_line =>
      let lineId := pa.lineId.getD pa.targetId
      pure { s with processLines := s.processLines.filter (fun l => ¬ l.id == lineId) }
  | PlayerActionKind.set_volume => do
      let lineId := pa.lineId.getD pa.targetId
      let newLines ← s.processLines.mapM (fun line => do
        if ¬ line.id == lineId then pure line
        else do
          let process ← getProductionProcess cfg line.processId
          pure { line with volume := max process.minVolume (min process.maxVolume pa.quantity) })
      pure { s with processLines := newLines }
  | PlayerActionKind.order =>
      let resource := pa.targetId
      if (smGet entity.suppliers resource []).isEmpty then pure s
      else
        placePendingOrder s cfg entity.id resource pa.quantity
          (getBasePrice cfg resource) pa.supplierId none
  | PlayerActionKind.propose_contract =>
      match pa.contractProposal with
      | none => pure s
      | some proposal =>
          let counter := s.idCounter + 1
          let contract : Contract :=
            { id := nextIdStr "contract" counter
              buyerEntityId := entity.id
              sellerEntityId := proposal.supplierId
              resource := proposal.resource
              pricePerUnit := proposal.pricePerUnit
              unitsPerDelivery := proposal.unitsPerDelivery
              deliveryInterval := proposal.deliveryInterval
              totalUnits := proposal.totalUnits
              unitsShipped := 0
              unitsMissed := 0
              penaltyPerUnit := proposal.pricePerUnit * cfg.contractDefaultPenaltyRate
              cancellationThreshold := cfg.contractDefaultCancellationThreshold
              proposedAtTick := s.tick
              acceptedAtTick := none
              nextDeliveryTick := 0
              status := ContractStatus.proposed }
          pure { s with contracts := s.contracts ++ [contract], idCounter := counter }
  | PlayerActionKind.accept_contract =>
      pure { s with contracts := s.contracts.map (fun c =>
        if c.id == pa.targetId && c.status == ContractStatus.proposed &&
            c.sellerEntityId == entity.id then
          { c with status := ContractStatus.active
                   acceptedAtTick := some s.tick
                   nextDeliveryTick := s.tick + c.deliveryInterval }
        else c) }
  | PlayerActionKind.decline_contract =>
      pure { s with contracts := s.contracts.map (fun c =>
        if c.id == pa.targetId && c.status == ContractStatus.proposed &&
            c.sellerEntityId == entity.id then
          { c with status := ContractStatus.cancelled }
        else c) }

/-- processPlayerOrders: apply the queued actions in order; an action naming
an unknown or non-player-controlled entity is skipped. -/
def processPlayerOrders (s : GameState) (cfg : GameConfig)
    (playerActions : List PlayerOrder) : Thr GameState :=
  playerActions.foldlM (fun s pa =>
    match getEntity s pa.entityId with
    | none => pure s
    | some entity =>
        if entity.isPlayerControlled then applyPlayerAction cfg s entity pa
        else pure s) s

-- ===========================================================================
-- runOneTick
-- ===========================================================================

/-- runOneTick: the strict per-tick pipeline. The configuration parameter
models the getGameConfig singleton and `rand` the Math.random stream. -/
def runOneTick (cfg : GameConfig) (rand : ℕ → ℚ) (s : GameState)
    (playerActions : List PlayerOrder) : Thr GameState := do
  let next := { s with tick := s.tick + 1 }
  let next := processArrivals next
  let next ← advanceDemandPhases next cfg
  let next ← processProductionLines next cfg
  let next ← processRetailSelling next cfg rand
  let next := processStorageCosts next cfg
  let next ←
    if playerActions.isEmpty then pure next
    else processPlayerOrders next cfg playerActions
  let next ← processAIDecisions next cfg
  let next ← processContractManagement next cfg
  let next ← processOrderAcceptance next cfg
  let next ← processDepartures next cfg
  pure (updateContractStatuses next)

/-- Iterate runOneTick over a schedule of per-tick action queues; `none` as
soon as one tick throws. -/
def runTicks (cfg : GameConfig) (rand : ℕ → ℚ) :
    List (List PlayerOrder) → GameState → Thr GameState
  | [], s => pure s
  | actions :: rest, s => do
      let s ← runOneTick cfg rand s actions
      runTicks cfg rand rest s

-- ===========================================================================
-- createInitialState.ts
-- ===========================================================================

/-- createInitialState: entities from the scenario with empty committed
stock, no lines/orders/deliveries, demand phases at zero for demanding
locations with cycles, zeroed sales statistics for retail entities.
The contract list starts empty and entity money comes from the scenario
(the sources' createInitialState predates the money/contract fields;
modelled from the spec's §3 and §6). -/
def createInitialState (cfg : GameConfig) (playerEntityId : Option String) :
    GameState :=
  let actualPlayerEntityId := playerEntityId.getD cfg.scenario.defaultPlayerEntity
  let entities := cfg.scenario.entities.map (fun se =>
    { id := se.id, type := se.type, name := se.name, locationId := se.locationId
      inventory := se.inventory, committed := [], money := se.money
      isPlayerControlled := se.id == actualPlayerEntityId
      suppliers := se.suppliers.getD [] : Entity })
  let demandPhases := cfg.locations.foldl (fun acc loc =>
    if loc.demand.any (fun p => decide (0 < p.2)) ∧ loc.demandCycle.isSome then
      acc ++ [(loc.id, { phaseIndex := 0, ticksInPhase := 0 : DemandPhaseState })]
    else acc) []
  let sales := entities.foldl (fun acc entity =>
    match smLookup cfg.entityTypes entity.type with
    | none => acc
    | some entityType =>
        if entityType.processes.retail.isEmpty then acc
        else
          acc ++ [(entity.id, entityType.processes.retail.foldl (fun resAcc pid =>
            match cfg.processes.retail.find? (fun p => p.id == pid) with
            | none => resAcc
            | some retailProcess =>
                resAcc ++ [(retailProcess.resource,
                  { totalSold := 0, totalDemand := 0, lostSales := 0 :
                    ResourceSalesStats })]) [])]) []
  { tick := 0, entities := entities, processLines := [], orders := []
    deliveries := [], demandPhases := demandPhases, sales := sales
    contracts := [], idCounter := 0, randCounter := 0 }

-- ===========================================================================
-- Corridor-walk semantics (for routing optimality statements)
-- ===========================================================================

/-- Some corridor of cost `q` links `x` and `y` (in either direction). -/
def CorridorLinks (corridors : List CorridorConfig) (x y : String) (q : ℚ) :
    Prop :=
  ∃ c ∈ corridors, c.cost = q ∧
    ((c.locationA = x ∧ c.locationB = y) ∨ (c.locationA = y ∧ c.locationB = x))

/-- `CorridorWalkCost corridors p q`: `p` is a walk along corridors whose
edge costs sum to `q`. -/
inductive CorridorWalkCost (corridors : List CorridorConfig) :
    List String → ℚ → Prop
  | single (x : String) : CorridorWalkCost corridors [x] 0
  | step {x y : String} {rest : List String} {q c : ℚ} :
      CorridorLinks corridors x y q →
      CorridorWalkCost corridors (y :: rest) c →
      CorridorWalkCost corridors (x :: y :: rest) (q + c)

-- ===========================================================================
-- Shared concrete examples (tiny validated worlds used by several claims)
-- ===========================================================================

/-- Corridor A–B of cost 2. -/
def exCorrAB : CorridorConfig :=
  { locationA := "A", locationB := "B", cost := 2, type := CorridorType.land }

/-- Corridor B–C of cost 3. -/
def exCorrBC : CorridorConfig :=
  { locationA := "B", locationB := "C", cost := 3, type := CorridorType.land }

/-- Location A with local transport 1 and no demand. -/
def exLocA : LocationConfig :=
  { id := "A", name := "A", localTransportTicks := 1, demand := [], demandCycle := none }

/-- Location B with local transport 7 and no demand. -/
def exLocB : LocationConfig :=
  { id := "B", name := "B", localTransportTicks := 7, demand := [], demandCycle := none }

/-- Location C with local transport 2 and no demand. -/
def exLocC : LocationConfig :=
  { id := "C", name := "C", localTransportTicks := 2, demand := [], demandCycle := none }

/-- A process-less entity type. -/
def exType : EntityTypeConfig :=
  { name := "T"
    canHold := ["r"]
    maxProcessLines := 1
    processes := { production := [], retail := [], procurement := [], fulfillment := [] } }

/-- Tiny validated configuration over the 3-node line graph A–B–C. -/
def exCfg : GameConfig :=
  { resources := [{ id := "r", name := "r" }]
    processes := { production := [], retail := [], procurement := [], fulfillment := [] }
    entityTypes := [("T", exType)]
    locations := [exLocA, exLocB, exLocC]
    corridors := [exCorrAB, exCorrBC]
    scenario := { name := "s", description := "", entities := [], defaultPlayerEntity := "x" }
    pricing := { basePrices := [], retailPrices := [], storageCostPerUnit := 0 }
    contractWaitTicks := 3
    contractDefaultPenaltyRate := 1/5
    contractDefaultCancellationThreshold := 1/4 }

/-- A player-controlled buyer at A sourcing resource r from the seller. -/
def exBuyer : Entity :=
  { id := "buyer"
    type := "T"
    name := "Buyer"
    locationId := "A"
    inventory := []
    committed := []
    money := 100
    isPlayerControlled := true
    suppliers := [("r", ["seller"])] }

/-- A player-controlled seller at A holding 10 r. -/
def exSeller : Entity :=
  { id := "seller"
    type := "T"
    name := "Seller"
    locationId := "A"
    inventory := [("r", 10)]
    committed := []
    money := 0
    isPlayerControlled := true
    suppliers := [] }

/-- A pending order of 5 r at price 3 from the buyer to the seller. -/
def exPendingOrder : Order :=
  { id := "order-1"
    placedAtTick := 0
    deliveredAtTick := none
    buyerEntityId := "buyer"
    sellerEntityId := "seller"
    resource := "r"
    requestedQuantity := 5
    fulfilledQuantity := 0
    wasAmended := false
    status := OrderStatus.pending
    pricePerUnit := 3
    contractId := none }

/-- State with the single pending order, satisfying the boundary invariant. -/
def exState0 : GameState :=
  { tick := 0
    entities := [exBuyer, exSeller]
    processLines := []
    orders := [exPendingOrder]
    deliveries := []
    demandPhases := []
    sales := []
    contracts := []
    idCounter := 1
    randCounter := 0 }

/-- The same world with no orders. -/
def exStateEmpty : GameState := { exState0 with orders := [] }

/-- `exState0` with its order already accepted and fully allocated. -/
def exStateAcc : GameState :=
  { exState0 with
    orders := [{ exPendingOrder with
                  status := OrderStatus.accepted
                  fulfilledQuantity := 5 }] }

/-- Production process with one cycle input, one tick input, one output. -/
def exProdProcess : ProductionProcess :=
  { id := "p"
    name := "p"
    startupInputs := []
    cycleInputs := [{ resource := "c1", quantity := 1 }]
    tickInputs := [{ resource := "c2", quantity := 1 }]
    outputs := [{ resource := "r", quantity := 1 }]
    cycleTicks := 2
    startupTicks := 0
    minVolume := 1
    maxVolume := 2 }

/-- exCfg extended with the production process. -/
def exProdCfg : GameConfig :=
  { exCfg with processes :=
      { production := [exProdProcess], retail := [], procurement := [], fulfillment := [] } }

/-- Line owner holding 1 c1 and no c2. -/
def exOwner : Entity :=
  { id := "own"
    type := "T"
    name := "O"
    locationId := "A"
    inventory := [("c1", 1), ("c2", 0)]
    committed := []
    money := 0
    isPlayerControlled := true
    suppliers := [] }

/-- A running line of exProdProcess at progress 0, volume 1. -/
def exLine : ProcessLine :=
  { id := "line-1"
    processId := "p"
    entityId := "own"
    phase := ProcessLinePhase.running
    startupTicksRemaining := 0
    progress := 0
    volume := 1 }

/-- Single-line state for the production-starvation scenario. -/
def exLineState : GameState :=
  { tick := 0
    entities := [exOwner]
    processLines := [exLine]
    orders := []
    deliveries := []
    demandPhases := []
    sales := []
    contracts := []
    idCounter := 1
    randCounter := 0 }

/-- Pending order at price 5 requesting 10 r. -/
def exOrder5 : Order :=
  { exPendingOrder with id := "order-5", pricePerUnit := 5, requestedQuantity := 10 }

/-- Pending order at price 7 requesting 10 r. -/
def exOrder7 : Order :=
  { exPendingOrder with id := "order-7", pricePerUnit := 7, requestedQuantity := 10 }

/-- State with both competing orders against the seller's stock of 10. -/
def exState57 : GameState := { exState0 with orders := [exOrder5, exOrder7] }

/-- Active contract: 10 units per delivery, penalty 2 per unit, due at tick 1. -/
def exContract : Contract :=
  { id := "contract-1"
    buyerEntityId := "buyer"
    sellerEntityId := "seller"
    resource := "r"
    pricePerUnit := 10
    unitsPerDelivery := 10
    deliveryInterval := 5
    totalUnits := 50
    unitsShipped := 0
    unitsMissed := 0
    penaltyPerUnit := 2
    cancellationThreshold := 1/4
    proposedAtTick := 0
    acceptedAtTick := some 0
    nextDeliveryTick := 1
    status := ContractStatus.active }

/-- The seller with no stock at all. -/
def exSellerZero : Entity := { exSeller with inventory := [] }

/-- State at tick 1 with the due contract and an empty-handed seller. -/
def exState7 : GameState :=
  { exState0 with
      entities := [exBuyer, exSellerZero]
      orders := []
      contracts := [exContract]
      tick := 1 }

/-- Contract with totalUnits 100, threshold 1/4 and 26 units missed. -/
def exContract8 : Contract :=
  { exContract with totalUnits := 100, unitsMissed := 26 }

/-- State holding exContract8. -/
def exState8 : GameState := { exState7 with contracts := [exContract8] }

/-- Far supplier at C with 100 available r. -/
def exFar : Entity := { exSeller with id := "far", locationId := "C", inventory := [("r", 100)] }

/-- Near supplier at A with 1 available r. -/
def exNear : Entity := { exSeller with id := "near", locationId := "A", inventory := [("r", 1)] }

/-- Buyer listing both suppliers for r (far first). -/
def exBuyer9 : Entity := { exBuyer with suppliers := [("r", ["far", "near"])] }

/-- Supplier-selection state. -/
def exState9 : GameState :=
  { exState0 with entities := [exBuyer9, exFar, exNear], orders := [] }

/-- Player action starting a line for an unknown production process. -/
def exActionBadProcess : PlayerOrder :=
  { entityId := "buyer"
    action := PlayerActionKind.start_line
    targetId := "nosuch"
    quantity := 1
    supplierId := none
    lineId := none
    contractProposal := none }

/-- The same action naming an unknown entity. -/
def exActionGhost : PlayerOrder := { exActionBadProcess with entityId := "ghost" }

/-- Player action starting a line of the known process p for the owner. -/
def exActionStartP : PlayerOrder :=
  { entityId := "own"
    action := PlayerActionKind.start_line
    targetId := "p"
    quantity := 1
    supplierId := none
    lineId := none
    contractProposal := none }

-- ===========================================================================
-- Semantic readings of the sort comparators
-- ===========================================================================

/-- Semantic reading of the findBestSupplier ranking: strictly closer wins,
ties go to the larger available stock. -/
def EntityCandidateBetterEq (a b : EntityCandidate) : Prop :=
  a.distance < b.distance ∨ (a.distance = b.distance ∧ b.available ≤ a.available)

/-- Semantic reading of the pickBestSupplier ranking (same shape). -/
def SupplierCandidateBetterEq (a b : SupplierCandidate) : Prop :=
  a.distance < b.distance ∨ (a.distance = b.distance ∧ b.available ≤ a.available)

/-- Semantic reading of the order-acceptance priority: strictly higher price
first, then strictly shorter transport time to the buyer, then earlier (or
equal) placement tick. -/
def OrderPriorityGe (seller : Entity) (orders : List Order) (s : GameState)
    (cfg : GameConfig) (i j : ℕ) : Prop :=
  (orders.getD j defaultOrder).pricePerUnit < (orders.getD i defaultOrder).pricePerUnit ∨
  ((orders.getD i defaultOrder).pricePerUnit = (orders.getD j defaultOrder).pricePerUnit ∧
    (orderBuyerTime seller orders s cfg i < orderBuyerTime seller orders s cfg j ∨
      (orderBuyerTime seller orders s cfg i = orderBuyerTime seller orders s cfg j ∧
        (orders.getD i defaultOrder).placedAtTick ≤ (orders.getD j defaultOrder).placedAtTick)))

-- ===========================================================================
-- Reachability invariant (commitment safety and order-status monotonicity)
-- ===========================================================================

/-- Committed stock of the entity with the given id (0 when absent); the
committed counterpart of `invOf`. -/
def comOf (s : GameState) (entityId resource : String) : ℚ :=
  ((getEntity s entityId).map (fun e => smGet e.committed resource 0)).getD 0

/-- Forward order-status relation: exactly the moves along the two legal
chains `pending → accepted → in_transit → delivered` and
`pending → declined` (reflexive, skips allowed). -/
def StatusLe : OrderStatus → OrderStatus → Prop
  | OrderStatus.pending, _ => True
  | OrderStatus.accepted, OrderStatus.accepted => True
  | OrderStatus.accepted, OrderStatus.in_transit => True
  | OrderStatus.accepted, OrderStatus.delivered => True
  | OrderStatus.in_transit, OrderStatus.in_transit => True
  | OrderStatus.in_transit, OrderStatus.delivered => True
  | OrderStatus.delivered, OrderStatus.delivered => True
  | OrderStatus.declined, OrderStatus.declined => True
  | _, _ => False

/-- Some entity of the state has this id. -/
def EntityIn (s : GameState) (id : String) : Prop :=
  ∃ e ∈ s.entities, e.id = id

/-- Wellformed configuration (decidable): nonnegative production outputs and
minimum volumes, nonnegative scenario inventories, distinct scenario entity
ids. -/
def WFConfig (cfg : GameConfig) : Prop :=
  (∀ p ∈ cfg.processes.production,
    (∀ o ∈ p.outputs, 0 ≤ o.quantity) ∧ 0 ≤ p.minVolume) ∧
  (∀ se ∈ cfg.scenario.entities, ∀ q ∈ se.inventory, 0 ≤ q.2) ∧
  (cfg.scenario.entities.map (fun se => se.id)).Nodup

/-- Contribution of the order at index `i` to the committed mass of the
seller `eid` in resource `r`: its fulfilled quantity while it is accepted. -/
def contrib (orders : List Order) (eid r : String) (i : ℕ) : ℚ :=
  let o := orders.getD i defaultOrder
  if o.status = OrderStatus.accepted ∧ o.sellerEntityId = eid ∧ o.resource = r
  then o.fulfilledQuantity else 0

/-- Committed mass of `(eid, r)` over a list of order indices. -/
def sumContrib (orders : List Order) (eid r : String) (idxs : List ℕ) : ℚ :=
  (idxs.map (contrib orders eid r)).sum

/-- The order fields no phase ever rewrites. -/
def orderCore (o : Order) : String × String × String × String :=
  (o.id, o.buyerEntityId, o.sellerEntityId, o.resource)

/-- An entity with its committed stock erased (to state that a phase changes
nothing else). -/
def entityNoCom (e : Entity) : Entity := { e with committed := [] }

/-- All inventories nonnegative. -/
def InvPos (s : GameState) : Prop :=
  ∀ e ∈ s.entities, ∀ r : String, 0 ≤ smGet e.inventory r 0

/-- No committed stock anywhere. -/
def ComZero (s : GameState) : Prop :=
  ∀ e ∈ s.entities, ∀ r : String, smGet e.committed r 0 = 0

/-- Entity ids are pairwise distinct. -/
def IdsNodup (s : GameState) : Prop :=
  (s.entities.map (fun e => e.id)).Nodup

/-- All delivery quantities nonnegative. -/
def DelsPos (s : GameState) : Prop :=
  ∀ d ∈ s.deliveries, 0 ≤ d.quantity

/-- All process-line volumes nonnegative. -/
def LinesPos (s : GameState) : Prop :=
  ∀ l ∈ s.processLines, 0 ≤ l.volume

/-- No order is in status accepted. -/
def NoAccepted (s : GameState) : Prop :=
  ∀ o ∈ s.orders, o.status ≠ OrderStatus.accepted

/-- Order ids render strictly increasing past counter values. -/
def OrdersFresh (s : GameState) : Prop :=
  ∃ ks : List ℕ,
    s.orders.map (fun o => o.id) = ks.map (nextIdStr "order") ∧
    ks.Chain' (fun a b => a < b) ∧ ∀ k ∈ ks, k ≤ s.idCounter

/-- Every order an in-flight delivery points at has already shipped. -/
def DelOrders (s : GameState) : Prop :=
  ∀ d ∈ s.deliveries, ∀ o ∈ s.orders, o.id = d.orderId →
    o.status = OrderStatus.in_transit ∨ o.status = OrderStatus.delivered

/-- Delivery order ids are renderings of already-used counter values. -/
def DelsFresh (s : GameState) : Prop :=
  ∀ d ∈ s.deliveries, ∃ k, d.orderId = nextIdStr "order" k ∧ k ≤ s.idCounter

/-- Buyer and seller of every order exist. -/
def Parties (s : GameState) : Prop :=
  ∀ o ∈ s.orders, EntityIn s o.buyerEntityId ∧ EntityIn s o.sellerEntityId

/-- Pointwise forward movement of all order statuses. -/
def StatusOk (s s' : GameState) : Prop :=
  ∀ i : ℕ, StatusLe ((s.orders.getD i defaultOrder).status)
    ((s'.orders.getD i defaultOrder).status)

/-- The state components (other than entities) that the inventory/money
primitives never touch. -/
def SameSkel (s s' : GameState) : Prop :=
  s'.orders = s.orders ∧ s'.deliveries = s.deliveries ∧
  s'.processLines = s.processLines ∧ s'.idCounter = s.idCounter ∧
  s'.tick = s.tick ∧ s'.contracts = s.contracts

/-- Entity ids (and their order) are unchanged. -/
def SameEntityIds (s s' : GameState) : Prop :=
  s'.entities.map (fun e => e.id) = s.entities.map (fun e => e.id)

/-- A harmless state step: the skeleton and entity ids are untouched, and
nonnegative inventories and zero commitments are preserved. -/
def Harmless (s s' : GameState) : Prop :=
  SameSkel s s' ∧ SameEntityIds s s' ∧
  (InvPos s → InvPos s') ∧ (ComZero s → ComZero s')

/-- A phase only appends validated pending orders with fresh increasing ids
drawn from the counter interval it consumed. -/
def OrdersExtend (s s' : GameState) : Prop :=
  ∃ ext : List Order, s'.orders = s.orders ++ ext ∧
    (∀ o ∈ ext, o.status = OrderStatus.pending ∧
      EntityIn s o.buyerEntityId ∧ EntityIn s o.sellerEntityId) ∧
    ∃ ks : List ℕ, ext.map (fun o => o.id) = ks.map (nextIdStr "order") ∧
      ks.Chain' (fun a b => a < b) ∧
      ∀ k ∈ ks, s.idCounter < k ∧ k ≤ s'.idCounter

/-- Composite effect of the decision phases (player actions, AI decisions,
contract management): entities may only be changed harmlessly, deliveries
stay, the counter grows, line volumes stay wellformed, and orders only
extend by validated pending orders. -/
def PhaseStep (s s' : GameState) : Prop :=
  SameEntityIds s s' ∧ (InvPos s → InvPos s') ∧ (ComZero s → ComZero s') ∧
  s'.deliveries = s.deliveries ∧ s.idCounter ≤ s'.idCounter ∧
  (LinesPos s → LinesPos s') ∧ OrdersExtend s s'

/-- A state-threading step that leaves process lines in place: the common
effect of order placement and money transfers inside the decision loops. -/
def StatePack (s s' : GameState) : Prop :=
  SameEntityIds s s' ∧ (InvPos s → InvPos s') ∧ (ComZero s → ComZero s') ∧
  s'.deliveries = s.deliveries ∧ s'.processLines = s.processLines ∧
  s.idCounter ≤ s'.idCounter ∧ OrdersExtend s s'

/-- Invariant threaded through the two loops of the acceptance phase,
relating the current threaded state and order array to the phase-entry
state `s0`: only committed stock and order statuses/fulfilled quantities
have changed, and the committed mass equals the fulfilled mass of the
currently accepted orders and stays within inventory. -/
structure AcceptInv (s0 : GameState) (sCur : GameState)
    (ordersCur : List Order) : Prop where
  entsNoCom : sCur.entities.map entityNoCom = s0.entities.map entityNoCom
  dels : sCur.deliveries = s0.deliveries
  lines : sCur.processLines = s0.processLines
  counter : sCur.idCounter = s0.idCounter
  tickEq : sCur.tick = s0.tick
  contractsEq : sCur.contracts = s0.contracts
  olen : ordersCur.length = s0.orders.length
  cores : ∀ i : ℕ, orderCore (ordersCur.getD i defaultOrder) =
    orderCore (s0.orders.getD i defaultOrder)
  stats : ∀ i : ℕ,
    (ordersCur.getD i defaultOrder).status =
      (s0.orders.getD i defaultOrder).status ∨
    ((s0.orders.getD i defaultOrder).status = OrderStatus.pending ∧
      ((ordersCur.getD i defaultOrder).status = OrderStatus.accepted ∨
        (ordersCur.getD i defaultOrder).status = OrderStatus.declined))
  fulfilledPos : ∀ i : ℕ,
    (ordersCur.getD i defaultOrder).status = OrderStatus.accepted →
    0 < (ordersCur.getD i defaultOrder).fulfilledQuantity
  comSum : ∀ eid r : String,
    comOf sCur eid r = sumContrib ordersCur eid r (List.range ordersCur.length)
  comLe : ∀ eid r : String, comOf sCur eid r ≤ invOf sCur eid r

/-- The reachability invariant at tick boundaries: nonnegative inventories,
no commitments, distinct entity ids, nonnegative delivery quantities and
line volumes, no accepted order survives a tick, order ids are fresh
renderings of past counter values, deliveries point only at shipped orders,
and order parties exist. -/
structure ReachInv (s : GameState) : Prop where
  invPos : InvPos s
  comZero : ComZero s
  idsNodup : IdsNodup s
  delsPos : DelsPos s
  linesPos : LinesPos s
  noAccepted : NoAccepted s
  ordersFresh : OrdersFresh s
  delsFresh : DelsFresh s
  delOrders : DelOrders s
  parties : Parties s

/-- Invariant threaded through the departure loop, relating the current
threaded state, order array and delivery list to the phase-entry state
`sAcc` while `idxs` are the indices still to process: the committed mass
equals the fulfilled mass of the still-unprocessed accepted orders, stays
within inventory, and every processed accepted order has shipped. -/
structure DepInv (sAcc : GameState) (idxs : List ℕ) (sCur : GameState)
    (ordersCur : List Order) (dels : List Delivery) : Prop where
  ids : SameEntityIds sAcc sCur
  lines : sCur.processLines = sAcc.processLines
  tickEq : sCur.tick = sAcc.tick
  contractsEq : sCur.contracts = sAcc.contracts
  counter : sAcc.idCounter ≤ sCur.idCounter
  olen : ordersCur.length = sAcc.orders.length
  cores : ∀ i : ℕ, orderCore (ordersCur.getD i defaultOrder) =
    orderCore (sAcc.orders.getD i defaultOrder)
  stats : ∀ i : ℕ,
    (ordersCur.getD i defaultOrder).status =
      (sAcc.orders.getD i defaultOrder).status ∨
    ((sAcc.orders.getD i defaultOrder).status = OrderStatus.accepted ∧
      (ordersCur.getD i defaultOrder).status = OrderStatus.in_transit)
  accRem : ∀ i : ℕ,
    (ordersCur.getD i defaultOrder).status = OrderStatus.accepted → i ∈ idxs
  fulPos : ∀ i : ℕ,
    (ordersCur.getD i defaultOrder).status = OrderStatus.accepted →
    0 < (ordersCur.getD i defaultOrder).fulfilledQuantity
  comSum : ∀ eid r : String, comOf sCur eid r = sumContrib ordersCur eid r idxs
  comLe : ∀ eid r : String, comOf sCur eid r ≤ invOf sCur eid r
  invPos : ∀ eid r : String, 0 ≤ invOf sCur eid r
  delsExt : ∃ extd : List Delivery, dels = sAcc.deliveries ++ extd ∧
    ∀ d ∈ extd, 0 ≤ d.quantity ∧ ∃ i : ℕ, i < ordersCur.length ∧ i ∉ idxs ∧
      d.orderId = (ordersCur.getD i defaultOrder).id ∧
      (ordersCur.getD i defaultOrder).status = OrderStatus.in_transit

/-- Scenario entity for the reachability witnesses. -/
def exScenEnt : ScenarioEntity :=
  { id := "s1"
    type := "T"
    name := "S"
    locationId := "A"
    inventory := [("r", 10)]
    money := 7
    suppliers := none }

/-- exCfg with a one-entity scenario. -/
def exScenCfg : GameConfig :=
  { exCfg with scenario :=
      { name := "s"
        description := ""
        entities := [exScenEnt]
        defaultPlayerEntity := "x" } }

/-- The entity of `exScenCfg` as created (and preserved) by the engine. -/
def exInitEnt : Entity :=
  { id := "s1"
    type := "T"
    name := "S"
    locationId := "A"
    inventory := [("r", 10)]
    committed := []
    money := 7
    isPlayerControlled := false
    suppliers := [] }

/-- Decimal value of a digit character. -/
def charVal (c : Char) : ℕ := c.toNat - 48

/-- Decimal value of a digit string. -/
def digitsVal (l : List Char) : ℕ := l.foldl (fun a c => 10 * a + charVal c) 0

-- ===========================================================================
-- THEOREMS
-- ===========================================================================

-- ---------------------------------------------------------------------------
-- Sorting infrastructure lemmas
-- ---------------------------------------------------------------------------

theorem sInsert_perm {α : Type} (le : α → α → Bool) (x : α) (l : List α) :
    (sInsert le x l).Perm (x :: l) := by
  induction l with
  | nil => simp [sInsert]
  | cons y ys ih =>
      simp only [sInsert]
      split
      · exact ((ih.cons y).trans (List.Perm.swap x y ys))
      · exact List.Perm.refl _

theorem stableSort_perm {α : Type} (le : α → α → Bool) (l : List α) :
    (stableSort le l).Perm l := by
  induction l with
  | nil => simp [stableSort]
  | cons x xs ih =>
      exact ((sInsert_perm le x (stableSort le xs)).trans (ih.cons x))

theorem sInsert_pairwise {α : Type} {le : α → α → Bool}
    (htot : ∀ a b, le a b = true ∨ le b a = true)
    (htrans : ∀ a b c, le a b = true → le b c = true → le a c = true)
    (x : α) {l : List α} (hl : l.Pairwise (fun a b => le a b = true)) :
    (sInsert le x l).Pairwise (fun a b => le a b = true) := by
  induction l with
  | nil => simp [sInsert]
  | cons y ys ih =>
      rw [List.pairwise_cons] at hl
      obtain ⟨hy, hys⟩ := hl
      simp only [sInsert]
      split
      · rename_i hcase
        refine List.Pairwise.cons ?_ (ih hys)
        intro z hz
        rcases List.mem_cons.mp ((sInsert_perm le x ys).mem_iff.mp hz) with hz1 | hz1
        · subst hz1; exact hcase.1
        · exact hy z hz1
      · rename_i hcase
        have hxy : le x y = true := by
          by_contra hxy
          have h1 : le y x = true := (htot x y).resolve_left hxy
          exact hcase ⟨h1, by simpa using hxy⟩
        refine List.Pairwise.cons ?_ (List.Pairwise.cons hy hys)
        intro z hz
        rcases List.mem_cons.mp hz with hz1 | hz1
        · subst hz1; exact hxy
        · exact htrans x y z hxy (hy z hz1)

theorem stableSort_pairwise {α : Type} {le : α → α → Bool}
    (htot : ∀ a b, le a b = true ∨ le b a = true)
    (htrans : ∀ a b c, le a b = true → le b c = true → le a c = true)
    (l : List α) :
    (stableSort le l).Pairwise (fun a b => le a b = true) := by
  induction l with
  | nil => simp [stableSort]
  | cons x xs ih => exact sInsert_pairwise htot htrans x ih

theorem stableSort_head_le {α : Type} {le : α → α → Bool}
    (htot : ∀ a b, le a b = true ∨ le b a = true)
    (htrans : ∀ a b c, le a b = true → le b c = true → le a c = true)
    (l : List α) (c : α) (rest : List α)
    (h : stableSort le l = c :: rest) :
    c ∈ l ∧ ∀ x ∈ l, x = c ∨ le c x = true := by
  have hperm := stableSort_perm le l
  rw [h] at hperm
  constructor
  · exact hperm.mem_iff.mp (List.mem_cons_self c rest)
  · intro x hx
    have hx' : x ∈ c :: rest := hperm.symm.mem_iff.mp hx
    rcases List.mem_cons.mp hx' with h1 | h1
    · exact Or.inl h1
    · have hp := stableSort_pairwise htot htrans l
      rw [h, List.pairwise_cons] at hp
      exact Or.inr (hp.1 x h1)

-- ===========================================================================
-- Comparator properties
-- ===========================================================================

theorem entityCandidateLe_iff (a b : EntityCandidate) :
    entityCandidateLe a b = true ↔ EntityCandidateBetterEq a b := by
  unfold entityCandidateLe EntityCandidateBetterEq
  by_cases h : a.distance = b.distance <;> simp [h]

theorem entityCandidateLe_total (a b : EntityCandidate) :
    entityCandidateLe a b = true ∨ entityCandidateLe b a = true := by
  rw [entityCandidateLe_iff, entityCandidateLe_iff]
  unfold EntityCandidateBetterEq
  rcases lt_trichotomy a.distance b.distance with h | h | h
  · exact Or.inl (Or.inl h)
  · rcases le_total b.available a.available with h' | h'
    · exact Or.inl (Or.inr ⟨h, h'⟩)
    · exact Or.inr (Or.inr ⟨h.symm, h'⟩)
  · exact Or.inr (Or.inl h)

theorem entityCandidateLe_trans (a b c : EntityCandidate)
    (h1 : entityCandidateLe a b = true) (h2 : entityCandidateLe b c = true) :
    entityCandidateLe a c = true := by
  rw [entityCandidateLe_iff] at h1 h2 ⊢
  unfold EntityCandidateBetterEq at h1 h2 ⊢
  rcases h1 with h1 | ⟨h1e, h1a⟩
  · rcases h2 with h2 | ⟨h2e, _⟩
    · exact Or.inl (h1.trans h2)
    · exact Or.inl (h2e ▸ h1)
  · rcases h2 with h2 | ⟨h2e, h2a⟩
    · exact Or.inl (h1e ▸ h2)
    · exact Or.inr ⟨h1e.trans h2e, h2a.trans h1a⟩

theorem supplierRankLe_iff (a b : SupplierCandidate) :
    supplierRankLe a b = true ↔ SupplierCandidateBetterEq a b := by
  unfold supplierRankLe SupplierCandidateBetterEq
  by_cases h : a.distance = b.distance <;> simp [h]

theorem supplierRankLe_total (a b : SupplierCandidate) :
    supplierRankLe a b = true ∨ supplierRankLe b a = true := by
  rw [supplierRankLe_iff, supplierRankLe_iff]
  unfold SupplierCandidateBetterEq
  rcases lt_trichotomy a.distance b.distance with h | h | h
  · exact Or.inl (Or.inl h)
  · rcases le_total b.available a.available with h' | h'
    · exact Or.inl (Or.inr ⟨h, h'⟩)
    · exact Or.inr (Or.inr ⟨h.symm, h'⟩)
  · exact Or.inr (Or.inl h)

theorem supplierRankLe_trans (a b c : SupplierCandidate)
    (h1 : supplierRankLe a b = true) (h2 : supplierRankLe b c = true) :
    supplierRankLe a c = true := by
  rw [supplierRankLe_iff] at h1 h2 ⊢
  unfold SupplierCandidateBetterEq at h1 h2 ⊢
  rcases h1 with h1 | ⟨h1e, h1a⟩
  · rcases h2 with h2 | ⟨h2e, _⟩
    · exact Or.inl (h1.trans h2)
    · exact Or.inl (h2e ▸ h1)
  · rcases h2 with h2 | ⟨h2e, h2a⟩
    · exact Or.inl (h1e ▸ h2)
    · exact Or.inr ⟨h1e.trans h2e, h2a.trans h1a⟩

theorem orderPriorityLe_iff (seller : Entity) (orders : List Order)
    (s : GameState) (cfg : GameConfig) (i j : ℕ) :
    orderPriorityLe seller orders s cfg i j = true ↔
      OrderPriorityGe seller orders s cfg i j := by
  unfold orderPriorityLe OrderPriorityGe
  dsimp only
  split_ifs with hp ht
  · simp only [decide_eq_true_eq]
    constructor
    · exact fun h => Or.inl h
    · rintro (h | ⟨he, _⟩)
      · exact h
      · exact absurd he hp
  · rw [not_ne_iff] at hp
    simp only [decide_eq_true_eq]
    constructor
    · intro h
      exact Or.inr ⟨hp, Or.inl h⟩
    · rintro (h | ⟨_, ht2 | ⟨hte, _⟩⟩)
      · exact absurd hp (ne_of_gt h)
      · exact ht2
      · exact absurd hte ht
  · rw [not_ne_iff] at hp ht
    simp only [decide_eq_true_eq]
    constructor
    · intro h
      exact Or.inr ⟨hp, Or.inr ⟨ht, h⟩⟩
    · rintro (h | ⟨_, ht2 | ⟨_, hk⟩⟩)
      · exact absurd hp (ne_of_gt h)
      · exact absurd ht (ne_of_lt ht2)
      · exact hk

theorem orderPriorityLe_total (seller : Entity) (orders : List Order)
    (s : GameState) (cfg : GameConfig) (i j : ℕ) :
    orderPriorityLe seller orders s cfg i j = true ∨
      orderPriorityLe seller orders s cfg j i = true := by
  rw [orderPriorityLe_iff, orderPriorityLe_iff]
  unfold OrderPriorityGe
  rcases lt_trichotomy (orders.getD i defaultOrder).pricePerUnit
      (orders.getD j defaultOrder).pricePerUnit with hp | hp | hp
  · exact Or.inr (Or.inl hp)
  · rcases lt_trichotomy (orderBuyerTime seller orders s cfg i)
        (orderBuyerTime seller orders s cfg j) with ht | ht | ht
    · exact Or.inl (Or.inr ⟨hp, Or.inl ht⟩)
    · rcases le_total (orders.getD i defaultOrder).placedAtTick
          (orders.getD j defaultOrder).placedAtTick with hk | hk
      · exact Or.inl (Or.inr ⟨hp, Or.inr ⟨ht, hk⟩⟩)
      · exact Or.inr (Or.inr ⟨hp.symm, Or.inr ⟨ht.symm, hk⟩⟩)
    · exact Or.inr (Or.inr ⟨hp.symm, Or.inl ht⟩)
  · exact Or.inl (Or.inl hp)

theorem orderPriorityLe_trans (seller : Entity) (orders : List Order)
    (s : GameState) (cfg : GameConfig) (i j k : ℕ)
    (h1 : orderPriorityLe seller orders s cfg i j = true)
    (h2 : orderPriorityLe seller orders s cfg j k = true) :
    orderPriorityLe seller orders s cfg i k = true := by
  rw [orderPriorityLe_iff] at h1 h2 ⊢
  unfold OrderPriorityGe at h1 h2 ⊢
  rcases h1 with h1 | ⟨h1p, h1t⟩
  · rcases h2 with h2 | ⟨h2p, _⟩
    · exact Or.inl (h2.trans h1)
    · exact Or.inl (h2p ▸ h1)
  · rcases h2 with h2 | ⟨h2p, h2t⟩
    · exact Or.inl (h1p.symm ▸ h2)
    · refine Or.inr ⟨h1p.trans h2p, ?_⟩
      rcases h1t with h1t | ⟨h1te, h1k⟩
      · rcases h2t with h2t | ⟨h2te, _⟩
        · exact Or.inl (h1t.trans h2t)
        · exact Or.inl (h2te ▸ h1t)
      · rcases h2t with h2t | ⟨h2te, h2k⟩
        · exact Or.inl (h1te ▸ h2t)
        · exact Or.inr ⟨h1te.trans h2te, h1k.trans h2k⟩

-- ---------------------------------------------------------------------------
-- Routing (C6)
-- ---------------------------------------------------------------------------

theorem exLinks_inv {x y : String} {q : ℚ}
    (h : CorridorLinks exCfg.corridors x y q) :
    (x = "A" ∧ y = "B" ∧ q = 2) ∨ (x = "B" ∧ y = "A" ∧ q = 2) ∨
    (x = "B" ∧ y = "C" ∧ q = 3) ∨ (x = "C" ∧ y = "B" ∧ q = 3) := by
  rcases h with ⟨c, hc, hcost, hdir⟩
  have hc' : c = exCorrAB ∨ c = exCorrBC := by
    simpa [exCfg] using hc
  rcases hc' with rfl | rfl <;>
    rcases hdir with ⟨h1, h2⟩ <;>
      simp_all [exCorrAB, exCorrBC]

theorem exWalk_min (p : List String) (q : ℚ)
    (hw : CorridorWalkCost exCfg.corridors p q)
    (hh : p.head? = some "A") (hl : p.getLast? = some "C")
    (hn : p.Nodup) : 5 ≤ q := by
  cases hw with
  | single x =>
      simp at hh hl
      rw [hh] at hl
      exact absurd hl (by decide)
  | step hlink hrest =>
      rename_i x y rest q0 c0
      simp at hh
      subst hh
      rcases exLinks_inv hlink with ⟨_, hy, hq⟩ | ⟨hx, _, _⟩ | ⟨hx, _, _⟩ | ⟨hx, _, _⟩
      rotate_left
      · exact absurd hx (by decide)
      · exact absurd hx (by decide)
      · exact absurd hx (by decide)
      subst hy
      subst hq
      cases hrest with
      | single _ =>
          simp at hl
      | step hlink2 hrest2 =>
          rename_i z rest2 q1 c1
          rcases exLinks_inv hlink2 with ⟨hx, _, _⟩ | ⟨_, hz, _⟩ | ⟨_, hz, hq1⟩ | ⟨hx, _, _⟩
          · exact absurd hx (by decide)
          · subst hz
            simp [List.nodup_cons] at hn
          · subst hz
            subst hq1
            cases hrest2 with
            | single _ => norm_num
            | step hlink3 _ =>
                rename_i w rest3 q2 c2
                rcases exLinks_inv hlink3 with ⟨hx, _, _⟩ | ⟨hx, _, _⟩ | ⟨hx, _, _⟩ | ⟨_, hw', _⟩
                · exact absurd hx (by decide)
                · exact absurd hx (by decide)
                · exact absurd hx (by decide)
                · subst hw'
                  simp [List.nodup_cons] at hn
          · exact absurd hx (by decide)

unseal Rat.add Rat.mul Rat.inv Rat.sub in
/-- C6: for distinct connected locations, getTransportTime is
localTransport(a) + shortest corridor path cost + localTransport(b) and the
route is the shortest path's node list; for a = b it is localTransport(a)
with no path lookup (independent of the corridor set, so local transport is
never added at intermediate hops); on the concrete 3-node line graph A–B
(cost 2), B–C (cost 3): transportTime(A,C) = local(A) + 5 + local(C), the
route is [A,B,C], and 5 is optimal among all simple corridor paths A→C. -/
theorem claim_C6_routing :
    (∀ (cfg : GameConfig) (a b : String) (fromLoc toLoc : LocationConfig)
        (pr : PathResult),
        a ≠ b →
        cfg.locations.find? (fun l => l.id == a) = some fromLoc →
        cfg.locations.find? (fun l => l.id == b) = some toLoc →
        findShortestPath cfg.corridors a b = some pr →
        getTransportTime cfg a b =
          some (fromLoc.localTransportTicks + pr.cost + toLoc.localTransportTicks) ∧
        getTransportRoute cfg a b =
          some { totalTime := fromLoc.localTransportTicks + pr.cost +
                   toLoc.localTransportTicks
                 route := pr.path }) ∧
    (∀ (cfg : GameConfig) (a : String) (fromLoc : LocationConfig)
        (corridors1 : List CorridorConfig),
        cfg.locations.find? (fun l => l.id == a) = some fromLoc →
        getTransportTime { cfg with corridors := corridors1 } a a =
          some fromLoc.localTransportTicks) ∧
    getTransportTime exCfg "A" "C" = some (1 + 5 + 2) ∧
    getTransportRoute exCfg "A" "C" = some { totalTime := 8, route := ["A", "B", "C"] } ∧
    findShortestPath exCfg.corridors "A" "C" = some { cost := 5, path := ["A", "B", "C"] } ∧
    CorridorWalkCost exCfg.corridors ["A", "B", "C"] 5 ∧
    (∀ (p : List String) (q : ℚ), CorridorWalkCost exCfg.corridors p q →
        p.head? = some "A" → p.getLast? = some "C" → p.Nodup → 5 ≤ q) := by
  refine ⟨?_, ?_, by decide, by decide, by decide, ?_, exWalk_min⟩
  · intro cfg a b fromLoc toLoc pr hne ha hb hpr
    constructor
    · simp [getTransportTime, ha, hb, hne, getPath, hpr]
    · simp [getTransportRoute, ha, hb, hne, getPath, hpr]
  · intro cfg a fromLoc corridors1 ha
    simp [getTransportTime, ha]
  · have h5 : (5 : ℚ) = 2 + (3 + 0) := by norm_num
    rw [h5]
    refine CorridorWalkCost.step ?_ (CorridorWalkCost.step ?_ (CorridorWalkCost.single "C"))
    · exact ⟨exCorrAB, by simp [exCfg], rfl, Or.inl ⟨rfl, rfl⟩⟩
    · exact ⟨exCorrBC, by simp [exCfg], rfl, Or.inl ⟨rfl, rfl⟩⟩

unseal Rat.add Rat.mul Rat.inv Rat.sub in
/-- Witness for C6: the general formula applied to the concrete 3-node graph,
and the same-location case applied at B. -/
theorem claim_C6_routing_witness :
    getTransportTime exCfg "A" "C" =
      some (exLocA.localTransportTicks + 5 + exLocC.localTransportTicks) ∧
    getTransportTime { exCfg with corridors := exCfg.corridors } "B" "B" =
      some exLocB.localTransportTicks :=
  ⟨(claim_C6_routing.1 exCfg "A" "C" exLocA exLocC
      { cost := 5, path := ["A", "B", "C"] } (by decide) (by decide) (by decide)
      (by decide)).1,
    claim_C6_routing.2.1 exCfg "B" exLocB exCfg.corridors (by decide)⟩

-- ---------------------------------------------------------------------------
-- Contract status update (C8)
-- ---------------------------------------------------------------------------

/-- C8: at the contract-status-update phase every active contract with
shipped + missed ≥ total becomes completed; every active contract with
shipped + missed < total whose missed fraction exceeds the threshold becomes
cancelled; in particular totalUnits = 100, threshold = 1/4 and more than 25
missed units cancel the contract even though shipped + missed < total. -/
theorem claim_C8_cancellation (s : GameState) (i : ℕ) (c : Contract)
    (hc : s.contracts.getD i defaultContract = c)
    (hactive : c.status = ContractStatus.active) :
    (c.totalUnits ≤ c.unitsShipped + c.unitsMissed →
      (updateContractStatuses s).contracts.getD i defaultContract =
        { c with status := ContractStatus.completed }) ∧
    (c.unitsShipped + c.unitsMissed < c.totalUnits →
      c.cancellationThreshold < c.unitsMissed / c.totalUnits →
      (updateContractStatuses s).contracts.getD i defaultContract =
        { c with status := ContractStatus.cancelled }) ∧
    (c.totalUnits = 100 → c.cancellationThreshold = 1/4 →
      25 < c.unitsMissed → c.unitsShipped + c.unitsMissed < 100 →
      (updateContractStatuses s).contracts.getD i defaultContract =
        { c with status := ContractStatus.cancelled }) := by
  have hi : i < s.contracts.length := by
    by_contra hi
    push_neg at hi
    rw [List.getD_eq_default _ _ hi] at hc
    rw [← hc] at hactive
    exact absurd hactive (by decide)
  have hmap : (updateContractStatuses s).contracts.getD i defaultContract =
      (if c.status ≠ ContractStatus.active then c
       else if c.totalUnits ≤ c.unitsShipped + c.unitsMissed then
         { c with status := ContractStatus.completed }
       else if c.cancellationThreshold < c.unitsMissed / c.totalUnits then
         { c with status := ContractStatus.cancelled }
       else c) := by
    unfold updateContractStatuses
    simp only [List.getD_eq_getElem?_getD, List.getElem?_map]
    rw [(List.getElem?_eq_some_iff).mpr ⟨hi, rfl⟩]
    simp only [Option.map_some', Option.getD_some]
    rw [List.getD_eq_getElem?_getD, (List.getElem?_eq_some_iff).mpr ⟨hi, rfl⟩] at hc
    simp only [Option.getD_some] at hc
    rw [hc]
  rw [hmap, if_neg (by simp [hactive])]
  refine ⟨?_, ?_, ?_⟩
  · intro hle
    rw [if_pos hle]
  · intro hlt hthr
    rw [if_neg (not_le.mpr hlt), if_pos hthr]
  · intro ht100 hthr hmiss hsum
    have h1 : ¬ c.totalUnits ≤ c.unitsShipped + c.unitsMissed := by
      rw [ht100]; exact not_le.mpr hsum
    have h2 : c.cancellationThreshold < c.unitsMissed / c.totalUnits := by
      rw [ht100, hthr, lt_div_iff₀ (by norm_num : (0:ℚ) < 100)]
      linarith
    rw [if_neg h1, if_pos h2]

unseal Rat.add Rat.mul Rat.inv Rat.sub in
/-- Witness for C8: the concrete contract with 26 of 100 units missed at
threshold 1/4 is cancelled. -/
theorem claim_C8_cancellation_witness :
    (updateContractStatuses exState8).contracts.getD 0 defaultContract =
      { exContract8 with status := ContractStatus.cancelled } :=
  (claim_C8_cancellation exState8 0 exContract8 (by decide) (by decide)).2.2
    (by decide) (by decide) (by decide) (by decide)

-- ---------------------------------------------------------------------------
-- State-helper lemmas
-- ---------------------------------------------------------------------------

theorem find?_map_invariant {α : Type} (p : α → Bool) (g : α → α)
    (hp : ∀ e, p (g e) = p e) (l : List α) :
    (l.map g).find? p = (l.find? p).map g := by
  induction l with
  | nil => rfl
  | cons e rest ih =>
      by_cases he : p e = true
      · simp [List.find?_cons, hp e, he]
      · rw [Bool.not_eq_true] at he
        simp [List.find?_cons, hp e, he, ih]

theorem findConsPos {α : Type} (p : α → Bool) (a : α) (l : List α)
    (h : p a = true) : (a :: l).find? p = some a := by
  simp [List.find?_cons, h]

theorem findConsNeg {α : Type} (p : α → Bool) (a : α) (l : List α)
    (h : p a = false) : (a :: l).find? p = l.find? p := by
  simp [List.find?_cons, h]

theorem find?_map_set {α : Type} (m : StrMap α) (k : String) (v : α) :
    (m.map (fun p => if p.1 == k then (k, v) else p)).find? (fun p => p.1 == k) =
      if smHasKey m k then some (k, v) else none := by
  induction m with
  | nil => rfl
  | cons p rest ih =>
      by_cases hp : (p.1 == k) = true
      · rw [List.map_cons, if_pos hp,
          findConsPos (fun q => q.1 == k) (k, v) _ (by simp)]
        have hh : smHasKey (p :: rest) k = true := by
          simp [smHasKey, List.any_cons, hp]
        rw [hh, if_pos rfl]
      · rw [List.map_cons, if_neg hp,
          findConsNeg (fun q => q.1 == k) p _ (by simpa using hp), ih]
        have hh : smHasKey (p :: rest) k = smHasKey rest k := by
          simp [smHasKey, List.any_cons, hp]
        rw [hh]

theorem find?_map_set_other {α : Type} (m : StrMap α) (k k' : String)
    (hne : k' ≠ k) (v : α) :
    (m.map (fun p => if p.1 == k then (k, v) else p)).find? (fun p => p.1 == k') =
      m.find? (fun p => p.1 == k') := by
  induction m with
  | nil => rfl
  | cons p rest ih =>
      by_cases hp : (p.1 == k) = true
      · have hp1 : p.1 = k := by simpa using hp
        rw [List.map_cons, if_pos hp,
          findConsNeg (fun q => q.1 == k') (k, v) _
            (by simp [show k ≠ k' from fun h => hne h.symm]),
          findConsNeg (fun q => q.1 == k') p _
            (by simp [hp1, show k ≠ k' from fun h => hne h.symm]), ih]
      · rw [List.map_cons, if_neg hp]
        by_cases hpk' : (p.1 == k') = true
        · rw [findConsPos (fun q => q.1 == k') p _ hpk',
            findConsPos (fun q => q.1 == k') p _ hpk']
        · rw [findConsNeg (fun q => q.1 == k') p _ (by simpa using hpk'),
            findConsNeg (fun q => q.1 == k') p _ (by simpa using hpk'), ih]

theorem find?_not_hasKey {α : Type} (m : StrMap α) (k : String)
    (h : ¬ smHasKey m k) : m.find? (fun p => p.1 == k) = none := by
  rw [List.find?_eq_none]
  intro p hp hpk
  exact h (List.any_eq_true.mpr ⟨p, hp, hpk⟩)

theorem smLookup_smSet_self {α : Type} (m : StrMap α) (k : String) (v : α) :
    smLookup (smSet m k v) k = some v := by
  unfold smSet
  by_cases h : smHasKey m k
  · rw [if_pos h]
    unfold smLookup
    rw [find?_map_set, if_pos h]
    rfl
  · rw [if_neg h]
    unfold smLookup
    rw [List.find?_append, find?_not_hasKey m k h]
    simp

theorem smLookup_smSet_other {α : Type} (m : StrMap α) (k k' : String)
    (hne : k' ≠ k) (v : α) :
    smLookup (smSet m k v) k' = smLookup m k' := by
  unfold smSet
  by_cases h : smHasKey m k
  · rw [if_pos h]
    unfold smLookup
    rw [find?_map_set_other m k k' hne]
  · rw [if_neg h]
    unfold smLookup
    rw [List.find?_append]
    have h1 : ([(k, v)].find? (fun p => p.1 == k')) = none := by
      simp [show k ≠ k' from fun h => hne h.symm]
    rw [h1]
    simp

theorem smGet_smSet_self {α : Type} (m : StrMap α) (k : String) (v d : α) :
    smGet (smSet m k v) k d = v := by
  unfold smGet
  rw [smLookup_smSet_self]
  rfl

theorem smGet_smSet_other {α : Type} (m : StrMap α) (k k' : String)
    (hne : k' ≠ k) (v d : α) :
    smGet (smSet m k v) k' d = smGet m k' d := by
  unfold smGet
  rw [smLookup_smSet_other _ _ _ hne]

theorem getEntity_updateEntity (s : GameState) (id id' : String)
    (f : Entity → Entity) (hf : ∀ e, (f e).id = e.id) :
    getEntity (updateEntity s id f) id' =
      (getEntity s id').map (fun (e : Entity) => if e.id == id then f e else e) := by
  unfold getEntity updateEntity
  exact find?_map_invariant (fun (e : Entity) => e.id == id') _
    (fun e => by by_cases h : (e.id == id) = true <;> simp [h, hf e]) _

theorem getEntity_updateEntity_self (s : GameState) (id : String)
    (f : Entity → Entity) (hf : ∀ e, (f e).id = e.id) (e : Entity)
    (he : getEntity s id = some e) :
    getEntity (updateEntity s id f) id = some (f e) := by
  rw [getEntity_updateEntity s id id f hf, he]
  have hid : (e.id == id) = true := by
    unfold getEntity at he
    have h2 := List.find?_some he
    simpa using h2
  simp only [Option.map_some']
  rw [if_pos hid]

theorem getEntity_updateEntity_other (s : GameState) (id id' : String)
    (hne : id' ≠ id) (f : Entity → Entity) (hf : ∀ e, (f e).id = e.id) :
    getEntity (updateEntity s id f) id' = getEntity s id' := by
  rw [getEntity_updateEntity s id id' f hf]
  cases he : getEntity s id' with
  | none => rfl
  | some e =>
      have hid : (e.id == id') = true := by
        unfold getEntity at he
        have h2 := List.find?_some he
        simpa using h2
      rw [beq_iff_eq] at hid
      subst hid
      simp [Option.map_some', beq_iff_eq, hne]

-- ---------------------------------------------------------------------------
-- Contract penalties (C7)
-- ---------------------------------------------------------------------------

theorem getEntity_deductMoney (s : GameState) (eid : String) (amt : ℚ)
    (e : Entity) (he : getEntity s eid = some e) (h0 : 0 ≤ amt) :
    getEntity (deductMoney s eid amt) eid =
      some { e with money := e.money - amt } := by
  unfold deductMoney
  by_cases h : amt ≤ 0
  · rw [if_pos h]
    have hz : amt = 0 := le_antisymm h h0
    subst hz
    simpa [sub_zero] using he
  · rw [if_neg h]
    exact getEntity_updateEntity_self s eid
      (fun e => { e with money := e.money - amt }) (fun e => rfl) e he

theorem deductMoney_set_contracts (s : GameState) (cs : List Contract)
    (eid : String) (amt : ℚ) :
    deductMoney { s with contracts := cs } eid amt =
      { (deductMoney s eid amt) with contracts := cs } := by
  unfold deductMoney updateEntity
  by_cases h : amt ≤ 0 <;> simp [h]

theorem contractProposalsLoop_players (cfg : GameConfig) (sE : GameState)
    (entities : List Entity) (h : ∀ e ∈ entities, e.isPlayerControlled = true)
    (acc : ℕ × List Contract) :
    contractProposalsLoop cfg sE entities acc = some acc := by
  induction entities generalizing acc with
  | nil => rfl
  | cons e rest ih =>
      unfold contractProposalsLoop
      rw [if_pos (h e (List.mem_cons_self e rest))]
      exact ih (fun e' he' => h e' (List.mem_cons_of_mem e he')) acc

/-- C7: an active contract due at the current tick whose seller lacks the due
quantity (with at least unitsPerDelivery units unprocessed) charges the seller
exactly deliveryQty × penaltyPerUnit, adds the quantity to unitsMissed and
advances nextDeliveryTick by deliveryInterval. Stated for a contract-phase
state whose only contract is the due one and whose entities are all
player-controlled, so the AI proposal/evaluation sub-phases are inert. -/
theorem claim_C7_contract_penalty (cfg : GameConfig) (s : GameState)
    (c : Contract) (seller : Entity)
    (hcontracts : s.contracts = [c])
    (hplayers : ∀ e ∈ s.entities, e.isPlayerControlled = true)
    (hactive : c.status = ContractStatus.active)
    (hdue : c.nextDeliveryTick ≤ s.tick)
    (hseller : getEntity s c.sellerEntityId = some seller)
    (hqty : 0 < c.unitsPerDelivery)
    (hrem : c.unitsPerDelivery ≤ c.totalUnits - c.unitsShipped - c.unitsMissed)
    (havail : getAvailable seller c.resource < c.unitsPerDelivery)
    (hpen : 0 ≤ c.penaltyPerUnit) :
    processContractManagement s cfg = some
      { (deductMoney s c.sellerEntityId (c.unitsPerDelivery * c.penaltyPerUnit)) with
        contracts := [{ c with
          unitsMissed := c.unitsMissed + c.unitsPerDelivery
          nextDeliveryTick := c.nextDeliveryTick + c.deliveryInterval }] } ∧
    getEntity (deductMoney s c.sellerEntityId
        (c.unitsPerDelivery * c.penaltyPerUnit)) c.sellerEntityId =
      some { seller with money :=
        seller.money - c.unitsPerDelivery * c.penaltyPerUnit } := by
  constructor
  · unfold processContractManagement
    rw [contractProposalsLoop_players cfg s s.entities hplayers
      (s.idCounter, s.contracts)]
    simp only [Option.bind_eq_bind, Option.some_bind]
    rw [hcontracts]
    have hmature : List.filter (fun c' =>
        c'.status == ContractStatus.proposed &&
          decide (c'.proposedAtTick ≤ s.tick - cfg.contractWaitTicks)) [c] = [] := by
      simp [hactive]
    rw [hmature]
    have hgroup : groupByKey (fun (x : Contract) => x.sellerEntityId) [] = [] := rfl
    rw [hgroup]
    simp only [List.foldlM_nil, Option.bind_eq_bind, Option.some_bind, Option.pure_def]
    have hrange : List.range ([c].length) = [0] := rfl
    rw [hrange]
    simp only [List.foldlM_cons, List.foldlM_nil, Option.bind_eq_bind]
    unfold contractDueStep
    dsimp only
    rw [List.getD_cons_zero]
    rw [if_neg (by simp [hactive]), if_neg (not_lt.mpr hdue)]
    rw [show getEntity { s with contracts := [c] } c.sellerEntityId =
      some seller from hseller]
    dsimp only
    rw [min_eq_left hrem]
    rw [if_neg (not_le.mpr hqty), if_neg (not_le.mpr havail)]
    rw [List.set_cons_zero]
    rw [deductMoney_set_contracts s [c] c.sellerEntityId
      (c.unitsPerDelivery * c.penaltyPerUnit)]
    rfl
  · exact getEntity_deductMoney s c.sellerEntityId _ seller hseller
      (mul_nonneg (le_of_lt hqty) hpen)

unseal Rat.add Rat.mul Rat.inv Rat.sub in
/-- Witness for C7: the concrete due contract (10 units per delivery, penalty
2 per unit) against a stockless seller loses the seller exactly 20 money,
adds 10 to unitsMissed and advances the schedule by the interval. -/
theorem claim_C7_contract_penalty_witness :
    processContractManagement exState7 exCfg = some
      { (deductMoney exState7 exContract.sellerEntityId
          (exContract.unitsPerDelivery * exContract.penaltyPerUnit)) with
        contracts := [{ exContract with
          unitsMissed := exContract.unitsMissed + exContract.unitsPerDelivery
          nextDeliveryTick := exContract.nextDeliveryTick + exContract.deliveryInterval }] } ∧
    getEntity (deductMoney exState7 exContract.sellerEntityId
        (exContract.unitsPerDelivery * exContract.penaltyPerUnit))
      exContract.sellerEntityId =
      some { exSellerZero with money :=
        exSellerZero.money - exContract.unitsPerDelivery * exContract.penaltyPerUnit } :=
  claim_C7_contract_penalty exCfg exState7 exContract exSellerZero (by decide)
    (by decide) (by decide) (by decide) (by decide) (by decide) (by decide)
    (by decide) (by decide)

-- ---------------------------------------------------------------------------
-- Production stalling (C2)
-- ---------------------------------------------------------------------------

unseal Rat.add Rat.mul Rat.inv Rat.sub in
/-- Counterexample to C2: a running line at progress 0 whose cycle input (1
of c1) is available but whose tick input (1 of c2) is not stalls — progress
stays 0 — yet the cycle input is consumed in that same tick: the owner's c1
drops from 1 to 0, so a failing tick-input consumption does not imply that no
inputs of the line are consumed. -/
theorem claim_C2_counterexample :
    processProductionLines exLineState exProdCfg =
      some { exLineState with
        entities := [{ exOwner with inventory := [("c1", 0), ("c2", 0)] }] } ∧
    invOf exLineState "own" "c1" = 1 ∧
    (processProductionLines exLineState exProdCfg).map
        (fun s' => (s'.processLines.getD 0 exLine).progress) = some 0 ∧
    (processProductionLines exLineState exProdCfg).map
        (fun s' => invOf s' "own" "c1") = some 0 := by
  refine ⟨by decide, by decide, by decide, by decide⟩

/-- C2 (amended): for a running line whose owner and process resolve,
(i) a failing cycle-input check at progress 0 stalls the line with nothing
consumed; (ii) a failing tick-input check with no cycle consumption likewise;
(iii) a failing tick-input check after successful cycle consumption at
progress 0 leaves progress unchanged and consumes no tick inputs, but the
already-consumed cycle inputs are not restored; (iv) when both checks pass
mid-cycle, the line consumes once and advances by exactly 1; (v) a
single-line state stalled on its cycle inputs is a fixpoint of the
production phase, so it stays at the same progress across repeated ticks
until inputs change. -/
theorem claim_C2_production_stall :
    (∀ (cfg : GameConfig) (s : GameState) (line : ProcessLine)
        (e : Entity) (process : ProductionProcess),
      getEntity s line.entityId = some e →
      getProductionProcess cfg line.processId = some process →
      line.phase = ProcessLinePhase.running →
      (line.progress = 0 → process.cycleInputs ≠ [] →
        canConsume s line.entityId process.cycleInputs line.volume = false →
        processOneLine cfg s line = some (s, some line)) ∧
      ((line.progress ≠ 0 ∨ process.cycleInputs = []) → process.tickInputs ≠ [] →
        canConsume s line.entityId process.tickInputs line.volume = false →
        processOneLine cfg s line = some (s, some line)) ∧
      (line.progress = 0 → process.cycleInputs ≠ [] →
        canConsume s line.entityId process.cycleInputs line.volume = true →
        process.tickInputs ≠ [] →
        canConsume (consumeInputs s line.entityId process.cycleInputs line.volume)
          line.entityId process.tickInputs line.volume = false →
        processOneLine cfg s line =
          some (consumeInputs s line.entityId process.cycleInputs line.volume,
            some line)) ∧
      (line.progress = 0 → process.cycleInputs ≠ [] →
        canConsume s line.entityId process.cycleInputs line.volume = true →
        process.tickInputs ≠ [] →
        canConsume (consumeInputs s line.entityId process.cycleInputs line.volume)
          line.entityId process.tickInputs line.volume = true →
        1 < process.cycleTicks →
        processOneLine cfg s line =
          some (consumeInputs
              (consumeInputs s line.entityId process.cycleInputs line.volume)
              line.entityId process.tickInputs line.volume,
            some { line with progress := 1 }))) ∧
    (∀ (cfg : GameConfig) (s : GameState) (line : ProcessLine)
        (e : Entity) (process : ProductionProcess),
      s.processLines = [line] →
      getEntity s line.entityId = some e →
      getProductionProcess cfg line.processId = some process →
      line.phase = ProcessLinePhase.running →
      line.progress = 0 → process.cycleInputs ≠ [] →
      canConsume s line.entityId process.cycleInputs line.volume = false →
      processProductionLines s cfg = some s) := by
  have hbody : ∀ (cfg : GameConfig) (s : GameState) (line : ProcessLine)
      (e : Entity) (process : ProductionProcess),
      getEntity s line.entityId = some e →
      getProductionProcess cfg line.processId = some process →
      line.phase = ProcessLinePhase.running →
      (line.progress = 0 → process.cycleInputs ≠ [] →
        canConsume s line.entityId process.cycleInputs line.volume = false →
        processOneLine cfg s line = some (s, some line)) := by
    intro cfg s line e process he hproc hrun hp hne hcc
    unfold processOneLine
    rw [he]
    simp only [Option.bind_eq_bind, hproc, Option.some_bind]
    rw [if_neg (by simp [hrun])]
    rw [if_pos ⟨hp, by simpa using hne⟩]
    rw [if_pos (by simp [hcc])]
    rfl
  constructor
  · intro cfg s line e process he hproc hrun
    refine ⟨hbody cfg s line e process he hproc hrun, ?_, ?_, ?_⟩
    · intro hp hne hcc
      unfold processOneLine
      rw [he]
      simp only [Option.bind_eq_bind, hproc, Option.some_bind]
      rw [if_neg (by simp [hrun])]
      rw [if_neg (by
        rcases hp with hp | hp
        · simp [hp]
        · simp [hp])]
      unfold lineTickPhase
      rw [if_pos (by simpa using hne)]
      rw [if_pos (by simp [hcc])]
      rfl
    · intro hp hne hcc htne htcc
      unfold processOneLine
      rw [he]
      simp only [Option.bind_eq_bind, hproc, Option.some_bind]
      rw [if_neg (by simp [hrun])]
      rw [if_pos ⟨hp, by simpa using hne⟩]
      rw [if_neg (by simp [hcc])]
      unfold lineTickPhase
      rw [if_pos (by simpa using htne)]
      rw [if_pos (by simp [htcc])]
      rfl
    · intro hp hne hcc htne htcc hct
      unfold processOneLine
      rw [he]
      simp only [Option.bind_eq_bind, hproc, Option.some_bind]
      rw [if_neg (by simp [hrun])]
      rw [if_pos ⟨hp, by simpa using hne⟩]
      rw [if_neg (by simp [hcc])]
      unfold lineTickPhase
      rw [if_pos (by simpa using htne)]
      rw [if_neg (by simp [htcc])]
      unfold lineAdvance
      simp only [hp, zero_add]
      rw [if_neg (not_le.mpr hct)]
      rfl
  · intro cfg s line e process hlines he hproc hrun hp hne hcc
    unfold processProductionLines
    rw [hlines]
    simp only [List.foldlM_cons, List.foldlM_nil, Option.bind_eq_bind]
    rw [hbody cfg s line e process he hproc hrun hp hne hcc]
    simp only [Option.some_bind, Option.pure_def]
    rw [show (([] : List ProcessLine) ++ (some line).toList) = [line] from rfl,
      ← hlines]

unseal Rat.add Rat.mul Rat.inv Rat.sub in
/-- Witness for C2 (amended): the concrete stalled line consumes its cycle
inputs, keeps progress 0, and is not restored. -/
theorem claim_C2_production_stall_witness :
    processOneLine exProdCfg exLineState exLine =
      some (consumeInputs exLineState exLine.entityId exProdProcess.cycleInputs
        exLine.volume, some exLine) :=
  (claim_C2_production_stall.1 exProdCfg exLineState exLine exOwner exProdProcess
      (by decide) (by decide) (by decide)).2.2.1
    (by decide) (by decide) (by decide) (by decide) (by decide)

-- ---------------------------------------------------------------------------
-- Order acceptance priority (C5)
-- ---------------------------------------------------------------------------

unseal Rat.add Rat.mul Rat.inv Rat.sub in
/-- C5: sortOrdersByPriority returns a permutation of the pending indices in
which every earlier order has strictly higher price, or equal price and
strictly shorter transport time to the buyer, or equal price and time and an
earlier-or-equal placement tick; acceptance then processes the orders in
that sequence against live available stock. Concretely, with pending orders
at prices 5 and 7 for the same seller and resource and stock sufficient for
only one, acceptance accepts the price-7 order in full and declines the
price-5 order. -/
theorem claim_C5_acceptance_priority :
    (∀ (seller : Entity) (orderIndices : List ℕ) (orders : List Order)
        (s : GameState) (cfg : GameConfig),
      (sortOrdersByPriority seller orderIndices orders s cfg).Perm orderIndices ∧
      (sortOrdersByPriority seller orderIndices orders s cfg).Pairwise
        (OrderPriorityGe seller orders s cfg)) ∧
    (processOrderAcceptance exState57 exCfg).map (fun s' =>
        ((s'.orders.getD 0 defaultOrder).status,
          (s'.orders.getD 1 defaultOrder).status,
          (s'.orders.getD 1 defaultOrder).fulfilledQuantity,
          (s'.orders.getD 0 defaultOrder).fulfilledQuantity)) =
      some (OrderStatus.declined, OrderStatus.accepted, 10, 0) := by
  constructor
  · intro seller orderIndices orders s cfg
    constructor
    · exact stableSort_perm _ orderIndices
    · have hp := stableSort_pairwise (orderPriorityLe_total seller orders s cfg)
        (orderPriorityLe_trans seller orders s cfg) orderIndices
      exact hp.imp (fun h => (orderPriorityLe_iff seller orders s cfg _ _).mp h)
  · decide

-- ---------------------------------------------------------------------------
-- Supplier selection (C9)
-- ---------------------------------------------------------------------------

unseal Rat.add Rat.mul Rat.inv Rat.sub in
/-- Counterexample to C9: with a far supplier holding 100 available units
(transport time 8) and a near supplier holding 1 (transport time 1), both
spot-order supplier pickers choose the near low-stock supplier, so the
ranking does not prefer greater available stock first. -/
theorem claim_C9_counterexample :
    findBestSupplier exState9 exCfg "buyer" "r" = some (some exNear) ∧
    pickBestSupplier exBuyer9 "r" ["far", "near"] exState9 exCfg =
      some (some "near") ∧
    getAvailable exFar "r" = 100 ∧ getAvailable exNear "r" = 1 ∧
    getTransportTime exCfg exFar.locationId exBuyer9.locationId = some 8 ∧
    getTransportTime exCfg exNear.locationId exBuyer9.locationId = some 1 := by
  refine ⟨by decide, by decide, by decide, by decide, by decide, by decide⟩

/-- C9 (amended): among the listed suppliers with positive available stock,
the chosen one is top-ranked by shortest transport time first, with ties
broken by greater available stock (and analogously for the procurement AI's
pickBestSupplier ranking). -/
theorem claim_C9_supplier_ranking :
    (∀ (kept : List EntityCandidate) (c : EntityCandidate)
        (rest : List EntityCandidate),
      stableSort entityCandidateLe kept = c :: rest →
      c ∈ kept ∧ ∀ x ∈ kept, x = c ∨ EntityCandidateBetterEq c x) ∧
    (∀ (kept : List SupplierCandidate) (c : SupplierCandidate)
        (rest : List SupplierCandidate),
      stableSort supplierRankLe kept = c :: rest →
      c ∈ kept ∧ ∀ x ∈ kept, x = c ∨ SupplierCandidateBetterEq c x) ∧
    (∀ (s : GameState) (cfg : GameConfig) (buyerEntityId resource : String)
        (buyer : Entity) (candidates : List EntityCandidate)
        (c : EntityCandidate) (rest : List EntityCandidate),
      getEntity s buyerEntityId = some buyer →
      ¬ (smGet buyer.suppliers resource []).isEmpty →
      ((smGet buyer.suppliers resource []).foldlM (fun acc id =>
        match getEntity s id with
        | none => pure acc
        | some supplier => do
            let distance ← getTransportTime cfg supplier.locationId buyer.locationId
            pure (acc ++ [{ supplier := supplier
                            available := getAvailable supplier resource
                            distance := distance }])) ([] : List EntityCandidate)) =
        some candidates →
      stableSort entityCandidateLe
          (candidates.filter (fun c => decide (0 < c.available))) = c :: rest →
      findBestSupplier s cfg buyerEntityId resource = some (some c.supplier) ∧
      c ∈ candidates.filter (fun c => decide (0 < c.available)) ∧
      ∀ x ∈ candidates.filter (fun c => decide (0 < c.available)),
        x = c ∨ EntityCandidateBetterEq c x) := by
  refine ⟨?_, ?_, ?_⟩
  · intro kept c rest h
    have := stableSort_head_le entityCandidateLe_total entityCandidateLe_trans
      kept c rest h
    exact ⟨this.1, fun x hx => (this.2 x hx).imp_right
      (fun h' => (entityCandidateLe_iff c x).mp h')⟩
  · intro kept c rest h
    have := stableSort_head_le supplierRankLe_total supplierRankLe_trans
      kept c rest h
    exact ⟨this.1, fun x hx => (this.2 x hx).imp_right
      (fun h' => (supplierRankLe_iff c x).mp h')⟩
  · intro s cfg buyerEntityId resource buyer candidates c rest hb hne hc hsort
    have hhead := stableSort_head_le entityCandidateLe_total entityCandidateLe_trans
      (candidates.filter (fun c => decide (0 < c.available))) c rest hsort
    refine ⟨?_, hhead.1, fun x hx => (hhead.2 x hx).imp_right
      (fun h' => (entityCandidateLe_iff c x).mp h')⟩
    unfold findBestSupplier
    rw [hb]
    simp only [Option.bind_eq_bind, Option.some_bind]
    rw [if_neg hne]
    simp only [Option.bind_eq_bind] at hc
    rw [hc]
    simp only [Option.some_bind]
    rw [hsort]
    rfl

unseal Rat.add Rat.mul Rat.inv Rat.sub in
/-- Witness for C9 (amended): on the concrete two-supplier state the chosen
candidate is the near one and it is top-ranked time-first. -/
theorem claim_C9_supplier_ranking_witness :
    findBestSupplier exState9 exCfg "buyer" "r" =
      some (some ({ supplier := exNear, available := 1, distance := 1 } :
        EntityCandidate).supplier) ∧
    ({ supplier := exNear, available := 1, distance := 1 } : EntityCandidate) ∈
      ([{ supplier := exFar, available := 100, distance := 8 },
        { supplier := exNear, available := 1, distance := 1 }] :
          List EntityCandidate).filter (fun c => decide (0 < c.available)) ∧
    ∀ x ∈ ([{ supplier := exFar, available := 100, distance := 8 },
        { supplier := exNear, available := 1, distance := 1 }] :
          List EntityCandidate).filter (fun c => decide (0 < c.available)),
      x = { supplier := exNear, available := 1, distance := 1 } ∨
        EntityCandidateBetterEq { supplier := exNear, available := 1, distance := 1 } x :=
  claim_C9_supplier_ranking.2.2 exState9 exCfg "buyer" "r" exBuyer9
    [{ supplier := exFar, available := 100, distance := 8 },
      { supplier := exNear, available := 1, distance := 1 }]
    { supplier := exNear, available := 1, distance := 1 }
    [{ supplier := exFar, available := 100, distance := 8 }]
    (by decide) (by decide) (by decide) (by decide)

-- ---------------------------------------------------------------------------
-- Invalid player actions (C10)
-- ---------------------------------------------------------------------------

unseal Rat.add Rat.mul Rat.inv Rat.sub in
/-- Counterexample to C10: a queued start_line action naming an unknown
production process makes runOneTick throw (no next state at all), instead of
acting as a silent no-op producing the same next state as without the
action. -/
theorem claim_C10_counterexample :
    runOneTick exCfg (fun _ => 0) exStateEmpty [exActionBadProcess] = none ∧
    (runOneTick exCfg (fun _ => 0) exStateEmpty []).isSome = true := by
  refine ⟨by decide, by decide⟩

/-- C10 (amended): a queued action naming an unknown entity or an entity not
under player control is skipped — the action queue produces exactly the state
the remaining queue produces — and a start_line action at full process-line
capacity is a silent no-op; but a start_line action naming an unknown
production process throws out of the tick instead (see the counterexample). -/
theorem claim_C10_invalid_actions :
    (∀ (cfg : GameConfig) (s : GameState) (a : PlayerOrder)
        (rest : List PlayerOrder),
      getEntity s a.entityId = none →
      processPlayerOrders s cfg (a :: rest) = processPlayerOrders s cfg rest) ∧
    (∀ (cfg : GameConfig) (s : GameState) (a : PlayerOrder)
        (rest : List PlayerOrder) (e : Entity),
      getEntity s a.entityId = some e →
      e.isPlayerControlled = false →
      processPlayerOrders s cfg (a :: rest) = processPlayerOrders s cfg rest) ∧
    (∀ (cfg : GameConfig) (s : GameState) (a : PlayerOrder) (e : Entity)
        (process : ProductionProcess) (entityType : EntityTypeConfig),
      a.action = PlayerActionKind.start_line →
      getProductionProcess cfg a.targetId = some process →
      getEntityType cfg e.type = some entityType →
      entityType.maxProcessLines ≤
        ((s.processLines.filter (fun l => l.entityId == e.id)).length : ℚ) →
      applyPlayerAction cfg s e a = some s) := by
  refine ⟨?_, ?_, ?_⟩
  · intro cfg s a rest h
    unfold processPlayerOrders
    simp only [List.foldlM_cons, h, Option.bind_eq_bind, Option.some_bind,
      Option.pure_def]
  · intro cfg s a rest e he hc
    unfold processPlayerOrders
    simp only [List.foldlM_cons, he, hc, Option.bind_eq_bind, Option.some_bind,
      if_false, Bool.false_eq_true, Option.pure_def]
  · intro cfg s a e process entityType ha hproc htype hcap
    unfold applyPlayerAction
    rw [ha]
    simp only [hproc, htype, Option.bind_eq_bind, Option.some_bind]
    rw [if_pos hcap]
    rfl

unseal Rat.add Rat.mul Rat.inv Rat.sub in
/-- Witness for C10 (amended): the unknown-entity action is skipped on the
concrete state, and a start_line at full capacity is a no-op. -/
theorem claim_C10_invalid_actions_witness :
    processPlayerOrders exStateEmpty exCfg [exActionGhost] =
      processPlayerOrders exStateEmpty exCfg [] ∧
    applyPlayerAction exProdCfg exLineState exOwner exActionStartP =
      some exLineState :=
  ⟨claim_C10_invalid_actions.1 exCfg exStateEmpty exActionGhost [] (by decide),
    claim_C10_invalid_actions.2.2 exProdCfg exLineState exActionStartP exOwner
      exProdProcess exType (by decide) (by decide) (by decide) (by decide)⟩

-- ===========================================================================
-- C4: an accepted order departs in the same tick (claim refuted, amended)
-- ===========================================================================

/-- `List.set` at another index leaves `getD` unchanged. -/
theorem getD_set_ne (l : List Order) (i j : ℕ) (x d : Order) (h : i ≠ j) :
    (l.set j x).getD i d = l.getD i d := by
  simp [List.getD_eq_getElem?_getD, List.getElem?_set_ne (Ne.symm h)]

/-- `List.set` at the read index yields the new value or the default. -/
theorem getD_set_self_cases (l : List Order) (j : ℕ) (x d : Order) :
    (l.set j x).getD j d = x ∨ (l.set j x).getD j d = d := by
  by_cases hj : j < l.length
  · left
    simp [List.getD_eq_getElem?_getD, List.getElem?_set_self, hj]
  · right
    have h1 : (l.set j x).length ≤ j := by simpa using le_of_not_lt hj
    rw [List.getD_eq_getElem?_getD, List.getElem?_eq_none h1]
    rfl

/-- Bookkeeping for a departure-loop step that rewrites index `j`. -/
theorem depart_set_cond (orders : List Order) (j : ℕ) (rest : List ℕ) (x : Order)
    (hx : x.status ≠ OrderStatus.accepted) (i : ℕ)
    (hi : i ∈ j :: rest ∨ (orders.getD i defaultOrder).status ≠ OrderStatus.accepted) :
    i ∈ rest ∨ ((orders.set j x).getD i defaultOrder).status ≠ OrderStatus.accepted := by
  by_cases hij : i = j
  · subst hij
    right
    rcases getD_set_self_cases orders i x defaultOrder with h1 | h1 <;> rw [h1]
    · exact hx
    · simp [defaultOrder]
  · rcases hi with hmem | hne
    · rcases List.mem_cons.mp hmem with heq | hmem'
      · exact absurd heq hij
      · exact Or.inl hmem'
    · right
      rw [getD_set_ne orders i j x defaultOrder hij]
      exact hne

/-- Bookkeeping for a departure-loop step that skips index `j`. -/
theorem depart_skip_cond (orders : List Order) (j : ℕ) (rest : List ℕ)
    (hj : (orders.getD j defaultOrder).status ≠ OrderStatus.accepted) (i : ℕ)
    (hi : i ∈ j :: rest ∨ (orders.getD i defaultOrder).status ≠ OrderStatus.accepted) :
    i ∈ rest ∨ (orders.getD i defaultOrder).status ≠ OrderStatus.accepted := by
  rcases hi with hmem | hne
  · rcases List.mem_cons.mp hmem with heq | hmem'
    · subst heq
      exact Or.inr hj
    · exact Or.inl hmem'
  · exact Or.inr hne

/-- The departure loop never lengthens or shortens the order list. -/
theorem departLoop_length (cfg : GameConfig) :
    ∀ (indices : List ℕ) (s : GameState) (orders : List Order)
      (dels : List Delivery) (res : GameState × List Order × List Delivery),
      departLoop cfg indices (s, orders, dels) = some res →
      res.2.1.length = orders.length := by
  intro indices
  induction indices with
  | nil =>
    intro s orders dels res h
    simp only [departLoop, Option.pure_def, Option.some_inj] at h
    rw [← h]
  | cons j rest ih =>
    intro s orders dels res h
    unfold departLoop at h
    dsimp only at h
    split at h
    · exact ih s orders dels res h
    · split at h
      · split at h
        · have := ih _ _ _ _ h
          simpa using this
        · split at h
          · have := ih _ _ _ _ h
            simpa using this
          · simp only [Option.bind_eq_bind] at h
            rcases htr : getTransportRoute cfg _ _ with _ | tr
            · rw [htr] at h
              simp at h
            · rw [htr] at h
              simp only [Option.some_bind] at h
              have := ih _ _ _ _ h
              simpa using this
      · have := ih _ _ _ _ h
        simpa using this

/-- After the departure loop has visited an index (or it was already not
accepted), that slot is not `accepted`; no step ever writes `accepted`. -/
theorem departLoop_no_accepted (cfg : GameConfig) :
    ∀ (indices : List ℕ) (s : GameState) (orders : List Order)
      (dels : List Delivery) (res : GameState × List Order × List Delivery),
      departLoop cfg indices (s, orders, dels) = some res →
      ∀ i : ℕ,
        (i ∈ indices ∨ (orders.getD i defaultOrder).status ≠ OrderStatus.accepted) →
        (res.2.1.getD i defaultOrder).status ≠ OrderStatus.accepted := by
  intro indices
  induction indices with
  | nil =>
    intro s orders dels res h i hi
    simp only [departLoop, Option.pure_def, Option.some_inj] at h
    rw [← h]
    rcases hi with hmem | hne
    · exact absurd hmem (List.not_mem_nil i)
    · exact hne
  | cons j rest ih =>
    intro s orders dels res h i hi
    unfold departLoop at h
    dsimp only at h
    split at h
    · next hcond =>
      exact ih s orders dels res h i (depart_skip_cond orders j rest hcond i hi)
    · split at h
      · split at h
        · exact ih _ _ _ _ h i (depart_set_cond orders j rest _ (by simp) i hi)
        · split at h
          · exact ih _ _ _ _ h i (depart_set_cond orders j rest _ (by simp) i hi)
          · simp only [Option.bind_eq_bind] at h
            rcases htr : getTransportRoute cfg _ _ with _ | tr
            · rw [htr] at h
              simp at h
            · rw [htr] at h
              simp only [Option.some_bind] at h
              exact ih _ _ _ _ h i (depart_set_cond orders j rest _ (by simp) i hi)
      · exact ih _ _ _ _ h i (depart_set_cond orders j rest _ (by simp) i hi)

unseal Rat.add Rat.mul Rat.inv Rat.sub in
/-- C4 counterexample: in `exState0` the only order is `pending` at the start
of the tick, so it can only become accepted during this tick's acceptance
phase; yet after that same single `runOneTick` it is already `in_transit`
with its delivery created — departures run after acceptance inside one tick,
so an order accepted in tick t departs in tick t, not at t+1. -/
theorem claim_C4_counterexample :
    (exState0.orders.getD 0 defaultOrder).status = OrderStatus.pending ∧
    (runOneTick exCfg (fun _ => 0) exState0 []).map
        (fun s' => ((s'.orders.getD 0 defaultOrder).status, s'.deliveries.length, s'.tick))
      = some (OrderStatus.in_transit, 1, 1) := by
  constructor
  · rfl
  · rfl

/-- C4 (amended): after the departure phase of a tick no order is left in
status `accepted` — every order accepted in a tick departs (or is declined)
within that same tick, in the departure phase that follows acceptance. -/
theorem claim_C4_no_accepted_left (s : GameState) (cfg : GameConfig)
    (s' : GameState) (h : processDepartures s cfg = some s') :
    ∀ i : ℕ, (s'.orders.getD i defaultOrder).status ≠ OrderStatus.accepted := by
  intro i
  unfold processDepartures at h
  simp only [Option.bind_eq_bind] at h
  rcases hd : departLoop cfg (List.range s.orders.length) (s, s.orders, s.deliveries)
    with _ | acc
  · rw [hd] at h
    simp at h
  · rw [hd] at h
    simp only [Option.some_bind, Option.pure_def, Option.some_inj] at h
    rw [← h]
    dsimp only
    by_cases hlen : i < s.orders.length
    · exact departLoop_no_accepted cfg _ s s.orders s.deliveries acc hd i
        (Or.inl (List.mem_range.mpr hlen))
    · have hl : acc.2.1.length = s.orders.length :=
        departLoop_length cfg _ s s.orders s.deliveries acc hd
      have h2 : acc.2.1.length ≤ i := by omega
      rw [List.getD_eq_getElem?_getD, List.getElem?_eq_none h2]
      simp [defaultOrder]

unseal Rat.add Rat.mul Rat.inv Rat.sub in
/-- Witness: the amended C4 theorem at the concrete departure step of
`exStateAcc`, whose accepted order really ships this tick. -/
theorem claim_C4_no_accepted_left_witness :
    (((processDepartures exStateAcc exCfg).getD exState0).orders.getD 0
        defaultOrder).status ≠ OrderStatus.accepted :=
  claim_C4_no_accepted_left exStateAcc exCfg _ (by rfl) 0

-- ===========================================================================
-- Identifier freshness: decimal rendering is injective
-- ===========================================================================

/-- The digit accumulator of `Nat.toDigitsCore` is append-only. -/
theorem toDigitsCore_acc (b : ℕ) :
    ∀ (fuel n : ℕ) (ds : List Char),
      Nat.toDigitsCore b fuel n ds = Nat.toDigitsCore b fuel n [] ++ ds := by
  intro fuel
  induction fuel with
  | zero => intro n ds; simp [Nat.toDigitsCore]
  | succ f ih =>
    intro n ds
    unfold Nat.toDigitsCore
    dsimp only
    by_cases h : n / b = 0
    · rw [if_pos h, if_pos h]
      rfl
    · rw [if_neg h, if_neg h]
      rw [ih (n / b) [Nat.digitChar (n % b)], ih (n / b) (Nat.digitChar (n % b) :: ds)]
      simp

/-- `Nat.toDigitsCore` ignores the fuel once it covers the number. -/
theorem toDigitsCore_fuel (b : ℕ) (hb : 1 < b) :
    ∀ (n f f' : ℕ), n < f → n < f' →
      Nat.toDigitsCore b f n [] = Nat.toDigitsCore b f' n [] := by
  intro n
  induction n using Nat.strong_induction_on with
  | _ n ih =>
    intro f f' hf hf'
    match f, f' with
    | f + 1, f' + 1 =>
      unfold Nat.toDigitsCore
      dsimp only
      by_cases h : n / b = 0
      · rw [if_pos h, if_pos h]
      · rw [if_neg h, if_neg h]
        have hn : 0 < n := by
          rcases Nat.eq_zero_or_pos n with h0 | h0
          · subst h0; simp at h
          · exact h0
        have hlt : n / b < n := Nat.div_lt_self hn hb
        rw [toDigitsCore_acc, toDigitsCore_acc b f' (n / b)]
        rw [ih (n / b) hlt f f' (by omega) (by omega)]

/-- Unfolding of `Nat.toDigits` base 10 for small numbers. -/
theorem toDigits_small (n : ℕ) (h : n < 10) :
    Nat.toDigits 10 n = [Nat.digitChar n] := by
  unfold Nat.toDigits Nat.toDigitsCore
  dsimp only
  rw [if_pos (Nat.div_eq_of_lt h), Nat.mod_eq_of_lt h]

/-- Unfolding of `Nat.toDigits` base 10 for larger numbers. -/
theorem toDigits_step (n : ℕ) (h : 10 ≤ n) :
    Nat.toDigits 10 n = Nat.toDigits 10 (n / 10) ++ [Nat.digitChar (n % 10)] := by
  have hne : n / 10 ≠ 0 := by
    have := Nat.div_le_div_right (c := 10) h
    simp at this
    omega
  conv_lhs => unfold Nat.toDigits Nat.toDigitsCore
  dsimp only
  rw [if_neg hne]
  rw [toDigitsCore_acc]
  have hfd : Nat.toDigitsCore 10 n (n / 10) [] =
      Nat.toDigitsCore 10 (n / 10 + 1) (n / 10) [] := by
    have hlt : n / 10 < n := Nat.div_lt_self (by omega) (by omega)
    exact toDigitsCore_fuel 10 (by omega) (n / 10) n (n / 10 + 1) hlt (by omega)
  rw [hfd]
  rfl

theorem digitsVal_append_one (l : List Char) (c : Char) :
    digitsVal (l ++ [c]) = 10 * digitsVal l + charVal c := by
  unfold digitsVal
  rw [List.foldl_append]
  rfl

theorem charVal_digitChar (d : ℕ) (h : d < 10) :
    charVal (Nat.digitChar d) = d := by
  interval_cases d <;> rfl

/-- `digitsVal` is a left inverse of `Nat.toDigits 10`. -/
theorem digitsVal_toDigits (n : ℕ) : digitsVal (Nat.toDigits 10 n) = n := by
  induction n using Nat.strong_induction_on with
  | _ n ih =>
    by_cases h : n < 10
    · rw [toDigits_small n h]
      unfold digitsVal
      simp [charVal_digitChar n h]
    · rw [toDigits_step n (by omega)]
      rw [digitsVal_append_one]
      rw [ih (n / 10) (Nat.div_lt_self (by omega) (by omega))]
      rw [charVal_digitChar _ (Nat.mod_lt n (by omega))]
      omega

/-- `Nat.repr` is injective. -/
theorem natRepr_injective : Function.Injective Nat.repr := by
  intro m n h
  unfold Nat.repr at h
  have hd : Nat.toDigits 10 m = Nat.toDigits 10 n := by
    have := congrArg String.data h
    simpa [List.asString] using this
  calc m = digitsVal (Nat.toDigits 10 m) := (digitsVal_toDigits m).symm
    _ = digitsVal (Nat.toDigits 10 n) := by rw [hd]
    _ = n := digitsVal_toDigits n

/-- Fresh-id strings are injective in the counter for a fixed tag. -/
theorem nextIdStr_inj (tag : String) (m n : ℕ)
    (h : nextIdStr tag m = nextIdStr tag n) : m = n := by
  unfold nextIdStr at h
  have hd := congrArg String.data h
  simp only [String.data_append] at hd
  have h2 : (toString m).data = (toString n).data := List.append_cancel_left hd
  have h3 : toString m = toString n := by
    cases hm : toString m
    cases hn : toString n
    rw [hm, hn] at h2
    simp at h2
    rw [h2]
  exact natRepr_injective h3

-- KIT A: lookup/update primitives

theorem getEntity_mem (s : GameState) (id : String) (e : Entity)
    (h : getEntity s id = some e) : e ∈ s.entities ∧ e.id = id := by
  unfold getEntity at h
  refine ⟨List.mem_of_find?_eq_some h, ?_⟩
  have h2 := List.find?_some h
  simpa using h2

theorem find?_id_of_mem (l : List Entity)
    (hN : (l.map (fun e => e.id)).Nodup) (e : Entity) (he : e ∈ l) :
    l.find? (fun x => x.id == e.id) = some e := by
  induction l with
  | nil => cases he
  | cons a rest ih =>
    rw [List.map_cons, List.nodup_cons] at hN
    obtain ⟨ha, hrest⟩ := hN
    rcases List.mem_cons.mp he with heq | hmem
    · subst heq
      exact findConsPos _ _ _ (by simp)
    · have hane : a.id ≠ e.id := by
        intro heq
        exact ha (by rw [heq]; exact List.mem_map_of_mem _ hmem)
      rw [findConsNeg _ _ _ (by simp [hane])]
      exact ih hrest hmem

theorem getEntity_of_mem (s : GameState) (hN : IdsNodup s) (e : Entity)
    (he : e ∈ s.entities) : getEntity s e.id = some e :=
  find?_id_of_mem s.entities hN e he

-- KIT B: smErase lookups

theorem smLookup_smErase_self {α : Type} (m : StrMap α) (k : String) :
    smLookup (smErase m k) k = none := by
  unfold smLookup
  have h : (smErase m k).find? (fun p => p.1 == k) = none := by
    rw [List.find?_eq_none]
    intro p hp
    simp only [smErase, List.mem_filter] at hp
    simpa using hp.2
  rw [h]
  rfl

theorem smLookup_smErase_other {α : Type} (m : StrMap α) (k k' : String)
    (hne : k' ≠ k) : smLookup (smErase m k) k' = smLookup m k' := by
  unfold smLookup smErase
  induction m with
  | nil => rfl
  | cons p rest ih =>
    by_cases hk : (p.1 == k) = true
    · have hk' : ((fun (q : String × α) => q.1 == k') p) = false := by
        simp only [beq_iff_eq] at hk
        simp only [hk, beq_eq_false_iff_ne, ne_eq]
        exact fun h => hne h.symm
      rw [List.filter_cons_of_neg (by simp [hk]),
        findConsNeg (fun (q : String × α) => q.1 == k') p rest hk', ih]
    · rw [List.filter_cons_of_pos (by simp [hk])]
      by_cases hk2 : ((fun (q : String × α) => q.1 == k') p) = true
      · rw [findConsPos (fun (q : String × α) => q.1 == k') p _ hk2,
          findConsPos (fun (q : String × α) => q.1 == k') p rest hk2]
      · rw [findConsNeg (fun (q : String × α) => q.1 == k') p _ (by simpa using hk2),
          findConsNeg (fun (q : String × α) => q.1 == k') p rest (by simpa using hk2), ih]

theorem smGet_smErase_self {α : Type} (m : StrMap α) (k : String) (d : α) :
    smGet (smErase m k) k d = d := by
  unfold smGet
  rw [smLookup_smErase_self]
  rfl

theorem smGet_smErase_other {α : Type} (m : StrMap α) (k k' : String)
    (hne : k' ≠ k) (d : α) : smGet (smErase m k) k' d = smGet m k' d := by
  unfold smGet
  rw [smLookup_smErase_other _ _ _ hne]

-- KIT C: generic preservation through entity-map updates

theorem invPos_of_map (s s' : GameState) (g : Entity → Entity)
    (h : s'.entities = s.entities.map g)
    (hg : ∀ e ∈ s.entities, (∀ r : String, 0 ≤ smGet e.inventory r 0) →
      ∀ r : String, 0 ≤ smGet (g e).inventory r 0)
    (hA : InvPos s) : InvPos s' := by
  intro e' he' r
  rw [h] at he'
  obtain ⟨e, he, rfl⟩ := List.mem_map.mp he'
  exact hg e he (hA e he) r

theorem comZero_of_map (s s' : GameState) (g : Entity → Entity)
    (h : s'.entities = s.entities.map g)
    (hg : ∀ e ∈ s.entities, (∀ r : String, smGet e.committed r 0 = 0) →
      ∀ r : String, smGet (g e).committed r 0 = 0)
    (hB : ComZero s) : ComZero s' := by
  intro e' he' r
  rw [h] at he'
  obtain ⟨e, he, rfl⟩ := List.mem_map.mp he'
  exact hg e he (hB e he) r

theorem sameEntityIds_of_map (s s' : GameState) (g : Entity → Entity)
    (h : s'.entities = s.entities.map g) (hg : ∀ e, (g e).id = e.id) :
    SameEntityIds s s' := by
  unfold SameEntityIds
  rw [h, List.map_map]
  exact List.map_congr_left (fun e _ => hg e)

theorem idsNodup_of_sameIds (s s' : GameState) (h : SameEntityIds s s')
    (hN : IdsNodup s) : IdsNodup s' := by
  unfold IdsNodup
  rw [h]
  exact hN

theorem entityIn_of_sameIds (s s' : GameState) (h : SameEntityIds s s')
    (id : String) (hin : EntityIn s id) : EntityIn s' id := by
  obtain ⟨e, he, heq⟩ := hin
  have : e.id ∈ s'.entities.map (fun e => e.id) := by
    rw [h]
    exact List.mem_map_of_mem _ he
  obtain ⟨e', he', heq'⟩ := List.mem_map.mp this
  exact ⟨e', he', heq'.trans heq⟩

theorem updateEntity_entities (s : GameState) (id : String)
    (f : Entity → Entity) :
    (updateEntity s id f).entities =
      s.entities.map (fun e => if e.id == id then f e else e) := rfl

theorem sameEntityIds_updateEntity (s : GameState) (id : String)
    (f : Entity → Entity) (hf : ∀ e, (f e).id = e.id) :
    SameEntityIds s (updateEntity s id f) := by
  apply sameEntityIds_of_map s _ _ (updateEntity_entities s id f)
  intro e
  by_cases h : (e.id == id) = true <;> simp [h, hf e]

theorem sameEntityIds_refl (s : GameState) : SameEntityIds s s := rfl

theorem sameEntityIds_trans (s1 s2 s3 : GameState)
    (h1 : SameEntityIds s1 s2) (h2 : SameEntityIds s2 s3) :
    SameEntityIds s1 s3 := by
  unfold SameEntityIds at h1 h2 ⊢
  rw [h2, h1]

-- KIT D: effect lemmas for the inventory/committed/money primitives

theorem skel_refl (s : GameState) : SameSkel s s := ⟨rfl, rfl, rfl, rfl, rfl, rfl⟩

theorem skel_trans (s1 s2 s3 : GameState) (h1 : SameSkel s1 s2)
    (h2 : SameSkel s2 s3) : SameSkel s1 s3 := by
  obtain ⟨a1, b1, c1, d1, e1, f1⟩ := h1
  obtain ⟨a2, b2, c2, d2, e2, f2⟩ := h2
  exact ⟨a2.trans a1, b2.trans b1, c2.trans c1, d2.trans d1, e2.trans e1, f2.trans f1⟩

theorem skel_updateEntity (s : GameState) (id : String) (f : Entity → Entity) :
    SameSkel s (updateEntity s id f) := ⟨rfl, rfl, rfl, rfl, rfl, rfl⟩

theorem invPos_updateEntity (s : GameState) (id : String) (f : Entity → Entity)
    (hf : ∀ e, (f e).inventory = e.inventory) (hA : InvPos s) :
    InvPos (updateEntity s id f) := by
  apply invPos_of_map _ _ _ (updateEntity_entities _ _ _) ?_ hA
  intro e _ hpos r
  by_cases hid : (e.id == id) = true
  · rw [if_pos hid, hf e]
    exact hpos r
  · rw [if_neg hid]
    exact hpos r

theorem comZero_updateEntity (s : GameState) (id : String) (f : Entity → Entity)
    (hf : ∀ e, (f e).committed = e.committed) (hB : ComZero s) :
    ComZero (updateEntity s id f) := by
  apply comZero_of_map _ _ _ (updateEntity_entities _ _ _) ?_ hB
  intro e _ hz r
  by_cases hid : (e.id == id) = true
  · rw [if_pos hid, hf e]
    exact hz r
  · rw [if_neg hid]
    exact hz r

theorem invPos_addToInventory (s : GameState) (eid r : String) (q : ℚ)
    (hA : InvPos s) (hq : 0 ≤ q) : InvPos (addToInventory s eid r q) := by
  unfold addToInventory
  cases he : getEntity s eid with
  | none => exact hA
  | some entity =>
    dsimp only
    apply invPos_of_map _ _ _ (updateEntity_entities _ _ _) ?_ hA
    intro e _ hpos r'
    by_cases hid : (e.id == eid) = true
    · rw [if_pos hid]
      dsimp only
      by_cases hr : r' = r
      · subst hr
        rw [smGet_smSet_self]
        have hcur : 0 ≤ smGet entity.inventory r' 0 :=
          hA entity (getEntity_mem s eid entity he).1 r'
        linarith
      · rw [smGet_smSet_other _ _ _ hr]
        exact hpos r'
    · rw [if_neg hid]
      exact hpos r'

theorem comZero_addToInventory (s : GameState) (eid r : String) (q : ℚ)
    (hB : ComZero s) : ComZero (addToInventory s eid r q) := by
  unfold addToInventory
  cases he : getEntity s eid with
  | none => exact hB
  | some entity => exact comZero_updateEntity _ _ _ (fun e => rfl) hB

theorem skel_addToInventory (s : GameState) (eid r : String) (q : ℚ) :
    SameSkel s (addToInventory s eid r q) := by
  unfold addToInventory
  cases he : getEntity s eid with
  | none => exact skel_refl s
  | some entity => exact skel_updateEntity _ _ _

theorem ids_addToInventory (s : GameState) (eid r : String) (q : ℚ) :
    SameEntityIds s (addToInventory s eid r q) := by
  unfold addToInventory
  cases he : getEntity s eid with
  | none => exact sameEntityIds_refl s
  | some entity => exact sameEntityIds_updateEntity _ _ _ (fun e => rfl)

theorem removeFromInventory_some (s : GameState) (eid r : String) (q : ℚ)
    (s' : GameState) (h : removeFromInventory s eid r q = some s') :
    ∃ entity, getEntity s eid = some entity ∧
      ¬ smGet entity.inventory r 0 < q ∧
      s' = updateEntity s eid (fun e =>
        { e with inventory := smSet e.inventory r (smGet entity.inventory r 0 - q) }) := by
  unfold removeFromInventory at h
  cases he : getEntity s eid with
  | none => rw [he] at h; cases h
  | some entity =>
    rw [he] at h
    dsimp only at h
    by_cases hlt : smGet entity.inventory r 0 < q
    · rw [if_pos hlt] at h
      cases h
    · rw [if_neg hlt] at h
      exact ⟨entity, rfl, hlt, (Option.some_inj.mp h).symm⟩

theorem invPos_removeFromInventory (s : GameState) (eid r : String) (q : ℚ)
    (s' : GameState) (h : removeFromInventory s eid r q = some s')
    (hA : InvPos s) : InvPos s' := by
  obtain ⟨entity, he, hge, rfl⟩ := removeFromInventory_some s eid r q s' h
  apply invPos_of_map _ _ _ (updateEntity_entities _ _ _) ?_ hA
  intro e _ hpos r'
  by_cases hid : (e.id == eid) = true
  · rw [if_pos hid]
    dsimp only
    by_cases hr : r' = r
    · subst hr
      rw [smGet_smSet_self]
      linarith [not_lt.mp hge]
    · rw [smGet_smSet_other _ _ _ hr]
      exact hpos r'
  · rw [if_neg hid]
    exact hpos r'

theorem comZero_removeFromInventory (s : GameState) (eid r : String) (q : ℚ)
    (s' : GameState) (h : removeFromInventory s eid r q = some s')
    (hB : ComZero s) : ComZero s' := by
  obtain ⟨entity, he, hge, rfl⟩ := removeFromInventory_some s eid r q s' h
  exact comZero_updateEntity _ _ _ (fun e => rfl) hB

theorem skel_removeFromInventory (s : GameState) (eid r : String) (q : ℚ)
    (s' : GameState) (h : removeFromInventory s eid r q = some s') :
    SameSkel s s' := by
  obtain ⟨entity, he, hge, rfl⟩ := removeFromInventory_some s eid r q s' h
  exact skel_updateEntity _ _ _

theorem ids_removeFromInventory (s : GameState) (eid r : String) (q : ℚ)
    (s' : GameState) (h : removeFromInventory s eid r q = some s') :
    SameEntityIds s s' := by
  obtain ⟨entity, he, hge, rfl⟩ := removeFromInventory_some s eid r q s' h
  exact sameEntityIds_updateEntity _ _ _ (fun e => rfl)

theorem invPos_transferMoney (s : GameState) (a b : String) (amt : ℚ)
    (hA : InvPos s) : InvPos (transferMoney s a b amt) := by
  unfold transferMoney
  by_cases h : amt ≤ 0
  · rw [if_pos h]
    exact hA
  · rw [if_neg h]
    cases getEntity s a <;> cases getEntity s b
    · exact hA
    · exact hA
    · exact hA
    · dsimp only
      exact invPos_updateEntity _ _ _ (fun e => rfl)
        (invPos_updateEntity _ _ _ (fun e => rfl) hA)

theorem comZero_transferMoney (s : GameState) (a b : String) (amt : ℚ)
    (hB : ComZero s) : ComZero (transferMoney s a b amt) := by
  unfold transferMoney
  by_cases h : amt ≤ 0
  · rw [if_pos h]
    exact hB
  · rw [if_neg h]
    cases getEntity s a <;> cases getEntity s b
    · exact hB
    · exact hB
    · exact hB
    · dsimp only
      exact comZero_updateEntity _ _ _ (fun e => rfl)
        (comZero_updateEntity _ _ _ (fun e => rfl) hB)

theorem skel_transferMoney (s : GameState) (a b : String) (amt : ℚ) :
    SameSkel s (transferMoney s a b amt) := by
  unfold transferMoney
  by_cases h : amt ≤ 0
  · rw [if_pos h]
    exact skel_refl s
  · rw [if_neg h]
    cases getEntity s a <;> cases getEntity s b
    · exact skel_refl s
    · exact skel_refl s
    · exact skel_refl s
    · dsimp only
      exact skel_trans _ _ _ (skel_updateEntity _ _ _) (skel_updateEntity _ _ _)

theorem ids_transferMoney (s : GameState) (a b : String) (amt : ℚ) :
    SameEntityIds s (transferMoney s a b amt) := by
  unfold transferMoney
  by_cases h : amt ≤ 0
  · rw [if_pos h]
    exact sameEntityIds_refl s
  · rw [if_neg h]
    cases getEntity s a <;> cases getEntity s b
    · exact sameEntityIds_refl s
    · exact sameEntityIds_refl s
    · exact sameEntityIds_refl s
    · dsimp only
      exact sameEntityIds_trans _ _ _
        (sameEntityIds_updateEntity s a
          (fun e => { e with money := e.money - amt }) (fun e => rfl))
        (sameEntityIds_updateEntity _ b
          (fun e => { e with money := e.money + amt }) (fun e => rfl))

theorem invPos_deductMoney (s : GameState) (a : String) (amt : ℚ)
    (hA : InvPos s) : InvPos (deductMoney s a amt) := by
  unfold deductMoney
  by_cases h : amt ≤ 0
  · rw [if_pos h]
    exact hA
  · rw [if_neg h]
    exact invPos_updateEntity _ _ _ (fun e => rfl) hA

theorem comZero_deductMoney (s : GameState) (a : String) (amt : ℚ)
    (hB : ComZero s) : ComZero (deductMoney s a amt) := by
  unfold deductMoney
  by_cases h : amt ≤ 0
  · rw [if_pos h]
    exact hB
  · rw [if_neg h]
    exact comZero_updateEntity _ _ _ (fun e => rfl) hB

theorem skel_deductMoney (s : GameState) (a : String) (amt : ℚ) :
    SameSkel s (deductMoney s a amt) := by
  unfold deductMoney
  by_cases h : amt ≤ 0
  · rw [if_pos h]
    exact skel_refl s
  · rw [if_neg h]
    exact skel_updateEntity _ _ _

theorem ids_deductMoney (s : GameState) (a : String) (amt : ℚ) :
    SameEntityIds s (deductMoney s a amt) := by
  unfold deductMoney
  by_cases h : amt ≤ 0
  · rw [if_pos h]
    exact sameEntityIds_refl s
  · rw [if_neg h]
    exact sameEntityIds_updateEntity _ _ _ (fun e => rfl)

theorem invPos_addMoney (s : GameState) (a : String) (amt : ℚ)
    (hA : InvPos s) : InvPos (addMoney s a amt) := by
  unfold addMoney
  by_cases h : amt ≤ 0
  · rw [if_pos h]
    exact hA
  · rw [if_neg h]
    exact invPos_updateEntity _ _ _ (fun e => rfl) hA

theorem comZero_addMoney (s : GameState) (a : String) (amt : ℚ)
    (hB : ComZero s) : ComZero (addMoney s a amt) := by
  unfold addMoney
  by_cases h : amt ≤ 0
  · rw [if_pos h]
    exact hB
  · rw [if_neg h]
    exact comZero_updateEntity _ _ _ (fun e => rfl) hB

theorem skel_addMoney (s : GameState) (a : String) (amt : ℚ) :
    SameSkel s (addMoney s a amt) := by
  unfold addMoney
  by_cases h : amt ≤ 0
  · rw [if_pos h]
    exact skel_refl s
  · rw [if_neg h]
    exact skel_updateEntity _ _ _

theorem ids_addMoney (s : GameState) (a : String) (amt : ℚ) :
    SameEntityIds s (addMoney s a amt) := by
  unfold addMoney
  by_cases h : amt ≤ 0
  · rw [if_pos h]
    exact sameEntityIds_refl s
  · rw [if_neg h]
    exact sameEntityIds_updateEntity _ _ _ (fun e => rfl)

-- KIT E: monad, status and whole-state helpers

theorem thr_bind_some {α β : Type} (x : Option α) (f : α → Option β) (b : β)
    (h : x >>= f = some b) : ∃ a, x = some a ∧ f a = some b := by
  cases x with
  | none => simp at h
  | some a => exact ⟨a, rfl, by simpa using h⟩

theorem statusLe_refl (a : OrderStatus) : StatusLe a a := by
  cases a <;> trivial

theorem statusLe_trans (a b c : OrderStatus) (h1 : StatusLe a b)
    (h2 : StatusLe b c) : StatusLe a c := by
  cases a <;> cases b <;> cases c <;> simp_all [StatusLe]

theorem statusOk_refl (s : GameState) : StatusOk s s := fun _ => statusLe_refl _

theorem statusOk_trans (s1 s2 s3 : GameState) (h1 : StatusOk s1 s2)
    (h2 : StatusOk s2 s3) : StatusOk s1 s3 :=
  fun i => statusLe_trans _ _ _ (h1 i) (h2 i)

theorem statusOk_of_orders_eq (s s' : GameState) (h : s'.orders = s.orders) :
    StatusOk s s' := by
  intro i
  rw [h]
  exact statusLe_refl _

theorem reachInv_of_unchanged (s s' : GameState)
    (he : s'.entities = s.entities) (ho : s'.orders = s.orders)
    (hd : s'.deliveries = s.deliveries) (hl : s'.processLines = s.processLines)
    (hc : s'.idCounter = s.idCounter) (hI : ReachInv s) : ReachInv s' := by
  constructor
  · unfold InvPos
    rw [he]
    exact hI.invPos
  · unfold ComZero
    rw [he]
    exact hI.comZero
  · unfold IdsNodup
    rw [he]
    exact hI.idsNodup
  · unfold DelsPos
    rw [hd]
    exact hI.delsPos
  · unfold LinesPos
    rw [hl]
    exact hI.linesPos
  · unfold NoAccepted
    rw [ho]
    exact hI.noAccepted
  · unfold OrdersFresh
    rw [ho, hc]
    exact hI.ordersFresh
  · unfold DelsFresh
    rw [hd, hc]
    exact hI.delsFresh
  · unfold DelOrders
    rw [hd, ho]
    exact hI.delOrders
  · unfold Parties EntityIn
    rw [ho, he]
    exact hI.parties

theorem harmless_refl (s : GameState) : Harmless s s :=
  ⟨skel_refl s, sameEntityIds_refl s, id, id⟩

theorem harmless_trans (s1 s2 s3 : GameState) (h1 : Harmless s1 s2)
    (h2 : Harmless s2 s3) : Harmless s1 s3 :=
  ⟨skel_trans _ _ _ h1.1 h2.1, sameEntityIds_trans _ _ _ h1.2.1 h2.2.1,
    fun hA => h2.2.2.1 (h1.2.2.1 hA), fun hB => h2.2.2.2 (h1.2.2.2 hB)⟩

theorem harmless_transferMoney (s : GameState) (a b : String) (amt : ℚ) :
    Harmless s (transferMoney s a b amt) :=
  ⟨skel_transferMoney s a b amt, ids_transferMoney s a b amt,
    invPos_transferMoney s a b amt, comZero_transferMoney s a b amt⟩

theorem harmless_deductMoney (s : GameState) (a : String) (amt : ℚ) :
    Harmless s (deductMoney s a amt) :=
  ⟨skel_deductMoney s a amt, ids_deductMoney s a amt,
    invPos_deductMoney s a amt, comZero_deductMoney s a amt⟩

theorem harmless_addMoney (s : GameState) (a : String) (amt : ℚ) :
    Harmless s (addMoney s a amt) :=
  ⟨skel_addMoney s a amt, ids_addMoney s a amt,
    invPos_addMoney s a amt, comZero_addMoney s a amt⟩

theorem harmless_foldl {α : Type} (step : GameState → α → GameState)
    (hstep : ∀ s a, Harmless s (step s a)) (l : List α) :
    ∀ s : GameState, Harmless s (l.foldl step s) := by
  induction l with
  | nil => intro s; exact harmless_refl s
  | cons a rest ih =>
    intro s
    rw [List.foldl_cons]
    exact harmless_trans _ _ _ (hstep s a) (ih (step s a))

theorem reachInv_of_moneyOnly (s s' : GameState) (hM : Harmless s s')
    (hI : ReachInv s) : ReachInv s' := by
  obtain ⟨⟨ho, hd, hl, hc, ht, hco⟩, hids, hA, hB⟩ := hM
  constructor
  · exact hA hI.invPos
  · exact hB hI.comZero
  · exact idsNodup_of_sameIds s s' hids hI.idsNodup
  · unfold DelsPos
    rw [hd]
    exact hI.delsPos
  · unfold LinesPos
    rw [hl]
    exact hI.linesPos
  · unfold NoAccepted
    rw [ho]
    exact hI.noAccepted
  · unfold OrdersFresh
    rw [ho, hc]
    exact hI.ordersFresh
  · unfold DelsFresh
    rw [hd, hc]
    exact hI.delsFresh
  · unfold DelOrders
    rw [hd, ho]
    exact hI.delOrders
  · unfold Parties
    rw [ho]
    intro o hom
    obtain ⟨hb, hs⟩ := hI.parties o hom
    exact ⟨entityIn_of_sameIds s s' hids _ hb, entityIn_of_sameIds s s' hids _ hs⟩

-- Phase: demand cycles

theorem advanceDemandPhases_spec (s : GameState) (cfg : GameConfig)
    (s' : GameState) (h : advanceDemandPhases s cfg = some s') :
    s'.entities = s.entities ∧ s'.orders = s.orders ∧
    s'.deliveries = s.deliveries ∧ s'.processLines = s.processLines ∧
    s'.idCounter = s.idCounter ∧ s'.tick = s.tick := by
  unfold advanceDemandPhases at h
  obtain ⟨u, _, h2⟩ := thr_bind_some _ _ _ h
  cases h2
  exact ⟨rfl, rfl, rfl, rfl, rfl, rfl⟩

-- Phase: storage costs

theorem storage_moneyOnly (s : GameState) (cfg : GameConfig) :
    Harmless s (processStorageCosts s cfg) := by
  unfold processStorageCosts
  by_cases h : cfg.pricing.storageCostPerUnit ≤ 0
  · rw [if_pos h]
    exact harmless_refl s
  · rw [if_neg h]
    apply harmless_foldl
    intro s1 entity
    dsimp only
    by_cases h2 : 0 < (smValues entity.inventory).sum
    · rw [if_pos h2]
      exact harmless_deductMoney _ _ _
    · rw [if_neg h2]
      exact harmless_refl s1

-- Phase: contract status update

theorem updateContractStatuses_spec (s : GameState) :
    (updateContractStatuses s).entities = s.entities ∧
    (updateContractStatuses s).orders = s.orders ∧
    (updateContractStatuses s).deliveries = s.deliveries ∧
    (updateContractStatuses s).processLines = s.processLines ∧
    (updateContractStatuses s).idCounter = s.idCounter := by
  unfold updateContractStatuses
  exact ⟨rfl, rfl, rfl, rfl, rfl⟩

-- KIT F: index lookups

theorem findIdx?_lt {α : Type} (p : α → Bool) (l : List α) (i : ℕ)
    (h : l.findIdx? p = some i) : i < l.length := by
  induction l generalizing i with
  | nil => cases h
  | cons a rest ih =>
    rw [List.findIdx?_cons] at h
    by_cases hp : p a = true
    · rw [if_pos hp] at h
      cases h
      simp
    · rw [if_neg hp, List.findIdx?_succ] at h
      cases hj : rest.findIdx? p with
      | none => rw [hj] at h; cases h
      | some j =>
        rw [hj] at h
        simp only [Option.map_some'] at h
        cases h
        have := ih j hj
        simp
        omega

theorem findIdx?_prop {α : Type} (p : α → Bool) (l : List α) (i : ℕ) (d : α)
    (h : l.findIdx? p = some i) : p (l.getD i d) = true := by
  induction l generalizing i with
  | nil => cases h
  | cons a rest ih =>
    rw [List.findIdx?_cons] at h
    by_cases hp : p a = true
    · rw [if_pos hp] at h
      cases h
      simpa using hp
    · rw [if_neg hp, List.findIdx?_succ] at h
      cases hj : rest.findIdx? p with
      | none => rw [hj] at h; cases h
      | some j =>
        rw [hj] at h
        simp only [Option.map_some'] at h
        cases h
        simpa using ih j hj

theorem getD_mem_of_lt {α : Type} (l : List α) (i : ℕ) (d : α)
    (h : i < l.length) : l.getD i d ∈ l := by
  rw [List.getD_eq_getElem l d h]
  exact List.getElem_mem h

theorem mem_iff_getD {α : Type} (l : List α) (d : α) (a : α) :
    a ∈ l ↔ ∃ i : ℕ, i < l.length ∧ l.getD i d = a := by
  constructor
  · intro h
    obtain ⟨i, hi, heq⟩ := List.mem_iff_getElem.mp h
    exact ⟨i, hi, by rw [List.getD_eq_getElem l d hi]; exact heq⟩
  · rintro ⟨i, hi, rfl⟩
    exact getD_mem_of_lt l i d hi

theorem map_id_eq_of_core (a b : List Order) (hlen : a.length = b.length)
    (hcore : ∀ i : ℕ, orderCore (a.getD i defaultOrder) =
      orderCore (b.getD i defaultOrder)) :
    a.map (fun o => o.id) = b.map (fun o => o.id) := by
  apply List.ext_getElem (by simp [hlen])
  intro i h1 h2
  simp only [List.getElem_map]
  have hia : i < a.length := by simpa using h1
  have hib : i < b.length := by simpa using h2
  have := congrArg Prod.fst (hcore i)
  unfold orderCore at this
  dsimp only at this
  rw [List.getD_eq_getElem a defaultOrder hia, List.getD_eq_getElem b defaultOrder hib] at this
  exact this

theorem getD_set_self_of_lt {α : Type} (l : List α) (i : ℕ) (x d : α)
    (h : i < l.length) : (l.set i x).getD i d = x := by
  simp [List.getD_eq_getElem?_getD, List.getElem?_set_self, h]

theorem getD_set_ne' {α : Type} (l : List α) (i j : ℕ) (x d : α) (h : i ≠ j) :
    (l.set j x).getD i d = l.getD i d := by
  simp [List.getD_eq_getElem?_getD, List.getElem?_set_ne (Ne.symm h)]

/-- Transitivity of the per-index status change arrivals can make. -/
theorem arrStatus_trans (a b c : OrderStatus)
    (h1 : b = a ∨ (b = OrderStatus.delivered ∧
      (a = OrderStatus.in_transit ∨ a = OrderStatus.delivered)))
    (h2 : c = b ∨ (c = OrderStatus.delivered ∧
      (b = OrderStatus.in_transit ∨ b = OrderStatus.delivered))) :
    c = a ∨ (c = OrderStatus.delivered ∧
      (a = OrderStatus.in_transit ∨ a = OrderStatus.delivered)) := by
  cases a <;> cases b <;> cases c <;> simp_all

/-- Full characterization of the arrivals loop. -/
theorem arrivalsLoop_spec (ds : List Delivery) :
    ∀ (s : GameState) (stillActive : List Delivery) (updatedOrders : List Order),
      (∀ d ∈ ds, ∀ o ∈ updatedOrders, o.id = d.orderId →
        o.status = OrderStatus.in_transit ∨ o.status = OrderStatus.delivered) →
      SameSkel s (arrivalsLoop s stillActive updatedOrders ds).1 ∧
      SameEntityIds s (arrivalsLoop s stillActive updatedOrders ds).1 ∧
      ((∀ d ∈ ds, 0 ≤ d.quantity) → InvPos s →
        InvPos (arrivalsLoop s stillActive updatedOrders ds).1) ∧
      (ComZero s → ComZero (arrivalsLoop s stillActive updatedOrders ds).1) ∧
      (∀ d' ∈ (arrivalsLoop s stillActive updatedOrders ds).2.1,
        d' ∈ stillActive ∨ ∃ d ∈ ds,
          d' = { d with ticksRemaining := d.ticksRemaining - 1 }) ∧
      (arrivalsLoop s stillActive updatedOrders ds).2.2.length =
        updatedOrders.length ∧
      (∀ i : ℕ,
        orderCore ((arrivalsLoop s stillActive updatedOrders ds).2.2.getD i
          defaultOrder) = orderCore (updatedOrders.getD i defaultOrder) ∧
        (((arrivalsLoop s stillActive updatedOrders ds).2.2.getD i
            defaultOrder).status = (updatedOrders.getD i defaultOrder).status ∨
          (((arrivalsLoop s stillActive updatedOrders ds).2.2.getD i
              defaultOrder).status = OrderStatus.delivered ∧
            ((updatedOrders.getD i defaultOrder).status = OrderStatus.in_transit ∨
              (updatedOrders.getD i defaultOrder).status =
                OrderStatus.delivered)))) := by
  induction ds with
  | nil =>
    intro s stillActive updatedOrders _
    refine ⟨skel_refl s, sameEntityIds_refl s, fun _ hA => hA, fun hB => hB,
      ?_, rfl, fun i => ⟨rfl, Or.inl rfl⟩⟩
    intro d' hd'
    exact Or.inl hd'
  | cons d rest ih =>
    intro s stillActive updatedOrders hF
    unfold arrivalsLoop
    by_cases ht : d.ticksRemaining ≤ 0
    · rw [if_pos ht]
      dsimp only
      set s1 := addToInventory s d.toEntityId d.resource d.quantity with hs1
      set s2 := (if 0 < d.quantity * d.pricePerUnit then
        transferMoney s1 d.toEntityId d.fromEntityId (d.quantity * d.pricePerUnit)
        else s1) with hs2
      have hstep_skel : SameSkel s s2 := by
        rw [hs2]
        by_cases hp : 0 < d.quantity * d.pricePerUnit
        · rw [if_pos hp]
          exact skel_trans _ _ _ (skel_addToInventory _ _ _ _) (skel_transferMoney _ _ _ _)
        · rw [if_neg hp]
          exact skel_addToInventory _ _ _ _
      have hstep_ids : SameEntityIds s s2 := by
        rw [hs2]
        by_cases hp : 0 < d.quantity * d.pricePerUnit
        · rw [if_pos hp]
          exact sameEntityIds_trans _ _ _ (ids_addToInventory _ _ _ _) (ids_transferMoney _ _ _ _)
        · rw [if_neg hp]
          exact ids_addToInventory _ _ _ _
      have hstep_inv : 0 ≤ d.quantity → InvPos s → InvPos s2 := by
        intro hq hA
        rw [hs2]
        by_cases hp : 0 < d.quantity * d.pricePerUnit
        · rw [if_pos hp]
          exact invPos_transferMoney _ _ _ _ (invPos_addToInventory _ _ _ _ hA hq)
        · rw [if_neg hp]
          exact invPos_addToInventory _ _ _ _ hA hq
      have hstep_com : ComZero s → ComZero s2 := by
        intro hB
        rw [hs2]
        by_cases hp : 0 < d.quantity * d.pricePerUnit
        · rw [if_pos hp]
          exact comZero_transferMoney _ _ _ _ (comZero_addToInventory _ _ _ _ hB)
        · rw [if_neg hp]
          exact comZero_addToInventory _ _ _ _ hB
      cases hidx : updatedOrders.findIdx? (fun o => o.id == d.orderId) with
      | none =>
        have hF2 : ∀ d2 ∈ rest, ∀ o ∈ updatedOrders, o.id = d2.orderId →
            o.status = OrderStatus.in_transit ∨ o.status = OrderStatus.delivered :=
          fun d2 hd2 o ho => hF d2 (List.mem_cons_of_mem d hd2) o ho
        obtain ⟨iSkel, iIds, iInv, iCom, iDels, iLen, iOrd⟩ :=
          ih s2 stillActive updatedOrders hF2
        refine ⟨skel_trans _ _ _ hstep_skel iSkel,
          sameEntityIds_trans _ _ _ hstep_ids iIds, ?_, ?_, ?_, iLen, iOrd⟩
        · intro hq hA
          exact iInv (fun d2 hd2 => hq d2 (List.mem_cons_of_mem d hd2))
            (hstep_inv (hq d (List.mem_cons_self d rest)) hA)
        · intro hB
          exact iCom (hstep_com hB)
        · intro d' hd'
          rcases iDels d' hd' with h1 | ⟨d2, hd2, heq⟩
          · exact Or.inl h1
          · exact Or.inr ⟨d2, List.mem_cons_of_mem d hd2, heq⟩
      | some idx =>
        have hlt : idx < updatedOrders.length := findIdx?_lt _ _ _ hidx
        have hold := findIdx?_prop (fun o => o.id == d.orderId) updatedOrders idx
          defaultOrder hidx
        have holdid : (updatedOrders.getD idx defaultOrder).id = d.orderId := by
          simpa using hold
        have holdstat : (updatedOrders.getD idx defaultOrder).status =
            OrderStatus.in_transit ∨
            (updatedOrders.getD idx defaultOrder).status = OrderStatus.delivered :=
          hF d (List.mem_cons_self d rest) _ (getD_mem_of_lt _ _ _ hlt) holdid
        set newOrd := { updatedOrders.getD idx defaultOrder with
          status := OrderStatus.delivered, deliveredAtTick := some s2.tick } with hnew
        have hF2 : ∀ d2 ∈ rest, ∀ o ∈ updatedOrders.set idx newOrd, o.id = d2.orderId →
            o.status = OrderStatus.in_transit ∨ o.status = OrderStatus.delivered := by
          intro d2 hd2 o ho hoid
          rcases List.mem_or_eq_of_mem_set ho with hmem | heq
          · exact hF d2 (List.mem_cons_of_mem d hd2) o hmem hoid
          · subst heq
            exact Or.inr rfl
        obtain ⟨iSkel, iIds, iInv, iCom, iDels, iLen, iOrd⟩ :=
          ih s2 stillActive (updatedOrders.set idx newOrd) hF2
        refine ⟨skel_trans _ _ _ hstep_skel iSkel,
          sameEntityIds_trans _ _ _ hstep_ids iIds, ?_, ?_, ?_, ?_, ?_⟩
        · intro hq hA
          exact iInv (fun d2 hd2 => hq d2 (List.mem_cons_of_mem d hd2))
            (hstep_inv (hq d (List.mem_cons_self d rest)) hA)
        · intro hB
          exact iCom (hstep_com hB)
        · intro d' hd'
          rcases iDels d' hd' with h1 | ⟨d2, hd2, heq⟩
          · exact Or.inl h1
          · exact Or.inr ⟨d2, List.mem_cons_of_mem d hd2, heq⟩
        · rw [iLen]
          simp
        · intro i
          obtain ⟨iCore, iStat⟩ := iOrd i
          by_cases hii : i = idx
          · subst hii
            rw [getD_set_self_of_lt _ _ _ _ hlt] at iCore iStat
            constructor
            · exact iCore
            · right
              constructor
              · rcases iStat with h1 | ⟨h1, _⟩
                · rw [h1]
                · exact h1
              · exact holdstat
          · rw [getD_set_ne' _ _ _ _ _ hii] at iCore iStat
            exact ⟨iCore, iStat⟩
    · rw [if_neg ht]
      have hF2 : ∀ d2 ∈ rest, ∀ o ∈ updatedOrders, o.id = d2.orderId →
          o.status = OrderStatus.in_transit ∨ o.status = OrderStatus.delivered :=
        fun d2 hd2 o ho => hF d2 (List.mem_cons_of_mem d hd2) o ho
      obtain ⟨iSkel, iIds, iInv, iCom, iDels, iLen, iOrd⟩ :=
        ih s (stillActive ++ [{ d with ticksRemaining := d.ticksRemaining - 1 }])
          updatedOrders hF2
      refine ⟨iSkel, iIds, ?_, iCom, ?_, iLen, iOrd⟩
      · intro hq hA
        exact iInv (fun d2 hd2 => hq d2 (List.mem_cons_of_mem d hd2)) hA
      · intro d' hd'
        rcases iDels d' hd' with h1 | ⟨d2, hd2, heq⟩
        · rcases List.mem_append.mp h1 with h2 | h2
          · exact Or.inl h2
          · have : d' = { d with ticksRemaining := d.ticksRemaining - 1 } := by
              simpa using h2
            exact Or.inr ⟨d, List.mem_cons_self d rest, this⟩
        · exact Or.inr ⟨d2, List.mem_cons_of_mem d hd2, heq⟩

/-- Arrivals preserve the boundary invariant and move statuses forward. -/
theorem processArrivals_inv (s : GameState) (hI : ReachInv s) :
    ReachInv (processArrivals s) ∧ StatusOk s (processArrivals s) := by
  obtain ⟨hSkel, hIds, hInv, hCom, hDels, hLen, hOrd⟩ :=
    arrivalsLoop_spec s.deliveries s [] s.orders hI.delOrders
  obtain ⟨skOrd, skDel, skLin, skCnt, skTick, skCon⟩ := hSkel
  unfold processArrivals
  dsimp only
  have hcore : ∀ i : ℕ,
      ((arrivalsLoop s [] s.orders s.deliveries).2.2.getD i defaultOrder).id =
        (s.orders.getD i defaultOrder).id ∧
      ((arrivalsLoop s [] s.orders s.deliveries).2.2.getD i defaultOrder).buyerEntityId =
        (s.orders.getD i defaultOrder).buyerEntityId ∧
      ((arrivalsLoop s [] s.orders s.deliveries).2.2.getD i defaultOrder).sellerEntityId =
        (s.orders.getD i defaultOrder).sellerEntityId := by
    intro i
    have h := (hOrd i).1
    unfold orderCore at h
    simp only [Prod.mk.injEq] at h
    exact ⟨h.1, h.2.1, h.2.2.1⟩
  constructor
  · constructor
    · exact hInv hI.delsPos hI.invPos
    · exact hCom hI.comZero
    · exact idsNodup_of_sameIds s _ hIds hI.idsNodup
    · intro d' hd'
      rcases hDels d' hd' with h1 | ⟨d2, hd2, heq⟩
      · cases h1
      · subst heq
        exact hI.delsPos d2 hd2
    · unfold LinesPos
      rw [skLin]
      exact hI.linesPos
    · intro o' ho'
      obtain ⟨i, hi, rfl⟩ := (mem_iff_getD _ defaultOrder _).mp ho'
      rcases (hOrd i).2 with h1 | ⟨h1, _⟩
      · rw [h1]
        have hilen : i < s.orders.length := by rw [← hLen]; exact hi
        exact hI.noAccepted _ (getD_mem_of_lt _ _ _ hilen)
      · rw [h1]
        intro hc
        cases hc
    · obtain ⟨ks, hks, hchain, hbound⟩ := hI.ordersFresh
      refine ⟨ks, ?_, hchain, ?_⟩
      · rw [map_id_eq_of_core _ s.orders hLen (fun i => (hOrd i).1)]
        exact hks
      · rw [skCnt]
        exact hbound
    · intro d' hd'
      rcases hDels d' hd' with h1 | ⟨d2, hd2, heq⟩
      · cases h1
      · obtain ⟨k, hk, hkb⟩ := hI.delsFresh d2 hd2
        refine ⟨k, ?_, ?_⟩
        · rw [heq]
          exact hk
        · rw [skCnt]
          exact hkb
    · intro d' hd' o' ho' hoid
      obtain ⟨i, hi, rfl⟩ := (mem_iff_getD _ defaultOrder _).mp ho'
      have hilen : i < s.orders.length := by rw [← hLen]; exact hi
      rcases hDels d' hd' with h1 | ⟨d2, hd2, heq⟩
      · cases h1
      · have hid2 : (s.orders.getD i defaultOrder).id = d2.orderId := by
          rw [← (hcore i).1, hoid, heq]
        have hold := hI.delOrders d2 hd2 _ (getD_mem_of_lt _ _ _ hilen) hid2
        rcases (hOrd i).2 with h1 | ⟨h1, _⟩
        · rw [h1]
          exact hold
        · rw [h1]
          exact Or.inr rfl
    · intro o' ho'
      obtain ⟨i, hi, rfl⟩ := (mem_iff_getD _ defaultOrder _).mp ho'
      have hilen : i < s.orders.length := by rw [← hLen]; exact hi
      obtain ⟨hb, hs2⟩ := hI.parties _ (getD_mem_of_lt s.orders i defaultOrder hilen)
      rw [(hcore i).2.1, (hcore i).2.2]
      exact ⟨entityIn_of_sameIds s _ hIds _ hb, entityIn_of_sameIds s _ hIds _ hs2⟩
  · intro i
    dsimp only
    rcases (hOrd i).2 with h1 | ⟨h1, h2⟩
    · rw [h1]
      exact statusLe_refl _
    · rw [h1]
      rcases h2 with h2 | h2 <;> rw [h2] <;> trivial

-- Phase: production lines

theorem harmless_foldl_mem {α : Type} (step : GameState → α → GameState)
    (l : List α) (hstep : ∀ s a, a ∈ l → Harmless s (step s a)) :
    ∀ s : GameState, Harmless s (l.foldl step s) := by
  induction l with
  | nil => intro s; exact harmless_refl s
  | cons a rest ih =>
    intro s
    rw [List.foldl_cons]
    exact harmless_trans _ _ _ (hstep s a (List.mem_cons_self a rest))
      (ih (fun s2 b hb => hstep s2 b (List.mem_cons_of_mem a hb)) (step s a))

theorem harmless_addToInventory (s : GameState) (eid r : String) (q : ℚ)
    (hq : 0 ≤ q) : Harmless s (addToInventory s eid r q) :=
  ⟨skel_addToInventory s eid r q, ids_addToInventory s eid r q,
    fun hA => invPos_addToInventory s eid r q hA hq,
    comZero_addToInventory s eid r q⟩

theorem harmless_removeFromInventory_getD (s : GameState) (eid r : String)
    (q : ℚ) : Harmless s ((removeFromInventory s eid r q).getD s) := by
  cases h : removeFromInventory s eid r q with
  | none => exact harmless_refl s
  | some s' =>
    exact ⟨skel_removeFromInventory s eid r q s' h,
      ids_removeFromInventory s eid r q s' h,
      fun hA => invPos_removeFromInventory s eid r q s' h hA,
      comZero_removeFromInventory s eid r q s' h⟩

theorem harmless_consumeInputs (s : GameState) (eid : String)
    (inputs : List ResourceAmount) (volume : ℚ) :
    Harmless s (consumeInputs s eid inputs volume) := by
  unfold consumeInputs
  apply harmless_foldl
  intro s1 input
  exact harmless_removeFromInventory_getD s1 eid input.resource
    (input.quantity * volume)

theorem lineAdvance_spec (process : ProductionProcess) (line : ProcessLine)
    (s : GameState) (hout : ∀ o ∈ process.outputs, 0 ≤ o.quantity)
    (hvol : 0 ≤ line.volume) :
    Harmless s (lineAdvance process line s).1 ∧
    (∀ l' ∈ (lineAdvance process line s).2.toList, l'.volume = line.volume) := by
  unfold lineAdvance
  by_cases h : process.cycleTicks ≤ line.progress + 1
  · rw [if_pos h]
    dsimp only
    constructor
    · apply harmless_foldl_mem
      intro s1 out hmem
      exact harmless_addToInventory s1 line.entityId out.resource
        (out.quantity * line.volume)
        (mul_nonneg (hout out hmem) hvol)
    · intro l' hl'
      simp only [Option.toList_some, List.mem_singleton] at hl'
      subst hl'
      rfl
  · rw [if_neg h]
    constructor
    · exact harmless_refl s
    · intro l' hl'
      simp only [Option.toList_some, List.mem_singleton] at hl'
      subst hl'
      rfl

theorem lineTickPhase_spec (process : ProductionProcess) (line : ProcessLine)
    (s : GameState) (hout : ∀ o ∈ process.outputs, 0 ≤ o.quantity)
    (hvol : 0 ≤ line.volume) :
    Harmless s (lineTickPhase process line s).1 ∧
    (∀ l' ∈ (lineTickPhase process line s).2.toList, l'.volume = line.volume) := by
  unfold lineTickPhase
  by_cases h1 : ¬ process.tickInputs.isEmpty
  · rw [if_pos h1]
    by_cases h2 : ¬ canConsume s line.entityId process.tickInputs line.volume
    · rw [if_pos h2]
      exact ⟨harmless_refl s, by intro l' hl'; simp at hl'; rw [hl']⟩
    · rw [if_neg h2]
      obtain ⟨hH, hV⟩ := lineAdvance_spec process line
        (consumeInputs s line.entityId process.tickInputs line.volume) hout hvol
      exact ⟨harmless_trans _ _ _
        (harmless_consumeInputs s line.entityId process.tickInputs line.volume) hH, hV⟩
  · rw [if_neg h1]
    exact lineAdvance_spec process line s hout hvol

theorem processOneLine_spec (cfg : GameConfig) (s : GameState)
    (line : ProcessLine) (res : GameState × Option ProcessLine)
    (h : processOneLine cfg s line = some res) (hwf : WFConfig cfg)
    (hvol : 0 ≤ line.volume) :
    Harmless s res.1 ∧ (∀ l' ∈ res.2.toList, l'.volume = line.volume) := by
  unfold processOneLine at h
  cases he : getEntity s line.entityId with
  | none =>
    rw [he] at h
    cases h
    exact ⟨harmless_refl s, by intro l' hl'; simp at hl'⟩
  | some entity =>
    rw [he] at h
    dsimp only at h
    obtain ⟨process, hp, h2⟩ := thr_bind_some _ _ _ h
    have hpmem : process ∈ cfg.processes.production :=
      List.mem_of_find?_eq_some hp
    have hout : ∀ o ∈ process.outputs, 0 ≤ o.quantity :=
      fun o ho => ((hwf.1 process hpmem).1 o ho)
    by_cases hph : line.phase = ProcessLinePhase.starting
    · rw [if_pos hph] at h2
      by_cases hst : (line.startupTicksRemaining = process.startupTicks ∧
          ¬ process.startupInputs.isEmpty) ∧
          ¬ canConsume s line.entityId process.startupInputs 1
      · rw [if_pos hst] at h2
        cases h2
        exact ⟨harmless_refl s, by intro l' hl'; simp at hl'; rw [hl']⟩
      · rw [if_neg hst] at h2
        cases h2
        constructor
        · by_cases hcn : line.startupTicksRemaining = process.startupTicks ∧
              ¬ process.startupInputs.isEmpty
          · rw [if_pos hcn]
            exact harmless_consumeInputs s line.entityId process.startupInputs 1
          · rw [if_neg hcn]
            exact harmless_refl s
        · intro l' hl'
          by_cases hle : ({ line with startupTicksRemaining :=
              line.startupTicksRemaining - 1 : ProcessLine }).startupTicksRemaining ≤ 0
          · rw [if_pos hle] at hl'
            simp at hl'
            rw [hl']
          · rw [if_neg hle] at hl'
            simp at hl'
            rw [hl']
    · rw [if_neg hph] at h2
      by_cases hc0 : line.progress = 0 ∧ ¬ process.cycleInputs.isEmpty
      · rw [if_pos hc0] at h2
        by_cases hcc : ¬ canConsume s line.entityId process.cycleInputs line.volume
        · rw [if_pos hcc] at h2
          cases h2
          exact ⟨harmless_refl s, by intro l' hl'; simp at hl'; rw [hl']⟩
        · rw [if_neg hcc] at h2
          cases h2
          obtain ⟨hH, hV⟩ := lineTickPhase_spec process line
            (consumeInputs s line.entityId process.cycleInputs line.volume) hout hvol
          exact ⟨harmless_trans _ _ _
            (harmless_consumeInputs s line.entityId process.cycleInputs line.volume)
            hH, hV⟩
      · rw [if_neg hc0] at h2
        cases h2
        exact lineTickPhase_spec process line s hout hvol

theorem prodLoop_spec (cfg : GameConfig) (hwf : WFConfig cfg)
    (lines : List ProcessLine) (hvols : ∀ l ∈ lines, 0 ≤ l.volume) :
    ∀ (s : GameState) (newLines : List ProcessLine)
      (res : GameState × List ProcessLine),
      lines.foldlM
        (fun (acc : GameState × List ProcessLine) line => do
          let (s1, pushed) ← processOneLine cfg acc.1 line
          pure (s1, acc.2 ++ pushed.toList)) (s, newLines) = some res →
      (∀ l ∈ newLines, 0 ≤ l.volume) →
      Harmless s res.1 ∧ ∀ l ∈ res.2, 0 ≤ l.volume := by
  induction lines with
  | nil =>
    intro s newLines res h hnew
    cases h
    exact ⟨harmless_refl s, hnew⟩
  | cons line rest ih =>
    intro s newLines res h hnew
    rw [List.foldlM_cons] at h
    obtain ⟨acc1, h1, h2⟩ := thr_bind_some _ _ _ h
    obtain ⟨⟨s1, pushed⟩, hp1, hp2⟩ := thr_bind_some _ _ _ h1
    dsimp only at hp2
    simp only [Option.pure_def, Option.some_inj] at hp2
    subst hp2
    obtain ⟨hH, hV⟩ := processOneLine_spec cfg s line (s1, pushed) hp1 hwf
      (hvols line (List.mem_cons_self line rest))
    have hnew2 : ∀ l ∈ newLines ++ pushed.toList, 0 ≤ l.volume := by
      intro l hl
      rcases List.mem_append.mp hl with hl1 | hl2
      · exact hnew l hl1
      · rw [hV l hl2]
        exact hvols line (List.mem_cons_self line rest)
    obtain ⟨iH, iV⟩ := ih (fun l hl => hvols l (List.mem_cons_of_mem line hl))
      s1 (newLines ++ pushed.toList) res h2 hnew2
    exact ⟨harmless_trans _ _ _ hH iH, iV⟩

/-- Production preserves the boundary invariant. -/
theorem processProductionLines_inv (s : GameState) (cfg : GameConfig)
    (s' : GameState) (h : processProductionLines s cfg = some s')
    (hwf : WFConfig cfg) (hI : ReachInv s) :
    ReachInv s' ∧ StatusOk s s' := by
  unfold processProductionLines at h
  obtain ⟨res, h1, h2⟩ := thr_bind_some _ _ _ h
  cases h2
  obtain ⟨⟨⟨hOrd, hDel, hLin, hCnt, hTick, hCon⟩, hIds, hA, hB⟩, hVols⟩ :=
    prodLoop_spec cfg hwf s.processLines hI.linesPos s [] res h1 (by intro l hl; cases hl)
  dsimp only
  constructor
  · constructor
    · exact hA hI.invPos
    · exact hB hI.comZero
    · exact idsNodup_of_sameIds s _ hIds hI.idsNodup
    · unfold DelsPos
      dsimp only
      rw [hDel]
      exact hI.delsPos
    · intro l hl
      exact hVols l hl
    · unfold NoAccepted
      dsimp only
      rw [hOrd]
      exact hI.noAccepted
    · obtain ⟨ks, hks, hchain, hbound⟩ := hI.ordersFresh
      refine ⟨ks, ?_, hchain, ?_⟩
      · dsimp only
        rw [hOrd]
        exact hks
      · dsimp only
        rw [hCnt]
        exact hbound
    · unfold DelsFresh
      dsimp only
      rw [hDel, hCnt]
      exact hI.delsFresh
    · unfold DelOrders
      dsimp only
      rw [hDel, hOrd]
      exact hI.delOrders
    · unfold Parties
      dsimp only
      rw [hOrd]
      intro o ho
      obtain ⟨hb, hs2⟩ := hI.parties o ho
      exact ⟨entityIn_of_sameIds s _ hIds _ hb, entityIn_of_sameIds s _ hIds _ hs2⟩
  · apply statusOk_of_orders_eq
    exact hOrd

-- Phase: retail selling

theorem harmless_of_entities_eq (s s' : GameState) (he : s'.entities = s.entities)
    (hsk : SameSkel s s') : Harmless s s' := by
  refine ⟨hsk, ?_, ?_, ?_⟩
  · unfold SameEntityIds
    rw [he]
  · intro hA
    unfold InvPos
    rw [he]
    exact hA
  · intro hB
    unfold ComZero
    rw [he]
    exact hB

theorem harmless_foldlM {α : Type} (step : GameState → α → Thr GameState)
    (hstep : ∀ s a s', step s a = some s' → Harmless s s') (l : List α) :
    ∀ (s res : GameState), l.foldlM step s = some res → Harmless s res := by
  induction l with
  | nil =>
    intro s res h
    cases h
    exact harmless_refl s
  | cons a rest ih =>
    intro s res h
    rw [List.foldlM_cons] at h
    obtain ⟨s1, h1, h2⟩ := thr_bind_some _ _ _ h
    exact harmless_trans _ _ _ (hstep s a s1 h1) (ih s1 res h2)

theorem getCurrentDemand_harmless (s : GameState) (cfg : GameConfig)
    (rand : ℕ → ℚ) (locationId resource : String) (q : ℚ) (s2 : GameState)
    (h : getCurrentDemand s cfg rand locationId resource = some (q, s2)) :
    Harmless s s2 := by
  unfold getCurrentDemand at h
  obtain ⟨location, h1, h2⟩ := thr_bind_some _ _ _ h
  by_cases hb : smGet location.demand resource 0 = 0
  · rw [if_pos hb] at h2
    cases h2
    exact harmless_refl s
  · rw [if_neg hb] at h2
    cases hc : location.demandCycle with
    | none =>
      rw [hc] at h2
      cases h2
      exact harmless_refl s
    | some cycle =>
      rw [hc] at h2
      dsimp only at h2
      cases hp : smLookup s.demandPhases locationId with
      | none =>
        rw [hp] at h2
        cases h2
        exact harmless_refl s
      | some phaseState =>
        rw [hp] at h2
        dsimp only at h2
        cases hg : cycle.phases.get? phaseState.phaseIndex with
        | none =>
          rw [hg] at h2
          cases h2
          exact harmless_refl s
        | some phase =>
          rw [hg] at h2
          dsimp only at h2
          cases h2
          exact harmless_of_entities_eq _ _ rfl ⟨rfl, rfl, rfl, rfl, rfl, rfl⟩

theorem retailOneProcess_harmless (cfg : GameConfig) (rand : ℕ → ℚ)
    (entity : Entity) (s : GameState) (pid : String) (s' : GameState)
    (h : retailOneProcess cfg rand entity s pid = some s') : Harmless s s' := by
  unfold retailOneProcess at h
  cases hf : cfg.processes.retail.find? (fun p => p.id == pid) with
  | none =>
    rw [hf] at h
    cases h
    exact harmless_refl s
  | some rp =>
    rw [hf] at h
    dsimp only at h
    obtain ⟨⟨demand, s2⟩, h1, h2⟩ := thr_bind_some _ _ _ h
    dsimp only at h2
    have hd : Harmless s s2 := getCurrentDemand_harmless _ _ _ _ _ _ _ h1
    set sold := min (getAvailable entity rp.resource) demand with hsold
    set s3 := (if 0 < sold then
      addMoney ((removeFromInventory s2 entity.id rp.resource sold).getD s2)
        entity.id (sold * getRetailPrice cfg rp.resource)
      else s2) with hs3
    have h3 : Harmless s2 s3 := by
      rw [hs3]
      by_cases hp : 0 < sold
      · rw [if_pos hp]
        exact harmless_trans _ _ _
          (harmless_removeFromInventory_getD s2 entity.id rp.resource sold)
          (harmless_addMoney _ _ _)
      · rw [if_neg hp]
        exact harmless_refl s2
    cases h2
    exact harmless_trans _ _ _ hd (harmless_trans _ _ _ h3
      (harmless_of_entities_eq _ _ rfl ⟨rfl, rfl, rfl, rfl, rfl, rfl⟩))

theorem processRetailSelling_harmless (s : GameState) (cfg : GameConfig)
    (rand : ℕ → ℚ) (s' : GameState)
    (h : processRetailSelling s cfg rand = some s') : Harmless s s' := by
  unfold processRetailSelling at h
  apply harmless_foldlM _ ?_ s.entities s s' h
  intro s1 entity s2 hstep
  obtain ⟨entityType, h1, h2⟩ := thr_bind_some _ _ _ hstep
  by_cases he : entityType.processes.retail.isEmpty
  · rw [if_pos he] at h2
    cases h2
    exact harmless_refl s1
  · rw [if_neg he] at h2
    exact harmless_foldlM _ (fun s3 pid s4 h4 =>
      retailOneProcess_harmless cfg rand entity s3 pid s4 h4) _ s1 s2 h2

-- KIT G: phase-step composition

theorem ordersExtend_refl (s : GameState) : OrdersExtend s s := by
  refine ⟨[], by simp, ?_, [], by simp, by simp, ?_⟩
  · intro o ho
    cases ho
  · intro k hk
    cases hk

theorem entityIn_iff_of_sameIds (s s' : GameState) (h : SameEntityIds s s')
    (id : String) : EntityIn s id ↔ EntityIn s' id := by
  constructor
  · exact entityIn_of_sameIds s s' h id
  · apply entityIn_of_sameIds s' s
    unfold SameEntityIds at h ⊢
    rw [h]

theorem ordersExtend_trans (s1 s2 s3 : GameState)
    (hids : SameEntityIds s1 s2) (hc12 : s1.idCounter ≤ s2.idCounter)
    (hc23 : s2.idCounter ≤ s3.idCounter)
    (h1 : OrdersExtend s1 s2) (h2 : OrdersExtend s2 s3) :
    OrdersExtend s1 s3 := by
  obtain ⟨e1, ho1, hv1, ks1, hm1, hch1, hb1⟩ := h1
  obtain ⟨e2, ho2, hv2, ks2, hm2, hch2, hb2⟩ := h2
  refine ⟨e1 ++ e2, ?_, ?_, ks1 ++ ks2, ?_, ?_, ?_⟩
  · rw [ho2, ho1, List.append_assoc]
  · intro o ho
    rcases List.mem_append.mp ho with hm | hm
    · exact hv1 o hm
    · obtain ⟨hst, hb, hs⟩ := hv2 o hm
      exact ⟨hst, (entityIn_iff_of_sameIds s1 s2 hids _).mpr hb,
        (entityIn_iff_of_sameIds s1 s2 hids _).mpr hs⟩
  · rw [List.map_append, List.map_append, hm1, hm2]
  · rw [List.chain'_append]
    refine ⟨hch1, hch2, ?_⟩
    intro x hx y hy
    have hxm : x ∈ ks1 := List.mem_of_mem_getLast? hx
    have hym : y ∈ ks2 := List.mem_of_mem_head? hy
    have := (hb1 x hxm).2
    have := (hb2 y hym).1
    omega
  · intro k hk
    rcases List.mem_append.mp hk with hm | hm
    · have := hb1 k hm
      omega
    · have := hb2 k hm
      omega

theorem phaseStep_refl (s : GameState) : PhaseStep s s :=
  ⟨sameEntityIds_refl s, id, id, rfl, le_refl _, id, ordersExtend_refl s⟩

theorem phaseStep_trans (s1 s2 s3 : GameState) (h1 : PhaseStep s1 s2)
    (h2 : PhaseStep s2 s3) : PhaseStep s1 s3 := by
  obtain ⟨i1, a1, b1, d1, c1, l1, o1⟩ := h1
  obtain ⟨i2, a2, b2, d2, c2, l2, o2⟩ := h2
  exact ⟨sameEntityIds_trans _ _ _ i1 i2, fun h => a2 (a1 h), fun h => b2 (b1 h),
    d2.trans d1, c1.trans c2, fun h => l2 (l1 h),
    ordersExtend_trans s1 s2 s3 i1 c1 c2 o1 o2⟩

theorem phaseStep_of_harmless (s s' : GameState) (h : Harmless s s') :
    PhaseStep s s' := by
  obtain ⟨⟨ho, hd, hl, hc, ht, hcon⟩, hids, hA, hB⟩ := h
  refine ⟨hids, hA, hB, hd, le_of_eq hc.symm, ?_, ?_⟩
  · intro hL
    unfold LinesPos
    rw [hl]
    exact hL
  · refine ⟨[], by simp [ho], ?_, [], by simp, by simp, ?_⟩
    · intro o hmem
      cases hmem
    · intro k hk
      cases hk

theorem getD_append_left {α : Type} (l1 l2 : List α) (i : ℕ) (d : α)
    (h : i < l1.length) : (l1 ++ l2).getD i d = l1.getD i d := by
  rw [List.getD_eq_getElem?_getD, List.getD_eq_getElem?_getD,
    List.getElem?_append_left h]

/-- A phase step preserves the boundary invariant and moves statuses
forward. -/
theorem reachInv_of_phaseStep (s s' : GameState) (hP : PhaseStep s s')
    (hI : ReachInv s) : ReachInv s' ∧ StatusOk s s' := by
  obtain ⟨hids, hA, hB, hd, hc, hl, ext, ho, hv, ks2, hm2, hch2, hb2⟩ := hP
  constructor
  · constructor
    · exact hA hI.invPos
    · exact hB hI.comZero
    · exact idsNodup_of_sameIds s s' hids hI.idsNodup
    · unfold DelsPos
      rw [hd]
      exact hI.delsPos
    · exact hl hI.linesPos
    · intro o hmem
      rw [ho] at hmem
      rcases List.mem_append.mp hmem with hm | hm
      · exact hI.noAccepted o hm
      · rw [(hv o hm).1]
        intro hcon
        cases hcon
    · obtain ⟨ks1, hm1, hch1, hb1⟩ := hI.ordersFresh
      refine ⟨ks1 ++ ks2, ?_, ?_, ?_⟩
      · rw [ho, List.map_append, List.map_append, hm1, hm2]
      · rw [List.chain'_append]
        refine ⟨hch1, hch2, ?_⟩
        intro x hx y hy
        have hxm := hb1 x (List.mem_of_mem_getLast? hx)
        have hym := (hb2 y (List.mem_of_mem_head? hy)).1
        omega
      · intro k hk
        rcases List.mem_append.mp hk with hm | hm
        · have := hb1 k hm
          omega
        · exact (hb2 k hm).2
    · intro d hdm
      rw [hd] at hdm
      obtain ⟨k, hk, hkb⟩ := hI.delsFresh d hdm
      exact ⟨k, hk, by omega⟩
    · intro d hdm o hom hoid
      rw [hd] at hdm
      rw [ho] at hom
      rcases List.mem_append.mp hom with hm | hm
      · exact hI.delOrders d hdm o hm hoid
      · exfalso
        obtain ⟨k, hk, hkb⟩ := hI.delsFresh d hdm
        have hoin : o.id ∈ ext.map (fun o => o.id) := List.mem_map_of_mem _ hm
        rw [hm2] at hoin
        obtain ⟨k2, hk2m, hk2⟩ := List.mem_map.mp hoin
        have : k2 = k := nextIdStr_inj "order" k2 k (by rw [hk2, hoid, hk])
        have := (hb2 k2 hk2m).1
        omega
    · intro o hom
      rw [ho] at hom
      rcases List.mem_append.mp hom with hm | hm
      · obtain ⟨hb, hs⟩ := hI.parties o hm
        exact ⟨entityIn_of_sameIds s s' hids _ hb,
          entityIn_of_sameIds s s' hids _ hs⟩
      · obtain ⟨_, hb, hs⟩ := hv o hm
        exact ⟨entityIn_of_sameIds s s' hids _ hb,
          entityIn_of_sameIds s s' hids _ hs⟩
  · intro i
    rw [ho]
    by_cases hi : i < s.orders.length
    · rw [getD_append_left _ _ _ _ hi]
      exact statusLe_refl _
    · rw [List.getD_eq_getElem?_getD s.orders,
        List.getElem?_eq_none (le_of_not_lt hi)]
      trivial

-- Order placement effects

theorem candFold_mem (s : GameState) (cfg : GameConfig) (buyer : Entity)
    (resource : String) :
    ∀ (ids : List String) (acc res : List EntityCandidate),
      ids.foldlM (fun acc id =>
        match getEntity s id with
        | none => pure acc
        | some supplier => do
            let distance ← getTransportTime cfg supplier.locationId buyer.locationId
            pure (acc ++ [{ supplier := supplier
                            available := getAvailable supplier resource
                            distance := distance }])) acc = some res →
      (∀ c ∈ acc, c.supplier ∈ s.entities) → ∀ c ∈ res, c.supplier ∈ s.entities := by
  intro ids
  induction ids with
  | nil =>
    intro acc res h hacc
    cases h
    exact hacc
  | cons id rest ih =>
    intro acc res h hacc
    rw [List.foldlM_cons] at h
    obtain ⟨acc1, h1, h2⟩ := thr_bind_some _ _ _ h
    apply ih acc1 res h2
    cases he : getEntity s id with
    | none =>
      rw [he] at h1
      cases h1
      exact hacc
    | some supplier =>
      rw [he] at h1
      dsimp only at h1
      obtain ⟨dist, hd1, hd2⟩ := thr_bind_some _ _ _ h1
      cases hd2
      intro c hc
      rcases List.mem_append.mp hc with hm | hm
      · exact hacc c hm
      · simp only [List.mem_singleton] at hm
        subst hm
        exact (getEntity_mem s id supplier he).1

theorem findBestSupplier_mem (s : GameState) (cfg : GameConfig)
    (bid resource : String) (osel : Option Entity)
    (h : findBestSupplier s cfg bid resource = some osel) :
    ∀ e, osel = some e → e ∈ s.entities := by
  unfold findBestSupplier at h
  cases hb : getEntity s bid with
  | none =>
    rw [hb] at h
    cases h
    intro e he
    cases he
  | some buyer =>
    rw [hb] at h
    dsimp only at h
    by_cases hemp : (smGet buyer.suppliers resource []).isEmpty
    · rw [if_pos hemp] at h
      cases h
      intro e he
      cases he
    · rw [if_neg hemp] at h
      obtain ⟨cands, h1, h2⟩ := thr_bind_some _ _ _ h
      have hmem : ∀ c ∈ cands, c.supplier ∈ s.entities :=
        candFold_mem s cfg buyer resource _ [] cands h1 (by intro c hc; cases hc)
      cases hs : stableSort entityCandidateLe
          (cands.filter (fun c => decide (0 < c.available))) with
      | cons c rest =>
        rw [hs] at h2
        cases h2
        intro e he
        cases he
        apply hmem
        have hcin : c ∈ stableSort entityCandidateLe
            (cands.filter (fun c => decide (0 < c.available))) := by
          rw [hs]
          exact List.mem_cons_self c rest
        have := (stableSort_perm entityCandidateLe
          (cands.filter (fun c => decide (0 < c.available)))).mem_iff.mp hcin
        exact List.mem_of_mem_filter this
      | nil =>
        rw [hs] at h2
        cases h2
        intro e he
        exact (getEntity_mem s _ e he).1

theorem placePendingOrder_spec (s : GameState) (cfg : GameConfig)
    (bid resource : String) (q price : ℚ) (supId : Option String)
    (cid : Option String) (s' : GameState)
    (h : placePendingOrder s cfg bid resource q price supId cid = some s') :
    s'.entities = s.entities ∧ s'.deliveries = s.deliveries ∧
    s'.processLines = s.processLines ∧ s'.contracts = s.contracts ∧
    s'.tick = s.tick ∧ s.idCounter ≤ s'.idCounter ∧ OrdersExtend s s' := by
  unfold placePendingOrder at h
  cases hb : getEntity s bid with
  | none =>
    rw [hb] at h
    cases h
    exact ⟨rfl, rfl, rfl, rfl, rfl, le_refl _, ordersExtend_refl s⟩
  | some buyer =>
    rw [hb] at h
    dsimp only at h
    have hbuild : ∀ seller : Entity, seller ∈ s.entities →
        s' = { s with
          orders := s.orders ++
            [{ id := nextIdStr "order" (s.idCounter + 1)
               placedAtTick := s.tick
               deliveredAtTick := none
               buyerEntityId := bid
               sellerEntityId := seller.id
               resource := resource
               requestedQuantity := q
               fulfilledQuantity := 0
               wasAmended := false
               status := OrderStatus.pending
               pricePerUnit := price
               contractId := cid }]
          idCounter := s.idCounter + 1 } →
        s'.entities = s.entities ∧ s'.deliveries = s.deliveries ∧
        s'.processLines = s.processLines ∧ s'.contracts = s.contracts ∧
        s'.tick = s.tick ∧ s.idCounter ≤ s'.idCounter ∧ OrdersExtend s s' := by
      intro seller hmem heq
      subst heq
      refine ⟨rfl, rfl, rfl, rfl, rfl, by dsimp only; omega, ?_⟩
      refine ⟨_, rfl, ?_, [s.idCounter + 1], by simp, by simp, ?_⟩
      · intro o ho
        simp only [List.mem_singleton] at ho
        subst ho
        exact ⟨rfl,
          ⟨buyer, (getEntity_mem s bid buyer hb).1, (getEntity_mem s bid buyer hb).2⟩,
          ⟨seller, hmem, rfl⟩⟩
      · intro k hk
        simp only [List.mem_singleton] at hk
        subst hk
        dsimp only
        omega
    cases hn : (match supId with
      | some sid =>
          if (smGet buyer.suppliers resource []).contains sid then getEntity s sid
          else none
      | none => (none : Option Entity)) with
    | some e0 =>
      rw [hn] at h
      simp only [Option.pure_def, Option.some_bind] at h
      have hmem : e0 ∈ s.entities := by
        cases supId with
        | none => cases hn
        | some sid =>
          dsimp only at hn
          by_cases hcont : (smGet buyer.suppliers resource []).contains sid
          · rw [if_pos hcont] at hn
            exact (getEntity_mem s sid e0 hn).1
          · rw [if_neg hcont] at hn
            cases hn
      exact hbuild e0 hmem (Option.some_inj.mp h).symm
    | none =>
      rw [hn] at h
      obtain ⟨osel, hsel, h2⟩ := thr_bind_some _ _ _ h
      have hselmem := findBestSupplier_mem s cfg bid resource osel hsel
      cases osel with
      | none =>
        cases h2
        exact ⟨rfl, rfl, rfl, rfl, rfl, le_refl _, ordersExtend_refl s⟩
      | some seller =>
        dsimp only at h2
        exact hbuild seller (hselmem seller rfl) (Option.some_inj.mp h2).symm

-- Phase: player actions

theorem phaseStep_foldlM {α : Type} (step : GameState → α → Thr GameState)
    (hstep : ∀ s a s', step s a = some s' → PhaseStep s s') (l : List α) :
    ∀ (s res : GameState), l.foldlM step s = some res → PhaseStep s res := by
  induction l with
  | nil =>
    intro s res h
    cases h
    exact phaseStep_refl s
  | cons a rest ih =>
    intro s res h
    rw [List.foldlM_cons] at h
    obtain ⟨s1, h1, h2⟩ := thr_bind_some _ _ _ h
    exact phaseStep_trans _ _ _ (hstep s a s1 h1) (ih s1 res h2)

theorem mapM_mem {α β : Type} (f : α → Option β) :
    ∀ (l : List α) (l' : List β), l.mapM f = some l' →
      ∀ b ∈ l', ∃ a ∈ l, f a = some b := by
  intro l
  induction l with
  | nil =>
    intro l' h b hb
    cases h
    cases hb
  | cons a rest ih =>
    intro l' h b hb
    rw [List.mapM_cons] at h
    obtain ⟨b1, h1, h2⟩ := thr_bind_some _ _ _ h
    obtain ⟨bs, h3, h4⟩ := thr_bind_some _ _ _ h2
    cases h4
    rcases List.mem_cons.mp hb with heq | hmem
    · subst heq
      exact ⟨a, List.mem_cons_self a rest, h1⟩
    · obtain ⟨a2, ha2, hf⟩ := ih bs h3 b hmem
      exact ⟨a2, List.mem_cons_of_mem a ha2, hf⟩

/-- PhaseStep for a state that only changed lines, contracts and counter. -/
theorem phaseStep_of_update (s s' : GameState)
    (he : s'.entities = s.entities) (ho : s'.orders = s.orders)
    (hd : s'.deliveries = s.deliveries) (hc : s.idCounter ≤ s'.idCounter)
    (hl : LinesPos s → LinesPos s') : PhaseStep s s' := by
  refine ⟨?_, ?_, ?_, hd, hc, hl, ?_⟩
  · unfold SameEntityIds
    rw [he]
  · intro hA
    unfold InvPos
    rw [he]
    exact hA
  · intro hB
    unfold ComZero
    rw [he]
    exact hB
  · refine ⟨[], by simp [ho], ?_, [], by simp, by simp, ?_⟩
    · intro o ho2
      cases ho2
    · intro k hk
      cases hk

theorem phaseStep_of_placeSpec (s s' : GameState)
    (he : s'.entities = s.entities) (hd : s'.deliveries = s.deliveries)
    (hl : s'.processLines = s.processLines) (hc : s.idCounter ≤ s'.idCounter)
    (hx : OrdersExtend s s') : PhaseStep s s' := by
  refine ⟨?_, ?_, ?_, hd, hc, ?_, hx⟩
  · unfold SameEntityIds
    rw [he]
  · intro hA
    unfold InvPos
    rw [he]
    exact hA
  · intro hB
    unfold ComZero
    rw [he]
    exact hB
  · intro hL
    unfold LinesPos
    rw [hl]
    exact hL

theorem applyPlayerAction_phaseStep (cfg : GameConfig) (s : GameState)
    (entity : Entity) (pa : PlayerOrder) (s' : GameState)
    (h : applyPlayerAction cfg s entity pa = some s') (hwf : WFConfig cfg) :
    PhaseStep s s' := by
  unfold applyPlayerAction at h
  cases hpa : pa.action with
  | start_line =>
    rw [hpa] at h
    dsimp only at h
    obtain ⟨process, hp, h2⟩ := thr_bind_some _ _ _ h
    obtain ⟨entityType, ht, h3⟩ := thr_bind_some _ _ _ h2
    have hminv : 0 ≤ process.minVolume :=
      (hwf.1 process (List.mem_of_find?_eq_some hp)).2
    by_cases hcap : entityType.maxProcessLines ≤
        ((s.processLines.filter (fun l => l.entityId == entity.id)).length : ℚ)
    · rw [if_pos hcap] at h3
      cases h3
      exact phaseStep_refl s
    · rw [if_neg hcap] at h3
      cases h3
      refine phaseStep_of_update s _ rfl rfl rfl (by dsimp only; omega) ?_
      intro hL l hl
      rcases List.mem_append.mp hl with hm | hm
      · exact hL l hm
      · simp only [List.mem_singleton] at hm
        subst hm
        dsimp only
        have := le_max_left process.minVolume
          (min process.maxVolume (if pa.quantity = 0 then process.minVolume else pa.quantity))
        linarith
  | stop_line =>
    rw [hpa] at h
    dsimp only at h
    cases h
    refine phaseStep_of_update s _ rfl rfl rfl (le_refl _) ?_
    intro hL l hl
    exact hL l (List.mem_of_mem_filter hl)
  | set_volume =>
    rw [hpa] at h
    dsimp only at h
    obtain ⟨newLines, hm, h2⟩ := thr_bind_some _ _ _ h
    cases h2
    refine phaseStep_of_update s _ rfl rfl rfl (le_refl _) ?_
    intro hL l' hl'
    obtain ⟨l, hlm, hf⟩ := mapM_mem _ _ _ hm l' hl'
    by_cases hid : ¬ l.id == (pa.lineId.getD pa.targetId)
    · rw [if_pos hid] at hf
      rw [← Option.some_inj.mp hf]
      exact hL l hlm
    · rw [if_neg hid] at hf
      obtain ⟨process, hp, h3⟩ := thr_bind_some _ _ _ hf
      rw [← Option.some_inj.mp h3]
      dsimp only
      have hminv : 0 ≤ process.minVolume :=
        (hwf.1 process (List.mem_of_find?_eq_some hp)).2
      have := le_max_left process.minVolume (min process.maxVolume pa.quantity)
      linarith
  | order =>
    rw [hpa] at h
    dsimp only at h
    by_cases hemp : (smGet entity.suppliers pa.targetId []).isEmpty
    · rw [if_pos hemp] at h
      cases h
      exact phaseStep_refl s
    · rw [if_neg hemp] at h
      obtain ⟨he, hd, hl, _, _, hc, hx⟩ := placePendingOrder_spec _ _ _ _ _ _ _ _ _ h
      exact phaseStep_of_placeSpec s s' he hd hl hc hx
  | propose_contract =>
    rw [hpa] at h
    dsimp only at h
    cases hcp : pa.contractProposal with
    | none =>
      rw [hcp] at h
      cases h
      exact phaseStep_refl s
    | some proposal =>
      rw [hcp] at h
      dsimp only at h
      cases h
      exact phaseStep_of_update _ _ rfl rfl rfl (by dsimp only; omega)
        (fun hL => hL)
  | accept_contract =>
    rw [hpa] at h
    dsimp only at h
    cases h
    exact phaseStep_of_update _ _ rfl rfl rfl (le_refl _) (fun hL => hL)
  | decline_contract =>
    rw [hpa] at h
    dsimp only at h
    cases h
    exact phaseStep_of_update _ _ rfl rfl rfl (le_refl _) (fun hL => hL)

theorem processPlayerOrders_phaseStep (s : GameState) (cfg : GameConfig)
    (actions : List PlayerOrder) (s' : GameState)
    (h : processPlayerOrders s cfg actions = some s') (hwf : WFConfig cfg) :
    PhaseStep s s' := by
  unfold processPlayerOrders at h
  apply phaseStep_foldlM _ ?_ actions s s' h
  intro s1 pa s2 hstep
  cases he : getEntity s1 pa.entityId with
  | none =>
    rw [he] at hstep
    cases hstep
    exact phaseStep_refl s1
  | some entity =>
    rw [he] at hstep
    dsimp only at hstep
    by_cases hpc : entity.isPlayerControlled
    · rw [if_pos hpc] at hstep
      exact applyPlayerAction_phaseStep cfg s1 entity pa s2 hstep hwf
    · rw [if_neg hpc] at hstep
      cases hstep
      exact phaseStep_refl s1

-- Phase: AI decisions

theorem statePack_refl (s : GameState) : StatePack s s :=
  ⟨sameEntityIds_refl s, id, id, rfl, rfl, le_refl _, ordersExtend_refl s⟩

theorem statePack_trans (s1 s2 s3 : GameState) (h1 : StatePack s1 s2)
    (h2 : StatePack s2 s3) : StatePack s1 s3 := by
  obtain ⟨i1, a1, b1, d1, l1, c1, o1⟩ := h1
  obtain ⟨i2, a2, b2, d2, l2, c2, o2⟩ := h2
  exact ⟨sameEntityIds_trans _ _ _ i1 i2, fun h => a2 (a1 h), fun h => b2 (b1 h),
    d2.trans d1, l2.trans l1, c1.trans c2,
    ordersExtend_trans s1 s2 s3 i1 c1 c2 o1 o2⟩

theorem statePack_of_harmless (s s' : GameState) (h : Harmless s s') :
    StatePack s s' := by
  obtain ⟨⟨ho, hd, hl, hc, ht, hcon⟩, hids, hA, hB⟩ := h
  refine ⟨hids, hA, hB, hd, hl, le_of_eq hc.symm, ?_⟩
  refine ⟨[], by simp [ho], ?_, [], by simp, by simp, ?_⟩
  · intro o hmem
    cases hmem
  · intro k hk
    cases hk

theorem statePack_placePendingOrder (s : GameState) (cfg : GameConfig)
    (bid resource : String) (q price : ℚ) (supId cid : Option String)
    (s' : GameState)
    (h : placePendingOrder s cfg bid resource q price supId cid = some s') :
    StatePack s s' := by
  obtain ⟨he, hd, hl, hcon, ht, hc, hx⟩ := placePendingOrder_spec _ _ _ _ _ _ _ _ _ h
  refine ⟨?_, ?_, ?_, hd, hl, hc, hx⟩
  · unfold SameEntityIds
    rw [he]
  · intro hA
    unfold InvPos
    rw [he]
    exact hA
  · intro hB
    unfold ComZero
    rw [he]
    exact hB

theorem statePack_foldlM {α : Type} (step : GameState → α → Thr GameState)
    (hstep : ∀ s a s', step s a = some s' → StatePack s s') (l : List α) :
    ∀ (s res : GameState), l.foldlM step s = some res → StatePack s res := by
  induction l with
  | nil =>
    intro s res h
    cases h
    exact statePack_refl s
  | cons a rest ih =>
    intro s res h
    rw [List.foldlM_cons] at h
    obtain ⟨s1, h1, h2⟩ := thr_bind_some _ _ _ h
    exact statePack_trans _ _ _ (hstep s a s1 h1) (ih s1 res h2)

theorem decideProduction_intents (entity : Entity)
    (entityType : EntityTypeConfig) (entityLines : List ProcessLine)
    (s : GameState) (cfg : GameConfig) (decision : ProductionDecision)
    (h : decideProduction entity entityType entityLines s cfg = some decision)
    (hwf : WFConfig cfg) : ∀ p ∈ decision.linesToStart, 0 ≤ p.2 := by
  unfold decideProduction at h
  dsimp only at h
  suffices hgen : ∀ (ids : List String) (acc res : ProductionDecision),
      ids.foldlM (fun decision processId => do
        let process ← getProductionProcess cfg processId
        let linesForProcess := entityLines.filter (fun l => l.processId == processId)
        if isSourceProcess process then
          pure (decideSourceProduction entity process linesForProcess
            (entityType.maxProcessLines - (entityLines.length : ℚ)) decision)
        else
          pure (decideNormalProduction entity process linesForProcess
            (entityType.maxProcessLines - (entityLines.length : ℚ)) decision)) acc = some res →
      (∀ p ∈ acc.linesToStart, 0 ≤ p.2) → ∀ p ∈ res.linesToStart, 0 ≤ p.2 by
    exact hgen entityType.processes.production _ decision h (by intro p hp; cases hp)
  intro ids
  induction ids with
  | nil =>
    intro acc res h2 hacc
    cases h2
    exact hacc
  | cons pid rest ih =>
    intro acc res h2 hacc
    rw [List.foldlM_cons] at h2
    obtain ⟨acc1, h3, h4⟩ := thr_bind_some _ _ _ h2
    apply ih acc1 res h4
    obtain ⟨process, hp, h5⟩ := thr_bind_some _ _ _ h3
    have hminv : 0 ≤ process.minVolume :=
      (hwf.1 process (List.mem_of_find?_eq_some hp)).2
    by_cases hsrc : isSourceProcess process = true
    · rw [if_pos hsrc] at h5
      cases h5
      unfold decideSourceProduction
      cases ho : process.outputs.head? with
      | none => exact hacc
      | some out =>
        dsimp only
        by_cases h6 : MINE_MAX_STOCK ≤ smGet entity.inventory out.resource 0
        · rw [if_pos h6]
          exact hacc
        · rw [if_neg h6]
          by_cases h7 : (entityLines.filter
              (fun l => l.processId == pid)).isEmpty = true ∧
              0 < entityType.maxProcessLines - (entityLines.length : ℚ)
          · rw [if_pos h7]
            intro p hp2
            rcases List.mem_append.mp hp2 with hm | hm
            · exact hacc p hm
            · simp only [List.mem_singleton] at hm
              subst hm
              exact hminv
          · rw [if_neg h7]
            exact hacc
    · rw [if_neg hsrc] at h5
      cases h5
      unfold decideNormalProduction
      by_cases h7 : (entityLines.filter (fun l => l.processId == pid)).isEmpty = true ∧
          0 < entityType.maxProcessLines - (entityLines.length : ℚ) ∧
          hasRequiredInputs entity process process.minVolume = true
      · rw [if_pos h7]
        intro p hp2
        rcases List.mem_append.mp hp2 with hm | hm
        · exact hacc p hm
        · simp only [List.mem_singleton] at hm
          subst hm
          exact hminv
      · rw [if_neg h7]
        exact hacc

theorem startLinesLoop_spec (cfg : GameConfig) (entity : Entity)
    (entityType : EntityTypeConfig) :
    ∀ (toStarts : List (String × ℚ)) (acc : List ProcessLine × ℕ)
      (res : List ProcessLine × ℕ),
      startLinesLoop cfg entity entityType toStarts acc = some res →
      (∀ p ∈ toStarts, 0 ≤ p.2) → (∀ l ∈ acc.1, 0 ≤ l.volume) →
      acc.2 ≤ res.2 ∧ ∀ l ∈ res.1, 0 ≤ l.volume := by
  intro toStarts
  induction toStarts with
  | nil =>
    intro acc res h _ hacc
    cases h
    exact ⟨le_refl _, hacc⟩
  | cons toStart rest ih =>
    intro acc res h hst hacc
    obtain ⟨newLines, counter⟩ := acc
    unfold startLinesLoop at h
    dsimp only at h
    by_cases hcap : entityType.maxProcessLines ≤
        ((newLines.filter (fun l => l.entityId == entity.id)).length : ℚ)
    · rw [if_pos hcap] at h
      cases h
      exact ⟨le_refl _, hacc⟩
    · rw [if_neg hcap] at h
      obtain ⟨process, hp, h2⟩ := thr_bind_some _ _ _ h
      have hside : ∀ l ∈ (newLines ++
          [{ id := nextIdStr "line" (counter + 1)
             processId := toStart.1
             entityId := entity.id
             phase := if 0 < process.startupTicks then ProcessLinePhase.starting
                      else ProcessLinePhase.running
             startupTicksRemaining := process.startupTicks
             progress := 0
             volume := toStart.2 : ProcessLine }]), 0 ≤ l.volume := by
        intro l hl
        rcases List.mem_append.mp hl with hm | hm
        · exact hacc l hm
        · simp only [List.mem_singleton] at hm
          subst hm
          exact hst toStart (List.mem_cons_self toStart rest)
      obtain ⟨hmono, hvols⟩ := ih _ res h2
        (fun p hp2 => hst p (List.mem_cons_of_mem toStart hp2)) hside
      exact ⟨by omega, hvols⟩

theorem startLinesLoop_mono (cfg : GameConfig) (entity : Entity)
    (entityType : EntityTypeConfig) :
    ∀ (toStarts : List (String × ℚ)) (acc : List ProcessLine × ℕ)
      (res : List ProcessLine × ℕ),
      startLinesLoop cfg entity entityType toStarts acc = some res →
      acc.2 ≤ res.2 := by
  intro toStarts
  induction toStarts with
  | nil =>
    intro acc res h
    cases h
    exact le_refl _
  | cons toStart rest ih =>
    intro acc res h
    obtain ⟨newLines, counter⟩ := acc
    unfold startLinesLoop at h
    dsimp only at h
    by_cases hcap : entityType.maxProcessLines ≤
        ((newLines.filter (fun l => l.entityId == entity.id)).length : ℚ)
    · rw [if_pos hcap] at h
      cases h
      exact le_refl _
    · rw [if_neg hcap] at h
      obtain ⟨process, hp, h2⟩ := thr_bind_some _ _ _ h
      have := ih _ res h2
      dsimp only at this ⊢
      omega

theorem aiStep_spec (cfg : GameConfig) (hwf : WFConfig cfg) (entity : Entity)
    (acc res : GameState × List ProcessLine)
    (h : (do
      let (s, newLines) := acc
      if entity.isPlayerControlled then pure (s, newLines)
      else do
        let entityType ← getEntityType cfg entity.type
        let entityLines := newLines.filter (fun l => l.entityId == entity.id)
        let (s, newLines) ←
          if ¬ entityType.processes.production.isEmpty then do
            let prodDecision ← decideProduction entity entityType entityLines s cfg
            let newLines := prodDecision.linesToStop.foldl (fun nl lineId =>
              match nl.findIdx? (fun l => l.id == lineId) with
              | some idx => nl.eraseIdx idx
              | none => nl) newLines
            let (newLines, counter) ←
              startLinesLoop cfg entity entityType prodDecision.linesToStart
                (newLines, s.idCounter)
            pure ({ s with idCounter := counter }, newLines)
          else pure (s, newLines)
        if ¬ entityType.processes.procurement.isEmpty then do
          let procDecision ← decideProcurement entity entityType s cfg
          let s ← procDecision.foldlM (fun s intent =>
            placePendingOrder s cfg entity.id intent.resource intent.quantity
              intent.pricePerUnit intent.supplierId none) s
          pure (s, newLines)
        else pure (s, newLines) : Thr (GameState × List ProcessLine)) = some res) :
    StatePack acc.1 res.1 ∧
    ((∀ l ∈ acc.2, 0 ≤ l.volume) → ∀ l ∈ res.2, 0 ≤ l.volume) := by
  obtain ⟨s, newLines⟩ := acc
  dsimp only at h
  by_cases hpc : entity.isPlayerControlled
  · rw [if_pos hpc] at h
    cases h
    exact ⟨statePack_refl s, fun hv => hv⟩
  · rw [if_neg hpc] at h
    obtain ⟨entityType, ht, h2⟩ := thr_bind_some _ _ _ h
    have hproc2 : ∀ (s1 : GameState) (nl1 : List ProcessLine),
        (if ¬ entityType.processes.procurement.isEmpty then do
          let procDecision ← decideProcurement entity entityType s1 cfg
          let s ← procDecision.foldlM (fun s intent =>
            placePendingOrder s cfg entity.id intent.resource intent.quantity
              intent.pricePerUnit intent.supplierId none) s1
          pure (s, nl1)
        else pure (s1, nl1) : Thr (GameState × List ProcessLine)) = some res →
        StatePack s1 res.1 ∧ res.2 = nl1 := by
      intro s1 nl1 hif
      by_cases hproc : ¬ entityType.processes.procurement.isEmpty
      · rw [if_pos hproc] at hif
        obtain ⟨procDecision, hq1, hq2⟩ := thr_bind_some _ _ _ hif
        obtain ⟨s2, hr1, hr2⟩ := thr_bind_some _ _ _ hq2
        cases hr2
        refine ⟨?_, rfl⟩
        apply statePack_foldlM _ ?_ procDecision s1 s2 hr1
        intro s3 intent s4 hstep
        exact statePack_placePendingOrder _ _ _ _ _ _ _ _ _ hstep
      · rw [if_neg hproc] at hif
        cases hif
        exact ⟨statePack_refl s1, rfl⟩
    by_cases hprod : ¬ entityType.processes.production.isEmpty
    · rw [if_pos hprod] at h2
      obtain ⟨prodDecision, hd1, hd2⟩ := thr_bind_some _ _ _ h2
      obtain ⟨⟨nl2, counter⟩, hs1, hs2⟩ := thr_bind_some _ _ _ hd2
      simp only [Option.pure_def, Option.some_bind] at hs2
      obtain ⟨hpk, hres2⟩ := hproc2 _ _ hs2
      have hintents := decideProduction_intents entity entityType
        (newLines.filter (fun l => l.entityId == entity.id)) s cfg
        prodDecision hd1 hwf
      constructor
      · apply statePack_trans _ _ _ ?_ hpk
        refine ⟨sameEntityIds_refl _, fun hA => hA, fun hB => hB, rfl, rfl, ?_, ?_⟩
        · have hmono := startLinesLoop_mono cfg entity entityType _ _ _ hs1
          dsimp only at hmono ⊢
          omega
        · refine ⟨[], by simp, ?_, [], by simp, by simp, ?_⟩
          · intro o ho
            cases ho
          · intro k hk
            cases hk
      · intro hv
        rw [hres2]
        have hstops : ∀ l ∈ prodDecision.linesToStop.foldl (fun nl lineId =>
            match nl.findIdx? (fun l => l.id == lineId) with
            | some idx => nl.eraseIdx idx
            | none => nl) newLines, 0 ≤ l.volume := by
          have hsub : ∀ (ids : List String) (nl : List ProcessLine),
              (∀ l ∈ nl, 0 ≤ l.volume) →
              ∀ l ∈ ids.foldl (fun nl lineId =>
                match nl.findIdx? (fun l => l.id == lineId) with
                | some idx => nl.eraseIdx idx
                | none => nl) nl, 0 ≤ l.volume := by
            intro ids
            induction ids with
            | nil => intro nl hnl; exact hnl
            | cons lid rest2 ih2 =>
              intro nl hnl
              rw [List.foldl_cons]
              apply ih2
              cases hfi : nl.findIdx? (fun l => l.id == lid) with
              | none => exact hnl
              | some idx =>
                intro l hl
                exact hnl l ((List.eraseIdx_sublist nl idx).subset hl)
          exact hsub prodDecision.linesToStop newLines hv
        exact (startLinesLoop_spec cfg entity entityType _ _ _ hs1 hintents hstops).2
    · rw [if_neg hprod] at h2
      simp only [Option.pure_def, Option.some_bind] at h2
      obtain ⟨hpk, hres2⟩ := hproc2 _ _ h2
      refine ⟨hpk, ?_⟩
      intro hv
      rw [hres2]
      exact hv

theorem ordersExtend_congr (s s1 s' : GameState) (h : OrdersExtend s s1)
    (ho : s'.orders = s1.orders) (hc : s'.idCounter = s1.idCounter) :
    OrdersExtend s s' := by
  obtain ⟨ext, ho1, hv, ks, hm, hch, hb⟩ := h
  refine ⟨ext, by rw [ho, ho1], hv, ks, hm, hch, ?_⟩
  intro k hk
  rw [hc]
  exact hb k hk

theorem aiLoop_spec (cfg : GameConfig) (hwf : WFConfig cfg)
    (entities : List Entity) :
    ∀ (acc res : GameState × List ProcessLine),
      entities.foldlM
        (fun (acc : GameState × List ProcessLine) entity => do
          let (s, newLines) := acc
          if entity.isPlayerControlled then pure (s, newLines)
          else do
            let entityType ← getEntityType cfg entity.type
            let entityLines := newLines.filter (fun l => l.entityId == entity.id)
            let (s, newLines) ←
              if ¬ entityType.processes.production.isEmpty then do
                let prodDecision ← decideProduction entity entityType entityLines s cfg
                let newLines := prodDecision.linesToStop.foldl (fun nl lineId =>
                  match nl.findIdx? (fun l => l.id == lineId) with
                  | some idx => nl.eraseIdx idx
                  | none => nl) newLines
                let (newLines, counter) ←
                  startLinesLoop cfg entity entityType prodDecision.linesToStart
                    (newLines, s.idCounter)
                pure ({ s with idCounter := counter }, newLines)
              else pure (s, newLines)
            if ¬ entityType.processes.procurement.isEmpty then do
              let procDecision ← decideProcurement entity entityType s cfg
              let s ← procDecision.foldlM (fun s intent =>
                placePendingOrder s cfg entity.id intent.resource intent.quantity
                  intent.pricePerUnit intent.supplierId none) s
              pure (s, newLines)
            else pure (s, newLines)) acc = some res →
      StatePack acc.1 res.1 ∧
      ((∀ l ∈ acc.2, 0 ≤ l.volume) → ∀ l ∈ res.2, 0 ≤ l.volume) := by
  induction entities with
  | nil =>
    intro acc res h
    cases h
    exact ⟨statePack_refl _, fun hv => hv⟩
  | cons entity rest ih =>
    intro acc res h
    rw [List.foldlM_cons] at h
    obtain ⟨acc1, h1, h2⟩ := thr_bind_some _ _ _ h
    obtain ⟨hpk1, hv1⟩ := aiStep_spec cfg hwf entity acc acc1 h1
    obtain ⟨hpk2, hv2⟩ := ih acc1 res h2
    exact ⟨statePack_trans _ _ _ hpk1 hpk2, fun hv => hv2 (hv1 hv)⟩

/-- AI decisions are a phase step. -/
theorem processAIDecisions_phaseStep (s : GameState) (cfg : GameConfig)
    (s' : GameState) (h : processAIDecisions s cfg = some s')
    (hwf : WFConfig cfg) : PhaseStep s s' := by
  unfold processAIDecisions at h
  obtain ⟨acc, h1, h2⟩ := thr_bind_some _ _ _ h
  cases h2
  obtain ⟨⟨hids, hA, hB, hd, hl, hc, hx⟩, hv⟩ :=
    aiLoop_spec cfg hwf s.entities (s, s.processLines) acc h1
  refine ⟨hids, hA, hB, hd, hc, ?_, ?_⟩
  · intro hL
    intro l hlm
    exact hv hL l hlm
  · exact ordersExtend_congr s acc.1 _ hx rfl rfl

-- Phase: contract management

theorem phaseStep_of_statePack (s s' : GameState) (h : StatePack s s') :
    PhaseStep s s' := by
  obtain ⟨hids, hA, hB, hd, hl, hc, hx⟩ := h
  refine ⟨hids, hA, hB, hd, hc, ?_, hx⟩
  intro hL
  unfold LinesPos
  rw [hl]
  exact hL

theorem statePack_set_contracts (s : GameState) (cs : List Contract) :
    StatePack s { s with contracts := cs } :=
  ⟨sameEntityIds_refl _, fun hA => hA, fun hB => hB, rfl, rfl, le_refl _,
    ordersExtend_congr s s _ (ordersExtend_refl s) rfl rfl⟩

theorem statePack_set_contracts_counter (s : GameState) (cs : List Contract)
    (n : ℕ) (hc : s.idCounter ≤ n) :
    StatePack s { s with contracts := cs, idCounter := n } := by
  refine ⟨sameEntityIds_refl _, fun hA => hA, fun hB => hB, rfl, rfl, hc, ?_⟩
  refine ⟨[], by simp, ?_, [], by simp, by simp, ?_⟩
  · intro o ho
    cases ho
  · intro k hk
    cases hk

theorem counterFold_mono {β : Type} (step : ℕ × List Contract → β → ℕ × List Contract)
    (hstep : ∀ acc b, acc.1 ≤ (step acc b).1) (l : List β) :
    ∀ acc : ℕ × List Contract, acc.1 ≤ (l.foldl step acc).1 := by
  induction l with
  | nil => intro acc; exact le_refl _
  | cons b rest ih =>
    intro acc
    rw [List.foldl_cons]
    exact le_trans (hstep acc b) (ih (step acc b))

theorem contractProposalsLoop_mono (cfg : GameConfig) (sE : GameState) :
    ∀ (entities : List Entity) (acc res : ℕ × List Contract),
      contractProposalsLoop cfg sE entities acc = some res → acc.1 ≤ res.1 := by
  intro entities
  induction entities with
  | nil =>
    intro acc res h
    cases h
    exact le_refl _
  | cons entity rest ih =>
    intro acc res h
    obtain ⟨counter, cs⟩ := acc
    unfold contractProposalsLoop at h
    dsimp only at h
    by_cases hpc : entity.isPlayerControlled
    · rw [if_pos hpc] at h
      exact ih _ res h
    · rw [if_neg hpc] at h
      obtain ⟨entityType, ht, h2⟩ := thr_bind_some _ _ _ h
      by_cases hemp : entityType.processes.procurement.isEmpty
      · rw [if_pos hemp] at h2
        exact ih _ res h2
      · rw [if_neg hemp] at h2
        obtain ⟨proposals, hp, h3⟩ := thr_bind_some _ _ _ h2
        have hrec := ih _ res h3
        have hmono := counterFold_mono
          (fun (acc : ℕ × List Contract) proposal =>
            let counter := acc.1 + 1
            let contract : Contract :=
              { id := nextIdStr "contract" counter
                buyerEntityId := entity.id
                sellerEntityId := proposal.supplierId
                resource := proposal.resource
                pricePerUnit := proposal.pricePerUnit
                unitsPerDelivery := proposal.unitsPerDelivery
                deliveryInterval := proposal.deliveryInterval
                totalUnits := proposal.totalUnits
                unitsShipped := 0
                unitsMissed := 0
                penaltyPerUnit := proposal.pricePerUnit * cfg.contractDefaultPenaltyRate
                cancellationThreshold := cfg.contractDefaultCancellationThreshold
                proposedAtTick := sE.tick
                acceptedAtTick := none
                nextDeliveryTick := 0
                status := ContractStatus.proposed }
            (counter, acc.2 ++ [contract]))
          (fun acc b => by dsimp only; omega) proposals (counter, cs)
        dsimp only at hmono hrec ⊢
        omega

theorem contractDueStep_pack (cfg : GameConfig) (i : ℕ)
    (acc res : GameState × List Contract)
    (h : contractDueStep cfg i acc = some res) : StatePack acc.1 res.1 := by
  obtain ⟨s, cs⟩ := acc
  unfold contractDueStep at h
  dsimp only at h
  by_cases h1 : (cs.getD i defaultContract).status ≠ ContractStatus.active
  · rw [if_pos h1] at h
    cases h
    exact statePack_refl s
  · rw [if_neg h1] at h
    by_cases h2 : s.tick < (cs.getD i defaultContract).nextDeliveryTick
    · rw [if_pos h2] at h
      cases h
      exact statePack_refl s
    · rw [if_neg h2] at h
      cases he : getEntity s (cs.getD i defaultContract).sellerEntityId with
      | none =>
        rw [he] at h
        cases h
        exact statePack_refl s
      | some seller =>
        rw [he] at h
        dsimp only at h
        by_cases h3 : min (cs.getD i defaultContract).unitsPerDelivery
            ((cs.getD i defaultContract).totalUnits -
              (cs.getD i defaultContract).unitsShipped -
              (cs.getD i defaultContract).unitsMissed) ≤ 0
        · rw [if_pos h3] at h
          cases h
          exact statePack_refl s
        · rw [if_neg h3] at h
          by_cases h4 : min (cs.getD i defaultContract).unitsPerDelivery
              ((cs.getD i defaultContract).totalUnits -
                (cs.getD i defaultContract).unitsShipped -
                (cs.getD i defaultContract).unitsMissed) ≤
              getAvailable seller (cs.getD i defaultContract).resource
          · rw [if_pos h4] at h
            obtain ⟨s2, hp1, hp2⟩ := thr_bind_some _ _ _ h
            cases hp2
            exact statePack_placePendingOrder _ _ _ _ _ _ _ _ _ hp1
          · rw [if_neg h4] at h
            cases h
            exact statePack_of_harmless _ _ (harmless_deductMoney _ _ _)

theorem dueFold_pack (cfg : GameConfig) :
    ∀ (idxs : List ℕ) (acc res : GameState × List Contract),
      idxs.foldlM (fun acc i => contractDueStep cfg i acc) acc = some res →
      StatePack acc.1 res.1 := by
  intro idxs
  induction idxs with
  | nil =>
    intro acc res h
    cases h
    exact statePack_refl _
  | cons i rest ih =>
    intro acc res h
    rw [List.foldlM_cons] at h
    obtain ⟨acc1, h1, h2⟩ := thr_bind_some _ _ _ h
    exact statePack_trans _ _ _ (contractDueStep_pack cfg i acc acc1 h1)
      (ih acc1 res h2)

/-- Contract management is a phase step. -/
theorem processContractManagement_phaseStep (s : GameState) (cfg : GameConfig)
    (s' : GameState) (h : processContractManagement s cfg = some s') :
    PhaseStep s s' := by
  unfold processContractManagement at h
  obtain ⟨⟨counter, uc⟩, h1, h2⟩ := thr_bind_some _ _ _ h
  dsimp only at h2
  obtain ⟨uc2, h3, h4⟩ := thr_bind_some _ _ _ h2
  obtain ⟨acc, h5, h6⟩ := thr_bind_some _ _ _ h4
  cases h6
  have hmono : s.idCounter ≤ counter :=
    contractProposalsLoop_mono cfg s s.entities _ _ h1
  apply phaseStep_of_statePack
  apply statePack_trans _ _ _
    (statePack_set_contracts_counter s uc counter hmono)
  apply statePack_trans _ _ _
    (statePack_set_contracts _ uc2)
  apply statePack_trans _ _ _ (dueFold_pack cfg _ _ acc h5)
  exact statePack_set_contracts _ _

-- Acceptance phase: grouping machinery

theorem map_fst_smSet_hasKey {α : Type} (m : StrMap α) (k : String) (v : α)
    (hK : smHasKey m k = true) :
    (smSet m k v).map Prod.fst = m.map Prod.fst := by
  unfold smSet
  rw [if_pos hK, List.map_map]
  apply List.map_congr_left
  intro p _
  by_cases hp : (p.1 == k) = true
  · simp only [Function.comp_apply, if_pos hp]
    simp only [beq_iff_eq] at hp
    exact hp.symm
  · simp only [Function.comp_apply, if_neg hp]

theorem map_smSet_no_key {α : Type} (m : StrMap α) (k : String) (v : α)
    (hN : ∀ p ∈ m, p.1 ≠ k) :
    m.map (fun p => if p.1 == k then (k, v) else p) = m := by
  induction m with
  | nil => rfl
  | cons p rest ih =>
    rw [List.map_cons]
    have hp : (p.1 == k) = false := by
      simpa using hN p (List.mem_cons_self p rest)
    rw [if_neg (by simp [hp])]
    rw [ih (fun q hq => hN q (List.mem_cons_of_mem p hq))]

theorem append_singleton_perm {α : Type} (a b : List α) (x : α) :
    ((a ++ [x]) ++ b).Perm ((a ++ b) ++ [x]) := by
  rw [List.append_assoc, List.append_assoc]
  exact List.Perm.append_left a List.perm_append_comm

theorem join_smSet {α : Type} (acc : StrMap (List α)) (k : String) (x : α)
    (hN : (acc.map Prod.fst).Nodup) (hK : smHasKey acc k = true) :
    ((smSet acc k (smGet acc k [] ++ [x])).map Prod.snd).join.Perm
      ((acc.map Prod.snd).join ++ [x]) := by
  induction acc with
  | nil => cases hK
  | cons p rest ih =>
    rw [List.map_cons, List.nodup_cons] at hN
    obtain ⟨hp1, hp2⟩ := hN
    by_cases hp : (p.1 == k) = true
    · have hkeq : p.1 = k := by simpa using hp
      have hget : smGet (p :: rest) k [] = p.2 := by
        unfold smGet smLookup
        rw [findConsPos (fun (q : String × List α) => q.1 == k) p rest hp]
        rfl
      have hno : ∀ q ∈ rest, q.1 ≠ k := by
        intro q hq hqk
        apply hp1
        rw [hkeq, ← hqk]
        exact List.mem_map_of_mem _ hq
      have e1 : smSet (p :: rest) k (smGet (p :: rest) k [] ++ [x])
          = (k, p.2 ++ [x]) :: rest := by
        unfold smSet
        rw [if_pos hK, hget]
        simp only [List.map_cons]
        rw [if_pos hp, map_smSet_no_key rest k (p.2 ++ [x]) hno]
      rw [e1]
      simp only [List.map_cons, List.join]
      exact append_singleton_perm p.2 ((rest.map Prod.snd).join) x
    · have hKrest : smHasKey rest k = true := by
        unfold smHasKey at hK ⊢
        simp only [List.any_cons, hp, Bool.false_or] at hK
        exact hK
      have hget : smGet (p :: rest) k [] = smGet rest k [] := by
        unfold smGet smLookup
        rw [findConsNeg (fun (q : String × List α) => q.1 == k) p rest
          (by simpa using hp)]
      have e1 : smSet (p :: rest) k (smGet (p :: rest) k [] ++ [x])
          = p :: smSet rest k (smGet rest k [] ++ [x]) := by
        unfold smSet
        rw [if_pos hK, if_pos hKrest, hget]
        simp only [List.map_cons]
        rw [if_neg hp]
      rw [e1]
      simp only [List.map_cons, List.join]
      have hihr := ih hp2 hKrest
      have h2 := List.Perm.append_left p.2 hihr
      rw [← List.append_assoc] at h2
      exact h2

theorem mem_smSet_cases {α : Type} (m : StrMap α) (k : String) (v : α)
    (p : String × α) (h : p ∈ smSet m k v) : p = (k, v) ∨ p ∈ m := by
  unfold smSet at h
  by_cases hK : smHasKey m k
  · rw [if_pos hK] at h
    obtain ⟨q, hq, heq⟩ := List.mem_map.mp h
    by_cases hqk : (q.1 == k) = true
    · rw [if_pos hqk] at heq
      exact Or.inl heq.symm
    · rw [if_neg hqk] at heq
      exact Or.inr (heq ▸ hq)
  · rw [if_neg hK] at h
    rcases List.mem_append.mp h with hm | hm
    · exact Or.inr hm
    · simp only [List.mem_singleton] at hm
      exact Or.inl hm

theorem smGet_entry_mem {α : Type} (m : StrMap (List α)) (k : String)
    (hK : smHasKey m k = true) : (k, smGet m k []) ∈ m := by
  unfold smHasKey at hK
  obtain ⟨p, hp, hpk⟩ := List.any_eq_true.mp hK
  unfold smGet smLookup
  cases hf : m.find? (fun q => q.1 == k) with
  | none =>
    rw [List.find?_eq_none] at hf
    exact absurd hpk (hf p hp)
  | some q =>
    have hqm := List.mem_of_find?_eq_some hf
    have hqk : q.1 = k := by
      have := List.find?_some hf
      simpa using this
    simp only [Option.map_some', Option.getD_some]
    rw [← hqk]
    exact hqm

theorem groupFold_spec {α : Type} (key : α → String) :
    ∀ (todo : List α) (acc : StrMap (List α)) (done : List α),
      (acc.map Prod.fst).Nodup →
      (∀ p ∈ acc, ∀ x ∈ p.2, x ∈ done ∧ key x = p.1) →
      ((acc.map Prod.snd).join).Perm done →
      ((todo.foldl (fun acc x =>
          if smHasKey acc (key x) then
            smSet acc (key x) (smGet acc (key x) [] ++ [x])
          else acc ++ [(key x, [x])]) acc).map Prod.fst).Nodup ∧
      (∀ p ∈ todo.foldl (fun acc x =>
          if smHasKey acc (key x) then
            smSet acc (key x) (smGet acc (key x) [] ++ [x])
          else acc ++ [(key x, [x])]) acc, ∀ x ∈ p.2,
        x ∈ done ++ todo ∧ key x = p.1) ∧
      (((todo.foldl (fun acc x =>
          if smHasKey acc (key x) then
            smSet acc (key x) (smGet acc (key x) [] ++ [x])
          else acc ++ [(key x, [x])]) acc).map Prod.snd).join).Perm
        (done ++ todo) := by
  intro todo
  induction todo with
  | nil =>
    intro acc done hN hmem hperm
    simp only [List.foldl_nil, List.append_nil]
    exact ⟨hN, fun p hp x hx => hmem p hp x hx, hperm⟩
  | cons x rest ih =>
    intro acc done hN hmem hperm
    rw [List.foldl_cons]
    by_cases hK : smHasKey acc (key x)
    · rw [if_pos hK]
      have hres := ih (smSet acc (key x) (smGet acc (key x) [] ++ [x]))
        (done ++ [x]) ?_ ?_ ?_
      · refine ⟨hres.1, ?_, ?_⟩
        · intro p hp y hy
          obtain ⟨hmem2, hkey⟩ := hres.2.1 p hp y hy
          refine ⟨?_, hkey⟩
          rw [List.append_assoc] at hmem2
          simpa using hmem2
        · have := hres.2.2
          rw [List.append_assoc] at this
          simpa using this
      · rw [map_fst_smSet_hasKey acc (key x) _ hK]
        exact hN
      · intro p hp y hy
        rcases mem_smSet_cases _ _ _ p hp with heq | hmem2
        · subst heq
          dsimp only at hy ⊢
          rcases List.mem_append.mp hy with hm | hm
          · have hentry := smGet_entry_mem acc (key x) hK
            obtain ⟨hd, hk⟩ := hmem _ hentry y hm
            exact ⟨List.mem_append_left _ hd, hk⟩
          · simp only [List.mem_singleton] at hm
            subst hm
            exact ⟨List.mem_append_right _ (List.mem_singleton_self y), rfl⟩
        · obtain ⟨hd, hk⟩ := hmem p hmem2 y hy
          exact ⟨List.mem_append_left _ hd, hk⟩
      · exact (join_smSet acc (key x) x hN hK).trans
          (List.Perm.append_right [x] hperm)
    · rw [if_neg hK]
      have hres := ih (acc ++ [(key x, [x])]) (done ++ [x]) ?_ ?_ ?_
      · refine ⟨hres.1, ?_, ?_⟩
        · intro p hp y hy
          obtain ⟨hmem2, hkey⟩ := hres.2.1 p hp y hy
          refine ⟨?_, hkey⟩
          rw [List.append_assoc] at hmem2
          simpa using hmem2
        · have := hres.2.2
          rw [List.append_assoc] at this
          simpa using this
      · rw [List.map_append]
        simp only [List.map_cons, List.map_nil]
        rw [List.nodup_append]
        refine ⟨hN, List.nodup_singleton _, ?_⟩
        intro a ha hb
        simp only [List.mem_singleton] at hb
        subst hb
        unfold smHasKey at hK
        apply hK
        rw [List.mem_map] at ha
        obtain ⟨p, hp, hpk⟩ := ha
        exact List.any_eq_true.mpr ⟨p, hp, by simp [hpk]⟩
      · intro p hp y hy
        rcases List.mem_append.mp hp with hm | hm
        · obtain ⟨hd, hk⟩ := hmem p hm y hy
          exact ⟨List.mem_append_left _ hd, hk⟩
        · simp only [List.mem_singleton] at hm
          subst hm
          simp only [List.mem_singleton] at hy
          subst hy
          exact ⟨List.mem_append_right _ (List.mem_singleton_self y), rfl⟩
      · simp only [List.map_append, List.map_cons, List.map_nil,
          List.flatten_append, List.flatten_cons, List.flatten_nil,
          List.append_nil]
        exact List.Perm.append_right [x] hperm

theorem pendingIndices_mem (orders : List Order) (i : ℕ) :
    i ∈ pendingIndices orders ↔
      i < orders.length ∧
        (orders.getD i defaultOrder).status = OrderStatus.pending := by
  unfold pendingIndices
  rw [List.mem_filter, List.mem_range]
  simp

theorem pendingIndices_nodup (orders : List Order) :
    (pendingIndices orders).Nodup :=
  (List.nodup_range _).filter _

theorem ordersBySeller_spec (orders : List Order) :
    (∀ p ∈ ordersBySeller orders, ∀ i ∈ p.2,
      (i < orders.length ∧
        (orders.getD i defaultOrder).status = OrderStatus.pending) ∧
      (orders.getD i defaultOrder).sellerEntityId = p.1) ∧
    (((ordersBySeller orders).map Prod.snd).join).Perm (pendingIndices orders) := by
  unfold ordersBySeller
  have h := groupFold_spec
    (fun i => (orders.getD i defaultOrder).sellerEntityId)
    (pendingIndices orders) [] [] (by simp) (by intro p hp; cases hp)
    (by simp)
  refine ⟨?_, ?_⟩
  · intro p hp i hi
    obtain ⟨hm, hk⟩ := h.2.1 p hp i hi
    simp only [List.nil_append] at hm
    exact ⟨(pendingIndices_mem orders i).mp hm, hk⟩
  · have := h.2.2
    simpa using this

-- Acceptance phase: state and sum helpers

theorem getEntity_noCom_eq (s1 s2 : GameState)
    (h : s1.entities.map entityNoCom = s2.entities.map entityNoCom)
    (eid : String) :
    (getEntity s1 eid).map entityNoCom = (getEntity s2 eid).map entityNoCom := by
  unfold getEntity
  have hp : ∀ e : Entity, ((entityNoCom e).id == eid) = (e.id == eid) := by
    intro e
    rfl
  rw [← find?_map_invariant (fun (e : Entity) => e.id == eid) entityNoCom hp s1.entities,
    ← find?_map_invariant (fun (e : Entity) => e.id == eid) entityNoCom hp s2.entities, h]

theorem invOf_of_noCom_eq (s1 s2 : GameState)
    (h : s1.entities.map entityNoCom = s2.entities.map entityNoCom)
    (eid r : String) : invOf s1 eid r = invOf s2 eid r := by
  have h2 := getEntity_noCom_eq s1 s2 h eid
  unfold invOf
  cases h1 : getEntity s1 eid with
  | none =>
    rw [h1] at h2
    cases h3 : getEntity s2 eid with
    | none => rfl
    | some e =>
      rw [h3] at h2
      cases h2
  | some e1 =>
    rw [h1] at h2
    cases h3 : getEntity s2 eid with
    | none =>
      rw [h3] at h2
      cases h2
    | some e2 =>
      rw [h3] at h2
      simp only [Option.map_some', Option.some_inj] at h2
      have : e1.inventory = e2.inventory := by
        have := congrArg Entity.inventory h2
        simpa [entityNoCom] using this
      simp [this]

theorem sameEntityIds_of_noCom_eq (s1 s2 : GameState)
    (h : s2.entities.map entityNoCom = s1.entities.map entityNoCom) :
    SameEntityIds s1 s2 := by
  unfold SameEntityIds
  have h1 : s2.entities.map (fun e => e.id) =
      (s2.entities.map entityNoCom).map (fun e => e.id) := by
    rw [List.map_map]
    rfl
  have h2 : s1.entities.map (fun e => e.id) =
      (s1.entities.map entityNoCom).map (fun e => e.id) := by
    rw [List.map_map]
    rfl
  rw [h1, h2, h]

theorem getEntity_isSome_of_entityIn (s : GameState) (id : String)
    (h : EntityIn s id) : ∃ e, getEntity s id = some e := by
  obtain ⟨e, he, heq⟩ := h
  unfold getEntity
  cases hf : s.entities.find? (fun x => x.id == id) with
  | none =>
    rw [List.find?_eq_none] at hf
    exact absurd (by simp [heq]) (hf e he)
  | some e2 => exact ⟨e2, rfl⟩

theorem comOf_zero_of_comZero (s : GameState) (hB : ComZero s)
    (eid r : String) : comOf s eid r = 0 := by
  unfold comOf
  cases he : getEntity s eid with
  | none => rfl
  | some e =>
    simp only [Option.map_some', Option.getD_some]
    exact hB e (getEntity_mem s eid e he).1 r

theorem sumContrib_zero (orders : List Order) (eid r : String) (idxs : List ℕ)
    (h : ∀ i ∈ idxs, contrib orders eid r i = 0) :
    sumContrib orders eid r idxs = 0 := by
  unfold sumContrib
  rw [List.map_congr_left h]
  simp

theorem contrib_not_accepted (orders : List Order) (eid r : String) (i : ℕ)
    (h : (orders.getD i defaultOrder).status ≠ OrderStatus.accepted) :
    contrib orders eid r i = 0 := by
  unfold contrib
  dsimp only
  rw [if_neg]
  intro hc
  exact h hc.1

theorem sumContrib_set_untouched (orders : List Order) (j : ℕ) (x : Order)
    (eid r : String) (idxs : List ℕ) (hj : j ∉ idxs) :
    sumContrib (orders.set j x) eid r idxs = sumContrib orders eid r idxs := by
  unfold sumContrib
  apply congrArg
  apply List.map_congr_left
  intro i hi
  unfold contrib
  rw [getD_set_ne' _ _ _ _ _ (by intro hc; exact hj (hc ▸ hi))]

theorem sumContrib_perm (orders : List Order) (eid r : String)
    (idxs idxs' : List ℕ) (h : idxs.Perm idxs') :
    sumContrib orders eid r idxs = sumContrib orders eid r idxs' :=
  List.Perm.sum_eq (List.Perm.map _ h)

theorem sumContrib_cons (orders : List Order) (eid r : String) (i : ℕ)
    (idxs : List ℕ) :
    sumContrib orders eid r (i :: idxs) =
      contrib orders eid r i + sumContrib orders eid r idxs := by
  unfold sumContrib
  rw [List.map_cons, List.sum_cons]

/-- Replacing the order at an in-range index shifts the committed mass by
the contribution difference at that index. -/
theorem sumContrib_set_decomp (orders : List Order) (j : ℕ) (x : Order)
    (eid r : String) (hj : j < orders.length) :
    sumContrib (orders.set j x) eid r (List.range orders.length) +
      contrib orders eid r j =
    sumContrib orders eid r (List.range orders.length) +
      contrib (orders.set j x) eid r j := by
  have hmem : j ∈ List.range orders.length := List.mem_range.mpr hj
  have hperm : (List.range orders.length).Perm (j :: (List.range orders.length).erase j) :=
    List.perm_cons_erase hmem
  have hnot : j ∉ (List.range orders.length).erase j :=
    fun hc => (List.Nodup.not_mem_erase (List.nodup_range _)) hc
  rw [sumContrib_perm _ _ _ _ _ hperm, sumContrib_perm orders _ _ _ _ hperm,
    sumContrib_cons, sumContrib_cons,
    sumContrib_set_untouched orders j x eid r _ hnot]
  ring

theorem decideOrderFulfillment_le (seller : Entity) (order : Order)
    (av req : ℚ) (cfg : GameConfig) (f : ℚ)
    (h : decideOrderFulfillment seller order av req cfg = some f)
    (hf : 0 < f) : f ≤ av := by
  unfold decideOrderFulfillment at h
  by_cases h1 : av ≤ 0
  · rw [if_pos h1] at h
    cases h
    exact absurd hf (lt_irrefl 0)
  · rw [if_neg h1] at h
    cases ht : smLookup cfg.entityTypes seller.type with
    | none =>
      rw [ht] at h
      cases h
      exact min_le_right _ _
    | some sellerType =>
      rw [ht] at h
      dsimp only at h
      obtain ⟨minCost, hm, h2⟩ := thr_bind_some _ _ _ h
      by_cases h3 : order.pricePerUnit < minCost
      · rw [if_pos h3] at h2
        cases h2
        exact absurd hf (lt_irrefl 0)
      · rw [if_neg h3] at h2
        cases h2
        exact min_le_right _ _

theorem comOf_addCommitted (s : GameState) (sid r : String) (f : ℚ)
    (entity : Entity) (he : getEntity s sid = some entity)
    (eid r' : String) :
    comOf (addCommitted s sid r f) eid r' =
      comOf s eid r' + (if eid = sid ∧ r' = r then f else 0) := by
  unfold addCommitted
  rw [he]
  dsimp only
  unfold comOf
  rw [getEntity_updateEntity s sid eid (fun e =>
    { e with committed := smSet e.committed r (smGet entity.committed r 0 + f) })
    (fun e => rfl)]
  cases h1 : getEntity s eid with
  | none =>
    have hne : ¬ (eid = sid ∧ r' = r) := by
      rintro ⟨rfl, _⟩
      rw [he] at h1
      cases h1
    rw [if_neg hne]
    simp
  | some e =>
    have heid : e.id = eid := (getEntity_mem s eid e h1).2
    by_cases h2 : eid = sid
    · subst h2
      rw [he] at h1
      cases h1
      simp only [Option.map_some', Option.getD_some]
      rw [if_pos (show (entity.id == eid) = true from by simp [heid])]
      dsimp only
      by_cases h3 : r' = r
      · subst h3
        rw [smGet_smSet_self]
        simp
      · rw [smGet_smSet_other _ _ _ h3]
        simp [h3]
    · simp only [Option.map_some', Option.getD_some]
      rw [if_neg (show ¬ (e.id == sid) = true from by simp [heid, h2])]
      simp [h2]

theorem addCommitted_noCom (s : GameState) (sid r : String) (f : ℚ)
    (entity : Entity) (he : getEntity s sid = some entity) :
    (addCommitted s sid r f).entities.map entityNoCom =
      s.entities.map entityNoCom := by
  unfold addCommitted
  rw [he]
  dsimp only
  rw [updateEntity_entities, List.map_map]
  apply List.map_congr_left
  intro e _
  by_cases h1 : (e.id == sid) = true
  · simp only [Function.comp_apply, if_pos h1]
    rfl
  · simp only [Function.comp_apply, if_neg h1]

theorem addCommitted_skel (s : GameState) (sid r : String) (f : ℚ) :
    SameSkel s (addCommitted s sid r f) := by
  unfold addCommitted
  cases he : getEntity s sid with
  | none => exact skel_refl s
  | some entity => exact skel_updateEntity _ _ _

theorem invOf_addCommitted (s : GameState) (sid r : String) (f : ℚ)
    (eid r' : String) :
    invOf (addCommitted s sid r f) eid r' = invOf s eid r' := by
  unfold addCommitted
  cases he : getEntity s sid with
  | none => rfl
  | some entity =>
    dsimp only
    unfold invOf
    rw [getEntity_updateEntity s sid eid (fun e =>
      { e with committed := smSet e.committed r (smGet entity.committed r 0 + f) })
      (fun e => rfl)]
    cases h1 : getEntity s eid with
    | none => simp
    | some e =>
      simp only [Option.map_some', Option.getD_some]
      by_cases h2 : (e.id == sid) = true
      · rw [if_pos h2]
      · rw [if_neg h2]

theorem set_cores (ordersCur : List Order) (idx : ℕ) (newOrd : Order)
    (hlt : idx < ordersCur.length)
    (hcore : orderCore newOrd = orderCore (ordersCur.getD idx defaultOrder)) :
    ∀ i : ℕ, orderCore ((ordersCur.set idx newOrd).getD i defaultOrder) =
      orderCore (ordersCur.getD i defaultOrder) := by
  intro i
  by_cases hii : i = idx
  · subst hii
    rw [getD_set_self_of_lt _ _ _ _ hlt]
    exact hcore
  · rw [getD_set_ne' _ _ _ _ _ hii]

/-- One step of the inner acceptance loop keeps the phase invariant. -/
theorem acceptInv_set (s0 sCur : GameState) (ordersCur : List Order)
    (hInv : AcceptInv s0 sCur ordersCur) (idx : ℕ)
    (hlt : idx < ordersCur.length)
    (hpend : (ordersCur.getD idx defaultOrder).status = OrderStatus.pending)
    (newOrd : Order)
    (hcore : orderCore newOrd = orderCore (ordersCur.getD idx defaultOrder))
    (hstat : newOrd.status = OrderStatus.accepted ∨
      newOrd.status = OrderStatus.declined)
    (hful : newOrd.status = OrderStatus.accepted → 0 < newOrd.fulfilledQuantity)
    (sNew : GameState)
    (hents : sNew.entities.map entityNoCom = sCur.entities.map entityNoCom)
    (hskel : SameSkel sCur sNew)
    (hinvOf : ∀ eid r : String, invOf sNew eid r = invOf sCur eid r)
    (hcomOf : ∀ eid r : String, comOf sNew eid r = comOf sCur eid r +
      contrib (ordersCur.set idx newOrd) eid r idx)
    (hcomLe : ∀ eid r : String, comOf sNew eid r ≤ invOf sNew eid r) :
    AcceptInv s0 sNew (ordersCur.set idx newOrd) := by
  obtain ⟨hsk1, hsk2, hsk3, hsk4, hsk5, hsk6⟩ := hskel
  have hs0pend : (s0.orders.getD idx defaultOrder).status = OrderStatus.pending := by
    rcases hInv.stats idx with h1 | ⟨h1, _⟩
    · rw [← h1]
      exact hpend
    · exact h1
  refine ⟨hents.trans hInv.entsNoCom, hsk2.trans hInv.dels, hsk3.trans hInv.lines,
    hsk4.trans hInv.counter, hsk5.trans hInv.tickEq, hsk6.trans hInv.contractsEq,
    ?_, fun i => (set_cores ordersCur idx newOrd hlt hcore i).trans (hInv.cores i),
    ?_, ?_, ?_, hcomLe⟩
  · rw [List.length_set]
    exact hInv.olen
  · intro i
    by_cases hii : i = idx
    · subst hii
      rw [getD_set_self_of_lt _ _ _ _ hlt]
      exact Or.inr ⟨hs0pend, hstat⟩
    · rw [getD_set_ne' _ _ _ _ _ hii]
      exact hInv.stats i
  · intro i
    by_cases hii : i = idx
    · subst hii
      rw [getD_set_self_of_lt _ _ _ _ hlt]
      exact hful
    · rw [getD_set_ne' _ _ _ _ _ hii]
      exact hInv.fulfilledPos i
  · intro eid r
    rw [hcomOf eid r, hInv.comSum eid r, List.length_set]
    have hdec := sumContrib_set_decomp ordersCur idx newOrd eid r hlt
    have hc0 : contrib ordersCur eid r idx = 0 :=
      contrib_not_accepted _ _ _ _ (by rw [hpend]; intro hc; cases hc)
    rw [hc0, add_zero] at hdec
    rw [← hdec]

theorem acceptLoop_spec (cfg : GameConfig) (sid : String) (seller : Entity)
    (s0 : GameState) :
    ∀ (idxs : List ℕ) (sCur : GameState) (ordersCur : List Order)
      (res : GameState × List Order),
      acceptLoop cfg sid seller idxs (sCur, ordersCur) = some res →
      AcceptInv s0 sCur ordersCur →
      (∀ i ∈ idxs, i < ordersCur.length ∧
        (ordersCur.getD i defaultOrder).status = OrderStatus.pending ∧
        (ordersCur.getD i defaultOrder).sellerEntityId = sid) →
      idxs.Nodup →
      AcceptInv s0 res.1 res.2 ∧
      res.2.length = ordersCur.length ∧
      (∀ j : ℕ, j ∉ idxs →
        res.2.getD j defaultOrder = ordersCur.getD j defaultOrder) := by
  intro idxs
  induction idxs with
  | nil =>
    intro sCur ordersCur res h hInv hIdx hNd
    cases h
    exact ⟨hInv, rfl, fun j _ => rfl⟩
  | cons idx rest ih =>
    intro sCur ordersCur res h hInv hIdx hNd
    unfold acceptLoop at h
    dsimp only at h
    obtain ⟨sellerNow, hsn, h2⟩ := thr_bind_some _ _ _ h
    obtain ⟨f, hdf, h3⟩ := thr_bind_some _ _ _ h2
    rw [List.nodup_cons] at hNd
    obtain ⟨hidxnot, hNd2⟩ := hNd
    obtain ⟨hlt, hpend, hsid⟩ := hIdx idx (List.mem_cons_self idx rest)
    by_cases hf : f ≤ 0
    · rw [if_pos hf] at h3
      set newOrdD := { ordersCur.getD idx defaultOrder with
        status := OrderStatus.declined, fulfilledQuantity := 0 } with hnewOrdD
      have hInv2 : AcceptInv s0 sCur (ordersCur.set idx newOrdD) := by
        apply acceptInv_set s0 sCur ordersCur hInv idx hlt hpend newOrdD rfl
          (Or.inr rfl) (fun hc => by rw [hnewOrdD] at hc; cases hc) sCur rfl
          (skel_refl sCur) (fun eid r => rfl) ?_ ?_
        · intro eid r
          have : contrib (ordersCur.set idx newOrdD) eid r idx = 0 := by
            apply contrib_not_accepted
            rw [getD_set_self_of_lt _ _ _ _ hlt, hnewOrdD]
            intro hc
            cases hc
          rw [this, add_zero]
        · exact hInv.comLe
      have hIdx2 : ∀ i ∈ rest,
          i < (ordersCur.set idx newOrdD).length ∧
          ((ordersCur.set idx newOrdD).getD i defaultOrder).status =
            OrderStatus.pending ∧
          ((ordersCur.set idx newOrdD).getD i defaultOrder).sellerEntityId = sid := by
        intro i hi
        obtain ⟨h1, h2p, h3p⟩ := hIdx i (List.mem_cons_of_mem idx hi)
        have hine : i ≠ idx := fun hc => hidxnot (by rw [← hc]; exact hi)
        rw [List.length_set, getD_set_ne' _ _ _ _ _ hine]
        exact ⟨h1, h2p, h3p⟩
      obtain ⟨hres, hlen, huntouched⟩ := ih sCur _ res h3 hInv2 hIdx2 hNd2
      refine ⟨hres, by rw [hlen, List.length_set], ?_⟩
      intro j hj
      rw [huntouched j (fun hc => hj (List.mem_cons_of_mem idx hc)),
        getD_set_ne' _ _ _ _ _
          (fun hc => hj (by rw [hc]; exact List.mem_cons_self idx rest))]
    · rw [if_neg hf] at h3
      have hfpos : 0 < f := lt_of_not_le hf
      have hfle : f ≤ getAvailable sellerNow
          (ordersCur.getD idx defaultOrder).resource :=
        decideOrderFulfillment_le _ _ _ _ _ _ hdf hfpos
      have hcomOfCur : comOf sCur sid (ordersCur.getD idx defaultOrder).resource =
          smGet sellerNow.committed (ordersCur.getD idx defaultOrder).resource 0 := by
        unfold comOf
        rw [hsn]
        rfl
      have hinvOfCur : invOf sCur sid (ordersCur.getD idx defaultOrder).resource =
          smGet sellerNow.inventory (ordersCur.getD idx defaultOrder).resource 0 := by
        unfold invOf
        rw [hsn]
        rfl
      set r0 := (ordersCur.getD idx defaultOrder).resource with hr0
      set newOrd := { ordersCur.getD idx defaultOrder with
        status := OrderStatus.accepted, fulfilledQuantity := f
        wasAmended := decide (f < (ordersCur.getD idx defaultOrder).requestedQuantity) } with hnewOrd
      have hcontribNew : ∀ eid r : String,
          contrib (ordersCur.set idx newOrd) eid r idx =
            if eid = sid ∧ r = r0 then f else 0 := by
        intro eid r
        unfold contrib
        rw [getD_set_self_of_lt _ _ _ _ hlt]
        dsimp only
        by_cases hc : eid = sid ∧ r = r0
        · rw [if_pos ⟨rfl, by rw [hsid, hc.1], by rw [← hr0, hc.2]⟩, if_pos hc]
        · rw [if_neg ?_, if_neg hc]
          rintro ⟨_, hs2, hr2⟩
          apply hc
          constructor
          · rw [← hs2, hsid]
          · rw [← hr2]
      have hInv2 : AcceptInv s0 (addCommitted sCur sid r0 f)
          (ordersCur.set idx newOrd) := by
        apply acceptInv_set s0 sCur ordersCur hInv idx hlt hpend newOrd rfl
          (Or.inl rfl) (fun _ => hfpos) _
          (addCommitted_noCom sCur sid r0 f sellerNow hsn)
          (addCommitted_skel sCur sid r0 f)
          (fun eid r => invOf_addCommitted sCur sid r0 f eid r) ?_ ?_
        · intro eid r
          rw [comOf_addCommitted sCur sid r0 f sellerNow hsn eid r, hcontribNew eid r]
        · intro eid r
          rw [comOf_addCommitted sCur sid r0 f sellerNow hsn eid r,
            invOf_addCommitted sCur sid r0 f eid r]
          by_cases hc : eid = sid ∧ r = r0
          · rw [if_pos hc]
            obtain ⟨rfl, rfl⟩ := hc
            have hav : getAvailable sellerNow r0 =
                invOf sCur eid r0 - comOf sCur eid r0 := by
              unfold getAvailable
              rw [hcomOfCur, hinvOfCur]
            rw [hav] at hfle
            linarith
          · rw [if_neg hc, add_zero]
            exact hInv.comLe eid r
      have hIdx2 : ∀ i ∈ rest,
          i < (ordersCur.set idx newOrd).length ∧
          ((ordersCur.set idx newOrd).getD i defaultOrder).status = OrderStatus.pending ∧
          ((ordersCur.set idx newOrd).getD i defaultOrder).sellerEntityId = sid := by
        intro i hi
        obtain ⟨h1, h2p, h3p⟩ := hIdx i (List.mem_cons_of_mem idx hi)
        have hine : i ≠ idx := fun hc => hidxnot (by rw [← hc]; exact hi)
        rw [List.length_set, getD_set_ne' _ _ _ _ _ hine]
        exact ⟨h1, h2p, h3p⟩
      obtain ⟨hres, hlen, huntouched⟩ := ih _ _ res h3 hInv2 hIdx2 hNd2
      refine ⟨hres, by rw [hlen, List.length_set], ?_⟩
      intro j hj
      rw [huntouched j (fun hc => hj (List.mem_cons_of_mem idx hc)),
        getD_set_ne' _ _ _ _ _
          (fun hc => hj (by rw [hc]; exact List.mem_cons_self idx rest))]

theorem invOf_nn (s : GameState) (hA : InvPos s) (eid r : String) :
    0 ≤ invOf s eid r := by
  unfold invOf
  cases he : getEntity s eid with
  | none => exact le_refl 0
  | some e =>
    simp only [Option.map_some', Option.getD_some]
    exact hA e (getEntity_mem s eid e he).1 r

theorem declineFold_spec (s0 sCur : GameState) :
    ∀ (idxs : List ℕ) (ordersCur : List Order),
      AcceptInv s0 sCur ordersCur →
      (∀ i ∈ idxs, i < ordersCur.length ∧
        (ordersCur.getD i defaultOrder).status = OrderStatus.pending) →
      idxs.Nodup →
      AcceptInv s0 sCur (idxs.foldl (fun os idx =>
          os.set idx { os.getD idx defaultOrder with
            status := OrderStatus.declined }) ordersCur) ∧
      (idxs.foldl (fun os idx =>
          os.set idx { os.getD idx defaultOrder with
            status := OrderStatus.declined }) ordersCur).length =
        ordersCur.length ∧
      (∀ j : ℕ, j ∉ idxs →
        (idxs.foldl (fun os idx =>
          os.set idx { os.getD idx defaultOrder with
            status := OrderStatus.declined }) ordersCur).getD j defaultOrder =
          ordersCur.getD j defaultOrder) := by
  intro idxs
  induction idxs with
  | nil =>
    intro ordersCur hInv hIdx hNd
    exact ⟨hInv, rfl, fun j _ => rfl⟩
  | cons idx rest ih =>
    intro ordersCur hInv hIdx hNd
    rw [List.nodup_cons] at hNd
    obtain ⟨hidxnot, hNd2⟩ := hNd
    obtain ⟨hlt, hpend⟩ := hIdx idx (List.mem_cons_self idx rest)
    simp only [List.foldl_cons]
    set newOrdD := { ordersCur.getD idx defaultOrder with
      status := OrderStatus.declined } with hnewOrdD
    have hInv2 : AcceptInv s0 sCur (ordersCur.set idx newOrdD) := by
      apply acceptInv_set s0 sCur ordersCur hInv idx hlt hpend newOrdD rfl
        (Or.inr rfl) (fun hc => by rw [hnewOrdD] at hc; cases hc) sCur rfl
        (skel_refl sCur) (fun eid r => rfl) ?_ ?_
      · intro eid r
        have : contrib (ordersCur.set idx newOrdD) eid r idx = 0 := by
          apply contrib_not_accepted
          rw [getD_set_self_of_lt _ _ _ _ hlt, hnewOrdD]
          intro hc
          cases hc
        rw [this, add_zero]
      · exact hInv.comLe
    have hIdx2 : ∀ i ∈ rest,
        i < (ordersCur.set idx newOrdD).length ∧
        ((ordersCur.set idx newOrdD).getD i defaultOrder).status =
          OrderStatus.pending := by
      intro i hi
      obtain ⟨h1, h2p⟩ := hIdx i (List.mem_cons_of_mem idx hi)
      have hine : i ≠ idx := fun hc => hidxnot (by rw [← hc]; exact hi)
      rw [List.length_set, getD_set_ne' _ _ _ _ _ hine]
      exact ⟨h1, h2p⟩
    obtain ⟨hres, hlen, huntouched⟩ := ih _ hInv2 hIdx2 hNd2
    refine ⟨hres, by rw [hlen, List.length_set], ?_⟩
    intro j hj
    rw [huntouched j (fun hc => hj (List.mem_cons_of_mem idx hc)),
      getD_set_ne' _ _ _ _ _
        (fun hc => hj (by rw [hc]; exact List.mem_cons_self idx rest))]

theorem acceptSellerGroups_spec (cfg : GameConfig) (s0 : GameState) :
    ∀ (gs : List (String × List ℕ)) (sCur : GameState) (ordersCur : List Order)
      (res : GameState × List Order),
      acceptSellerGroups cfg gs (sCur, ordersCur) = some res →
      AcceptInv s0 sCur ordersCur →
      (∀ p ∈ gs, ∀ i ∈ p.2, i < ordersCur.length ∧
        (ordersCur.getD i defaultOrder).status = OrderStatus.pending ∧
        (ordersCur.getD i defaultOrder).sellerEntityId = p.1) →
      ((gs.map Prod.snd).join).Nodup →
      AcceptInv s0 res.1 res.2 ∧
      res.2.length = ordersCur.length ∧
      (∀ j : ℕ, j ∉ (gs.map Prod.snd).join →
        res.2.getD j defaultOrder = ordersCur.getD j defaultOrder) := by
  intro gs
  induction gs with
  | nil =>
    intro sCur ordersCur res h hInv hIdx hNd
    cases h
    exact ⟨hInv, rfl, fun j _ => rfl⟩
  | cons g rest ih =>
    obtain ⟨sid, idxs⟩ := g
    intro sCur ordersCur res h hInv hIdx hNd
    unfold acceptSellerGroups at h
    dsimp only at h
    rw [List.map_cons] at hNd
    simp only [List.flatten_cons, List.nodup_append] at hNd
    obtain ⟨hNdIdxs, hNdRest, hDisj⟩ := hNd
    have hIdxHead := hIdx (sid, idxs) (List.mem_cons_self _ _)
    cases hge : getEntity sCur sid with
    | none =>
      rw [hge] at h
      obtain ⟨hInv2, hlen2, hunt2⟩ := declineFold_spec s0 sCur idxs ordersCur hInv
        (fun i hi => ⟨(hIdxHead i hi).1, (hIdxHead i hi).2.1⟩) hNdIdxs
      have hIdx2 : ∀ p ∈ rest, ∀ i ∈ p.2,
          i < (idxs.foldl (fun os idx =>
            os.set idx { os.getD idx defaultOrder with
              status := OrderStatus.declined }) ordersCur).length ∧
          ((idxs.foldl (fun os idx =>
            os.set idx { os.getD idx defaultOrder with
              status := OrderStatus.declined }) ordersCur).getD i
            defaultOrder).status = OrderStatus.pending ∧
          ((idxs.foldl (fun os idx =>
            os.set idx { os.getD idx defaultOrder with
              status := OrderStatus.declined }) ordersCur).getD i
            defaultOrder).sellerEntityId = p.1 := by
        intro p hp i hi
        obtain ⟨h1, h2, h3⟩ := hIdx p (List.mem_cons_of_mem _ hp) i hi
        have hjoin : i ∈ (rest.map Prod.snd).join :=
          List.mem_join_of_mem (List.mem_map_of_mem Prod.snd hp) hi
        have hni : i ∉ idxs := fun hc => hDisj hc hjoin
        rw [hlen2, hunt2 i hni]
        exact ⟨h1, h2, h3⟩
      obtain ⟨hres, hlen3, hunt3⟩ := ih sCur _ res h hInv2 hIdx2
        (by simpa using hNdRest)
      refine ⟨hres, hlen3.trans hlen2, ?_⟩
      intro j hj
      rw [List.map_cons] at hj
      simp only [List.flatten_cons, List.mem_append] at hj
      push_neg at hj
      rw [hunt3 j (by simpa using hj.2), hunt2 j hj.1]
    | some seller =>
      rw [hge] at h
      obtain ⟨acc, hloop, hrest⟩ := thr_bind_some _ _ _ h
      obtain ⟨s1, o1⟩ := acc
      have hperm : (sortOrdersByPriority seller idxs ordersCur sCur cfg).Perm idxs :=
        stableSort_perm _ idxs
      have hIdxS : ∀ i ∈ sortOrdersByPriority seller idxs ordersCur sCur cfg,
          i < ordersCur.length ∧
          (ordersCur.getD i defaultOrder).status = OrderStatus.pending ∧
          (ordersCur.getD i defaultOrder).sellerEntityId = sid := by
        intro i hi
        exact hIdxHead i (hperm.mem_iff.mp hi)
      have hNdS : (sortOrdersByPriority seller idxs ordersCur sCur cfg).Nodup :=
        hperm.nodup_iff.mpr hNdIdxs
      obtain ⟨hInvL, hlenL, huntL⟩ :=
        acceptLoop_spec cfg sid seller s0 _ sCur ordersCur (s1, o1) hloop hInv
          hIdxS hNdS
      have hIdx2 : ∀ p ∈ rest, ∀ i ∈ p.2,
          i < o1.length ∧
          (o1.getD i defaultOrder).status = OrderStatus.pending ∧
          (o1.getD i defaultOrder).sellerEntityId = p.1 := by
        intro p hp i hi
        obtain ⟨h1, h2, h3⟩ := hIdx p (List.mem_cons_of_mem _ hp) i hi
        have hjoin : i ∈ (rest.map Prod.snd).join :=
          List.mem_join_of_mem (List.mem_map_of_mem Prod.snd hp) hi
        have hni : i ∉ idxs := fun hc => hDisj hc hjoin
        have hniS : i ∉ sortOrdersByPriority seller idxs ordersCur sCur cfg :=
          fun hc => hni (hperm.mem_iff.mp hc)
        rw [hlenL, huntL i hniS]
        exact ⟨h1, h2, h3⟩
      obtain ⟨hres, hlen3, hunt3⟩ := ih s1 o1 res hrest hInvL hIdx2
        (by simpa using hNdRest)
      refine ⟨hres, hlen3.trans hlenL, ?_⟩
      intro j hj
      rw [List.map_cons] at hj
      simp only [List.flatten_cons, List.mem_append] at hj
      push_neg at hj
      have hj1S : j ∉ sortOrdersByPriority seller idxs ordersCur sCur cfg :=
        fun hc => hj.1 (hperm.mem_iff.mp hc)
      rw [hunt3 j (by simpa using hj.2), huntL j hj1S]

theorem processOrderAcceptance_spec (cfg : GameConfig) (s s' : GameState)
    (h : processOrderAcceptance s cfg = some s')
    (hInvPos : InvPos s) (hComZero : ComZero s) (hNoAcc : NoAccepted s) :
    AcceptInv s s' s'.orders := by
  unfold processOrderAcceptance at h
  obtain ⟨acc, hacc, h2⟩ := thr_bind_some _ _ _ h
  have hs' : s' = { acc.1 with orders := acc.2 } := (Option.some_inj.mp h2).symm
  have hstat0 : ∀ i : ℕ,
      (s.orders.getD i defaultOrder).status ≠ OrderStatus.accepted := by
    intro i
    by_cases hlt : i < s.orders.length
    · exact hNoAcc _ (getD_mem_of_lt _ _ _ hlt)
    · rw [List.getD_eq_default _ _ (le_of_not_lt hlt)]
      intro hc
      cases hc
  have hInv0 : AcceptInv s s s.orders := by
    refine ⟨rfl, rfl, rfl, rfl, rfl, rfl, rfl, fun i => rfl, fun i => Or.inl rfl,
      ?_, ?_, ?_⟩
    · intro i hacc'
      exact absurd hacc' (hstat0 i)
    · intro eid r
      rw [comOf_zero_of_comZero s hComZero eid r]
      exact (sumContrib_zero s.orders eid r _
        (fun i _ => contrib_not_accepted _ _ _ _ (hstat0 i))).symm
    · intro eid r
      rw [comOf_zero_of_comZero s hComZero eid r]
      exact invOf_nn s hInvPos eid r
  obtain ⟨hGroups, hPerm⟩ := ordersBySeller_spec s.orders
  have hNdJ : (((ordersBySeller s.orders).map Prod.snd).join).Nodup :=
    hPerm.nodup_iff.mpr (pendingIndices_nodup s.orders)
  obtain ⟨hResInv, _, _⟩ :=
    acceptSellerGroups_spec cfg s (ordersBySeller s.orders) s s.orders acc hacc
      hInv0
      (fun p hp i hi =>
        ⟨(hGroups p hp i hi).1.1, (hGroups p hp i hi).1.2, (hGroups p hp i hi).2⟩)
      hNdJ
  rw [hs']
  exact ⟨hResInv.entsNoCom, hResInv.dels, hResInv.lines, hResInv.counter,
    hResInv.tickEq, hResInv.contractsEq, hResInv.olen, hResInv.cores,
    hResInv.stats, hResInv.fulfilledPos, hResInv.comSum, hResInv.comLe⟩

-- Departure phase helpers

theorem sumContrib_nonneg (orders : List Order) (eid r : String) (idxs : List ℕ)
    (h : ∀ i : ℕ, (orders.getD i defaultOrder).status = OrderStatus.accepted →
      0 < (orders.getD i defaultOrder).fulfilledQuantity) :
    0 ≤ sumContrib orders eid r idxs := by
  unfold sumContrib
  apply List.sum_nonneg
  intro x hx
  rw [List.mem_map] at hx
  obtain ⟨i, hi, rfl⟩ := hx
  unfold contrib
  dsimp only
  by_cases hc : (orders.getD i defaultOrder).status = OrderStatus.accepted ∧
      (orders.getD i defaultOrder).sellerEntityId = eid ∧
      (orders.getD i defaultOrder).resource = r
  · rw [if_pos hc]
    exact le_of_lt (h i hc.1)
  · rw [if_neg hc]

theorem getEntity_self (s : GameState) (hN : IdsNodup s) (e : Entity)
    (he : e ∈ s.entities) : getEntity s e.id = some e :=
  find?_id_of_mem s.entities hN e he

theorem comZero_of_pointwise (s : GameState) (hN : IdsNodup s)
    (h : ∀ eid r : String, comOf s eid r = 0) : ComZero s := by
  intro e he r
  have h2 := h e.id r
  unfold comOf at h2
  rw [getEntity_self s hN e he] at h2
  simpa using h2

theorem invPos_of_pointwise (s : GameState) (hN : IdsNodup s)
    (h : ∀ eid r : String, 0 ≤ invOf s eid r) : InvPos s := by
  intro e he r
  have h2 := h e.id r
  unfold invOf at h2
  rw [getEntity_self s hN e he] at h2
  simpa using h2

theorem exists_getD_of_mem {α : Type} (l : List α) (d : α) (x : α) (h : x ∈ l) :
    ∃ i : ℕ, i < l.length ∧ l.getD i d = x := by
  obtain ⟨i, hi, hx⟩ := List.mem_iff_getElem.mp h
  exact ⟨i, hi, by rw [List.getD_eq_getElem l d hi]; exact hx⟩

theorem removeFromInventory_succeeds (s : GameState) (sid r : String) (f : ℚ)
    (seller : Entity) (hs : getEntity s sid = some seller)
    (hle : f ≤ smGet seller.inventory r 0) :
    removeFromInventory s sid r f =
      some (updateEntity s sid (fun e => { e with
        inventory := smSet e.inventory r (smGet seller.inventory r 0 - f) })) := by
  unfold removeFromInventory
  rw [hs]
  dsimp only
  rw [if_neg (not_lt.mpr hle)]

theorem invOf_invUpdate_self (s : GameState) (sid r : String) (v : ℚ)
    (seller : Entity) (hs : getEntity s sid = some seller) :
    invOf (updateEntity s sid (fun e =>
      { e with inventory := smSet e.inventory r v })) sid r = v := by
  unfold invOf
  rw [getEntity_updateEntity_self s sid
    (fun e => { e with inventory := smSet e.inventory r v }) (fun e => rfl) seller hs]
  simp only [Option.map_some', Option.getD_some]
  exact smGet_smSet_self _ _ _ _

theorem invOf_invUpdate_other (s : GameState) (sid r : String) (v : ℚ)
    (eid r2 : String) (hne : ¬ (eid = sid ∧ r2 = r)) :
    invOf (updateEntity s sid (fun e =>
      { e with inventory := smSet e.inventory r v })) eid r2 = invOf s eid r2 := by
  by_cases heid : eid = sid
  · subst heid
    have hr2 : r2 ≠ r := fun hc => hne ⟨rfl, hc⟩
    unfold invOf
    cases hs : getEntity s eid with
    | none =>
      rw [getEntity_updateEntity s eid eid
        (fun e => { e with inventory := smSet e.inventory r v }) (fun e => rfl), hs]
      rfl
    | some seller =>
      rw [getEntity_updateEntity_self s eid
        (fun e => { e with inventory := smSet e.inventory r v }) (fun e => rfl)
        seller hs]
      simp only [Option.map_some', Option.getD_some]
      exact smGet_smSet_other _ _ _ hr2 _ _
  · unfold invOf
    rw [getEntity_updateEntity_other s sid eid heid
      (fun e => { e with inventory := smSet e.inventory r v }) (fun e => rfl)]

theorem comOf_invUpdate (s : GameState) (sid r : String) (v : ℚ)
    (eid r2 : String) :
    comOf (updateEntity s sid (fun e =>
      { e with inventory := smSet e.inventory r v })) eid r2 = comOf s eid r2 := by
  unfold comOf
  rw [getEntity_updateEntity s sid eid
    (fun e => { e with inventory := smSet e.inventory r v }) (fun e => rfl)]
  cases hs : getEntity s eid with
  | none => rfl
  | some e =>
    simp only [Option.map_some', Option.getD_some]
    by_cases h : (e.id == sid) = true
    · rw [if_pos h]
    · rw [if_neg h]

theorem comOf_comUpdate_self (s : GameState) (sid : String) (C : StrMap ℚ)
    (seller : Entity) (hs : getEntity s sid = some seller) (r2 : String) :
    comOf (updateEntity s sid (fun e => { e with committed := C })) sid r2 =
      smGet C r2 0 := by
  unfold comOf
  rw [getEntity_updateEntity_self s sid (fun e => { e with committed := C })
    (fun e => rfl) seller hs]
  simp only [Option.map_some', Option.getD_some]

theorem comOf_comUpdate_other (s : GameState) (sid : String) (C : StrMap ℚ)
    (eid : String) (hne : eid ≠ sid) (r2 : String) :
    comOf (updateEntity s sid (fun e => { e with committed := C })) eid r2 =
      comOf s eid r2 := by
  unfold comOf
  rw [getEntity_updateEntity_other s sid eid hne
    (fun e => { e with committed := C }) (fun e => rfl)]

theorem invOf_comUpdate (s : GameState) (sid : String) (C : StrMap ℚ)
    (eid r2 : String) :
    invOf (updateEntity s sid (fun e => { e with committed := C })) eid r2 =
      invOf s eid r2 := by
  unfold invOf
  rw [getEntity_updateEntity s sid eid
    (fun e => { e with committed := C }) (fun e => rfl)]
  cases hs : getEntity s eid with
  | none => rfl
  | some e =>
    simp only [Option.map_some', Option.getD_some]
    by_cases h : (e.id == sid) = true
    · rw [if_pos h]
    · rw [if_neg h]

theorem comOf_removeCommitted_self (s : GameState) (sid r : String) (f : ℚ)
    (seller : Entity) (hs : getEntity s sid = some seller)
    (hle : f ≤ smGet seller.committed r 0) :
    comOf (removeCommitted s sid r f) sid r = smGet seller.committed r 0 - f := by
  unfold removeCommitted
  rw [hs]
  dsimp only
  rw [comOf_comUpdate_self s sid _ seller hs r]
  by_cases h0 : max 0 (smGet seller.committed r 0 - f) = 0
  · rw [if_pos h0, smGet_smErase_self]
    have h1 : smGet seller.committed r 0 - f ≤
        max 0 (smGet seller.committed r 0 - f) := le_max_right _ _
    rw [h0] at h1
    linarith
  · rw [if_neg h0, smGet_smSet_self]
    exact max_eq_right (by linarith)

theorem comOf_removeCommitted_other (s : GameState) (sid r : String) (f : ℚ)
    (eid r2 : String) (hne : ¬ (eid = sid ∧ r2 = r)) :
    comOf (removeCommitted s sid r f) eid r2 = comOf s eid r2 := by
  unfold removeCommitted
  cases hs : getEntity s sid with
  | none => rfl
  | some seller =>
    dsimp only
    by_cases heid : eid = sid
    · subst heid
      have hr2 : r2 ≠ r := fun hc => hne ⟨rfl, hc⟩
      rw [comOf_comUpdate_self s eid _ seller hs r2]
      unfold comOf
      rw [hs]
      simp only [Option.map_some', Option.getD_some]
      by_cases h0 : max 0 (smGet seller.committed r 0 - f) = 0
      · rw [if_pos h0, smGet_smErase_other _ _ _ hr2, smGet_smSet_other _ _ _ hr2]
      · rw [if_neg h0, smGet_smSet_other _ _ _ hr2]
    · rw [comOf_comUpdate_other s sid _ eid heid r2]

theorem invOf_removeCommitted (s : GameState) (sid r : String) (f : ℚ)
    (eid r2 : String) :
    invOf (removeCommitted s sid r f) eid r2 = invOf s eid r2 := by
  unfold removeCommitted
  cases hs : getEntity s sid with
  | none => rfl
  | some seller =>
    dsimp only
    rw [invOf_comUpdate s sid _ eid r2]

theorem removeCommitted_ids (s : GameState) (sid r : String) (f : ℚ) :
    SameEntityIds s (removeCommitted s sid r f) := by
  unfold removeCommitted
  cases hs : getEntity s sid with
  | none => exact sameEntityIds_refl s
  | some seller => exact sameEntityIds_updateEntity s sid _ (fun e => rfl)

theorem removeCommitted_skel (s : GameState) (sid r : String) (f : ℚ) :
    SameSkel s (removeCommitted s sid r f) := by
  unfold removeCommitted
  cases hs : getEntity s sid with
  | none => exact skel_refl s
  | some seller => exact skel_updateEntity _ _ _

theorem departLoop_spec (cfg : GameConfig) (sAcc : GameState)
    (hParties : Parties sAcc) :
    ∀ (idxs : List ℕ) (sCur : GameState) (ordersCur : List Order)
      (dels : List Delivery) (res : GameState × List Order × List Delivery),
      departLoop cfg idxs (sCur, ordersCur, dels) = some res →
      DepInv sAcc idxs sCur ordersCur dels →
      (∀ j ∈ idxs, j < ordersCur.length) →
      idxs.Nodup →
      DepInv sAcc [] res.1 res.2.1 res.2.2 := by
  intro idxs
  induction idxs with
  | nil =>
    intro sCur ordersCur dels res h hInv hIdx hNd
    cases h
    exact hInv
  | cons i rest ih =>
    intro sCur ordersCur dels res h hInv hIdx hNd
    unfold departLoop at h
    dsimp only at h
    rw [List.nodup_cons] at hNd
    obtain ⟨hinot, hNd2⟩ := hNd
    have hlt : i < ordersCur.length := hIdx i (List.mem_cons_self i rest)
    have hIdx2 : ∀ j ∈ rest, j < ordersCur.length :=
      fun j hj => hIdx j (List.mem_cons_of_mem i hj)
    by_cases hacc : (ordersCur.getD i defaultOrder).status = OrderStatus.accepted
    · have hfpos : 0 < (ordersCur.getD i defaultOrder).fulfilledQuantity :=
        hInv.fulPos i hacc
      have hSAccMem : sAcc.orders.getD i defaultOrder ∈ sAcc.orders :=
        getD_mem_of_lt _ _ _ (by rw [← hInv.olen]; exact hlt)
      obtain ⟨hbIn, hsIn⟩ := hParties _ hSAccMem
      have hbuyEq : (ordersCur.getD i defaultOrder).buyerEntityId =
          (sAcc.orders.getD i defaultOrder).buyerEntityId :=
        congrArg (fun t => t.2.1) (hInv.cores i)
      have hselEq : (ordersCur.getD i defaultOrder).sellerEntityId =
          (sAcc.orders.getD i defaultOrder).sellerEntityId :=
        congrArg (fun t => t.2.2.1) (hInv.cores i)
      have hsInCur : EntityIn sCur (ordersCur.getD i defaultOrder).sellerEntityId := by
        rw [hselEq]
        exact entityIn_of_sameIds sAcc sCur hInv.ids _ hsIn
      have hbInCur : EntityIn sCur (ordersCur.getD i defaultOrder).buyerEntityId := by
        rw [hbuyEq]
        exact entityIn_of_sameIds sAcc sCur hInv.ids _ hbIn
      obtain ⟨seller, hsel⟩ := getEntity_isSome_of_entityIn sCur _ hsInCur
      obtain ⟨buyer, hbuy⟩ := getEntity_isSome_of_entityIn sCur _ hbInCur
      have hselid : seller.id = (ordersCur.getD i defaultOrder).sellerEntityId :=
        (getEntity_mem _ _ _ hsel).2
      set sid := (ordersCur.getD i defaultOrder).sellerEntityId with hsid
      set r0 := (ordersCur.getD i defaultOrder).resource with hr0
      set f := (ordersCur.getD i defaultOrder).fulfilledQuantity with hf
      rw [if_neg (not_not_intro hacc), hsel, hbuy] at h
      dsimp only at h
      rw [if_neg (not_le.mpr hfpos), hselid] at h
      have hcomCur : comOf sCur sid r0 = smGet seller.committed r0 0 := by
        unfold comOf
        rw [hsel]
        rfl
      have hinvCur : invOf sCur sid r0 = smGet seller.inventory r0 0 := by
        unfold invOf
        rw [hsel]
        rfl
      have hcontrib_i : ∀ eid r2 : String, contrib ordersCur eid r2 i =
          if eid = sid ∧ r2 = r0 then f else 0 := by
        intro eid r2
        unfold contrib
        dsimp only
        by_cases hc : eid = sid ∧ r2 = r0
        · rw [if_pos ⟨hacc, hc.1.symm, hc.2.symm⟩, if_pos hc]
        · rw [if_neg ?_, if_neg hc]
          rintro ⟨_, hs2, hr2⟩
          exact hc ⟨hs2.symm, hr2.symm⟩
      have hrest_nonneg : ∀ eid r2 : String,
          0 ≤ sumContrib ordersCur eid r2 rest :=
        fun eid r2 => sumContrib_nonneg _ _ _ _ hInv.fulPos
      have hcom_split : ∀ eid r2 : String, comOf sCur eid r2 =
          contrib ordersCur eid r2 i + sumContrib ordersCur eid r2 rest := by
        intro eid r2
        rw [hInv.comSum eid r2, sumContrib_cons]
      have hf_le_com : f ≤ comOf sCur sid r0 := by
        rw [hcom_split, hcontrib_i, if_pos ⟨rfl, rfl⟩]
        linarith [hrest_nonneg sid r0]
      have hf_le_inv : f ≤ smGet seller.inventory r0 0 := by
        rw [← hinvCur]
        exact le_trans hf_le_com (hInv.comLe _ _)
      rw [removeFromInventory_succeeds sCur sid r0 f seller hsel hf_le_inv] at h
      dsimp only at h
      set sInv := updateEntity sCur sid (fun e => { e with
        inventory := smSet e.inventory r0 (smGet seller.inventory r0 0 - f) }) with hsInv
      set sRC := removeCommitted sInv sid r0 f with hsRC
      set newOrd := { ordersCur.getD i defaultOrder with
        status := OrderStatus.in_transit } with hnewOrd
      obtain ⟨tr, htr, h2⟩ := thr_bind_some _ _ _ h
      have hselInv : getEntity sInv sid = some { seller with
          inventory := smSet seller.inventory r0 (smGet seller.inventory r0 0 - f) } := by
        rw [hsInv]
        exact getEntity_updateEntity_self sCur sid (fun e => { e with
          inventory := smSet e.inventory r0 (smGet seller.inventory r0 0 - f) })
          (fun e => rfl) seller hsel
      have hcomRC_self : comOf sRC sid r0 = comOf sCur sid r0 - f := by
        have h1 := comOf_removeCommitted_self sInv sid r0 f _ hselInv
          (by show f ≤ smGet seller.committed r0 0; rw [← hcomCur]; exact hf_le_com)
        rw [hsRC, h1]
        show smGet seller.committed r0 0 - f = comOf sCur sid r0 - f
        rw [hcomCur]
      have hcomRC_other : ∀ eid r2 : String, ¬ (eid = sid ∧ r2 = r0) →
          comOf sRC eid r2 = comOf sCur eid r2 := by
        intro eid r2 hne
        rw [hsRC, comOf_removeCommitted_other sInv sid r0 f eid r2 hne, hsInv,
          comOf_invUpdate sCur sid r0 _ eid r2]
      have hinvRC_self : invOf sRC sid r0 = smGet seller.inventory r0 0 - f := by
        rw [hsRC, invOf_removeCommitted sInv sid r0 f sid r0, hsInv]
        exact invOf_invUpdate_self sCur sid r0 _ seller hsel
      have hinvRC_other : ∀ eid r2 : String, ¬ (eid = sid ∧ r2 = r0) →
          invOf sRC eid r2 = invOf sCur eid r2 := by
        intro eid r2 hne
        rw [hsRC, invOf_removeCommitted sInv sid r0 f eid r2, hsInv]
        exact invOf_invUpdate_other sCur sid r0 _ eid r2 hne
      have hskelI : SameSkel sCur sInv := by
        rw [hsInv]
        exact skel_updateEntity _ _ _
      have hskelR : SameSkel sInv sRC := by
        rw [hsRC]
        exact removeCommitted_skel _ _ _ _
      obtain ⟨hoI, hdI, hlI, hcI, htI, hctI⟩ := hskelI
      obtain ⟨hoR, hdR, hlR, hcR, htR, hctR⟩ := hskelR
      have hidsI : SameEntityIds sCur sInv := by
        rw [hsInv]
        exact sameEntityIds_updateEntity sCur sid (fun e => { e with
          inventory := smSet e.inventory r0 (smGet seller.inventory r0 0 - f) })
          (fun e => rfl)
      have hidsR : SameEntityIds sInv sRC := by
        rw [hsRC]
        exact removeCommitted_ids _ _ _ _
      refine ih _ _ _ res h2 ?_ ?_ hNd2
      · refine ⟨?_, ?_, ?_, ?_, ?_, ?_, ?_, ?_, ?_, ?_, ?_, ?_, ?_, ?_⟩
        · exact sameEntityIds_trans _ _ _
            (sameEntityIds_trans _ _ _ hInv.ids hidsI) hidsR
        · show sRC.processLines = sAcc.processLines
          rw [hlR, hlI, hInv.lines]
        · show sRC.tick = sAcc.tick
          rw [htR, htI, hInv.tickEq]
        · show sRC.contracts = sAcc.contracts
          rw [hctR, hctI, hInv.contractsEq]
        · show sAcc.idCounter ≤ sRC.idCounter + 1
          rw [hcR, hcI]
          have := hInv.counter
          omega
        · rw [List.length_set]
          exact hInv.olen
        · intro j
          exact (set_cores ordersCur i newOrd hlt rfl j).trans
            (hInv.cores j)
        · intro j
          by_cases hji : j = i
          · subst hji
            rw [getD_set_self_of_lt _ _ _ _ hlt]
            have hsaccacc : (sAcc.orders.getD j defaultOrder).status =
                OrderStatus.accepted := by
              rcases hInv.stats j with h1 | ⟨h1, _⟩
              · rw [← h1]
                exact hacc
              · exact h1
            exact Or.inr ⟨hsaccacc, by rw [hnewOrd]⟩
          · rw [getD_set_ne' _ _ _ _ _ hji]
            exact hInv.stats j
        · intro j hj
          by_cases hji : j = i
          · subst hji
            rw [getD_set_self_of_lt _ _ _ _ hlt, hnewOrd] at hj
            cases hj
          · rw [getD_set_ne' _ _ _ _ _ hji] at hj
            rcases List.mem_cons.mp (hInv.accRem j hj) with hji2 | hjr
            · exact absurd hji2 hji
            · exact hjr
        · intro j hj
          by_cases hji : j = i
          · subst hji
            rw [getD_set_self_of_lt _ _ _ _ hlt, hnewOrd] at hj
            cases hj
          · rw [getD_set_ne' _ _ _ _ _ hji] at hj ⊢
            exact hInv.fulPos j hj
        · intro eid r2
          have hunt : sumContrib (ordersCur.set i newOrd) eid r2 rest =
              sumContrib ordersCur eid r2 rest :=
            sumContrib_set_untouched _ _ _ _ _ _ hinot
          show comOf sRC eid r2 = _
          rw [hunt]
          by_cases hc : eid = sid ∧ r2 = r0
          · obtain ⟨rfl, rfl⟩ := hc
            rw [hcomRC_self, hcom_split, hcontrib_i, if_pos ⟨rfl, rfl⟩]
            ring
          · rw [hcomRC_other eid r2 hc, hcom_split, hcontrib_i, if_neg hc]
            ring
        · intro eid r2
          show comOf sRC eid r2 ≤ invOf sRC eid r2
          by_cases hc : eid = sid ∧ r2 = r0
          · obtain ⟨rfl, rfl⟩ := hc
            rw [hcomRC_self, hinvRC_self, ← hinvCur]
            linarith [hInv.comLe sid r0]
          · rw [hcomRC_other eid r2 hc, hinvRC_other eid r2 hc]
            exact hInv.comLe eid r2
        · intro eid r2
          show 0 ≤ invOf sRC eid r2
          by_cases hc : eid = sid ∧ r2 = r0
          · obtain ⟨rfl, rfl⟩ := hc
            rw [hinvRC_self]
            linarith
          · rw [hinvRC_other eid r2 hc]
            exact hInv.invPos eid r2
        · obtain ⟨extd, hdels, hprops⟩ := hInv.delsExt
          refine ⟨extd ++
            [{ id := nextIdStr "delivery" (sRC.idCounter + 1)
               orderId := (ordersCur.getD i defaultOrder).id
               fromEntityId := sid
               toEntityId := (ordersCur.getD i defaultOrder).buyerEntityId
               resource := r0
               quantity := f
               ticksRemaining := tr.totalTime
               route := tr.route
               pricePerUnit := (ordersCur.getD i defaultOrder).pricePerUnit }], ?_, ?_⟩
          · rw [hdels, List.append_assoc]
          · intro d hd
            rcases List.mem_append.mp hd with hdo | hdn
            · obtain ⟨hq, i2, hl2, hn2, hid2, hst2⟩ := hprops d hdo
              have hne2 : i2 ≠ i := fun hc =>
                hn2 (by rw [hc]; exact List.mem_cons_self i rest)
              refine ⟨hq, i2, by rw [List.length_set]; exact hl2,
                fun hc => hn2 (List.mem_cons_of_mem i hc), ?_, ?_⟩
              · rw [getD_set_ne' _ _ _ _ _ hne2]
                exact hid2
              · rw [getD_set_ne' _ _ _ _ _ hne2]
                exact hst2
            · rw [List.mem_singleton] at hdn
              subst hdn
              refine ⟨le_of_lt hfpos, i, by rw [List.length_set]; exact hlt,
                hinot, ?_, ?_⟩
              · rw [getD_set_self_of_lt _ _ _ _ hlt, hnewOrd]
              · rw [getD_set_self_of_lt _ _ _ _ hlt, hnewOrd]
      · intro j hj
        rw [List.length_set]
        exact hIdx2 j hj
    · rw [if_pos hacc] at h
      refine ih sCur ordersCur dels res h ?_ hIdx2 hNd2
      refine ⟨hInv.ids, hInv.lines, hInv.tickEq, hInv.contractsEq, hInv.counter,
        hInv.olen, hInv.cores, hInv.stats, ?_, hInv.fulPos, ?_, hInv.comLe,
        hInv.invPos, ?_⟩
      · intro j hj
        rcases List.mem_cons.mp (hInv.accRem j hj) with hji | hjr
        · exact absurd (hji ▸ hj) hacc
        · exact hjr
      · intro eid r
        rw [hInv.comSum eid r, sumContrib_cons,
          contrib_not_accepted _ _ _ _ hacc, zero_add]
      · obtain ⟨extd, hdels, hprops⟩ := hInv.delsExt
        refine ⟨extd, hdels, ?_⟩
        intro d hd
        obtain ⟨hq, i2, hl2, hn2, hid2, hst2⟩ := hprops d hd
        exact ⟨hq, i2, hl2, fun hc => hn2 (List.mem_cons_of_mem i hc), hid2, hst2⟩

theorem processDepartures_spec (cfg : GameConfig) (sAcc : GameState)
    (s' : GameState) (h : processDepartures sAcc cfg = some s')
    (hParties : Parties sAcc)
    (hcomSum : ∀ eid r : String, comOf sAcc eid r =
      sumContrib sAcc.orders eid r (List.range sAcc.orders.length))
    (hcomLe : ∀ eid r : String, comOf sAcc eid r ≤ invOf sAcc eid r)
    (hinvPos : ∀ eid r : String, 0 ≤ invOf sAcc eid r)
    (hfulPos : ∀ i : ℕ, (sAcc.orders.getD i defaultOrder).status =
      OrderStatus.accepted →
      0 < (sAcc.orders.getD i defaultOrder).fulfilledQuantity) :
    DepInv sAcc [] s' s'.orders s'.deliveries := by
  unfold processDepartures at h
  obtain ⟨acc, hacc, h2⟩ := thr_bind_some _ _ _ h
  have hs' : s' = { acc.1 with orders := acc.2.1, deliveries := acc.2.2 } :=
    (Option.some_inj.mp h2).symm
  have hInv0 : DepInv sAcc (List.range sAcc.orders.length) sAcc sAcc.orders
      sAcc.deliveries := by
    refine ⟨rfl, rfl, rfl, rfl, le_refl _, rfl, fun i => rfl, fun i => Or.inl rfl,
      ?_, hfulPos, hcomSum, hcomLe, hinvPos, [], (List.append_nil _).symm,
      fun d hd => absurd hd (List.not_mem_nil d)⟩
    intro i hi
    by_cases hlt : i < sAcc.orders.length
    · exact List.mem_range.mpr hlt
    · rw [List.getD_eq_default _ _ (le_of_not_lt hlt)] at hi
      cases hi
  have hres := departLoop_spec cfg sAcc hParties (List.range sAcc.orders.length)
    sAcc sAcc.orders sAcc.deliveries acc hacc hInv0
    (fun j hj => List.mem_range.mp hj) (List.nodup_range _)
  rw [hs']
  exact ⟨hres.ids, hres.lines, hres.tickEq, hres.contractsEq, hres.counter,
    hres.olen, hres.cores, hres.stats, hres.accRem, hres.fulPos, hres.comSum,
    hres.comLe, hres.invPos, hres.delsExt⟩

theorem map_id_of_cores (l1 l2 : List Order) (hlen : l1.length = l2.length)
    (h : ∀ i : ℕ, orderCore (l1.getD i defaultOrder) =
      orderCore (l2.getD i defaultOrder)) :
    l1.map (fun o => o.id) = l2.map (fun o => o.id) := by
  apply List.ext_getElem
  · rw [List.length_map, List.length_map, hlen]
  · intro i h1 h2
    rw [List.length_map] at h1 h2
    rw [List.getElem_map, List.getElem_map]
    have h3 := congrArg (fun t => t.1) (h i)
    rw [List.getD_eq_getElem l1 defaultOrder h1,
      List.getD_eq_getElem l2 defaultOrder h2] at h3
    exact h3

theorem getD_id_inj (l : List Order) (hN : (l.map (fun o => o.id)).Nodup)
    (i j : ℕ) (hi : i < l.length) (hj : j < l.length)
    (h : (l.getD i defaultOrder).id = (l.getD j defaultOrder).id) : i = j := by
  rw [List.getD_eq_getElem l defaultOrder hi,
    List.getD_eq_getElem l defaultOrder hj] at h
  have hinj := List.nodup_iff_injective_get.mp hN
  have h2 : (l.map (fun o => o.id)).get ⟨i, by simpa using hi⟩ =
      (l.map (fun o => o.id)).get ⟨j, by simpa using hj⟩ := by
    simp only [List.get_eq_getElem, List.getElem_map]
    exact h
  have h3 := hinj h2
  simpa using h3

theorem ordersFresh_ids_nodup (s : GameState) (hF : OrdersFresh s) :
    (s.orders.map (fun o => o.id)).Nodup := by
  obtain ⟨ks, hmap, hchain, _⟩ := hF
  rw [hmap]
  apply List.Nodup.map
  · intro a b hab
    exact nextIdStr_inj "order" a b hab
  · exact List.Pairwise.imp (fun hlt => Nat.ne_of_lt hlt)
      (List.chain'_iff_pairwise.mp hchain)

theorem acceptDepart_inv (cfg : GameConfig) (s9 s10 s11 : GameState)
    (hAccEq : processOrderAcceptance s9 cfg = some s10)
    (hDepEq : processDepartures s10 cfg = some s11)
    (hI : ReachInv s9) : ReachInv s11 ∧ StatusOk s9 s11 := by
  have hAcc : AcceptInv s9 s10 s10.orders :=
    processOrderAcceptance_spec cfg s9 s10 hAccEq hI.invPos hI.comZero
      hI.noAccepted
  have hIds910 : SameEntityIds s9 s10 :=
    sameEntityIds_of_noCom_eq s9 s10 hAcc.entsNoCom
  have hinv10 : ∀ eid r : String, 0 ≤ invOf s10 eid r := by
    intro eid r
    rw [invOf_of_noCom_eq s10 s9 hAcc.entsNoCom eid r]
    exact invOf_nn s9 hI.invPos eid r
  have hPart10 : Parties s10 := by
    intro o ho
    obtain ⟨i, hilt, hieq⟩ := exists_getD_of_mem s10.orders defaultOrder o ho
    have hcores := hAcc.cores i
    have hilt9 : i < s9.orders.length := by
      rw [← hAcc.olen]
      exact hilt
    have hmem9 : s9.orders.getD i defaultOrder ∈ s9.orders :=
      getD_mem_of_lt _ _ _ hilt9
    obtain ⟨hb, hs⟩ := hI.parties _ hmem9
    have hbeq : o.buyerEntityId = (s9.orders.getD i defaultOrder).buyerEntityId := by
      rw [← hieq]
      exact congrArg (fun t => t.2.1) hcores
    have hseq : o.sellerEntityId = (s9.orders.getD i defaultOrder).sellerEntityId := by
      rw [← hieq]
      exact congrArg (fun t => t.2.2.1) hcores
    rw [hbeq, hseq]
    exact ⟨entityIn_of_sameIds s9 s10 hIds910 _ hb,
      entityIn_of_sameIds s9 s10 hIds910 _ hs⟩
  have hDep : DepInv s10 [] s11 s11.orders s11.deliveries :=
    processDepartures_spec cfg s10 s11 hDepEq hPart10 hAcc.comSum hAcc.comLe
      hinv10 hAcc.fulfilledPos
  have hIds911 : SameEntityIds s9 s11 :=
    sameEntityIds_trans _ _ _ hIds910 hDep.ids
  have hNodup11 : IdsNodup s11 := idsNodup_of_sameIds s9 s11 hIds911 hI.idsNodup
  have hc10 : s10.idCounter = s9.idCounter := hAcc.counter
  have hc11 : s10.idCounter ≤ s11.idCounter := hDep.counter
  have holen : s11.orders.length = s9.orders.length := by
    rw [hDep.olen, hAcc.olen]
  have hcores : ∀ i : ℕ, orderCore (s11.orders.getD i defaultOrder) =
      orderCore (s9.orders.getD i defaultOrder) :=
    fun i => (hDep.cores i).trans (hAcc.cores i)
  have hidmap : s11.orders.map (fun o => o.id) = s9.orders.map (fun o => o.id) :=
    map_id_of_cores _ _ holen hcores
  have hFresh11 : OrdersFresh s11 := by
    obtain ⟨ks, hmap, hchain, hbound⟩ := hI.ordersFresh
    refine ⟨ks, by rw [hidmap, hmap], hchain, ?_⟩
    intro k hk
    have := hbound k hk
    omega
  have hNodupIds11 : (s11.orders.map (fun o => o.id)).Nodup :=
    ordersFresh_ids_nodup s11 hFresh11
  have hstatle : ∀ i : ℕ, StatusLe ((s9.orders.getD i defaultOrder).status)
      ((s11.orders.getD i defaultOrder).status) := by
    intro i
    have hle1 : StatusLe ((s9.orders.getD i defaultOrder).status)
        ((s10.orders.getD i defaultOrder).status) := by
      rcases hAcc.stats i with h1 | ⟨h1, _⟩
      · rw [h1]
        exact statusLe_refl _
      · rw [h1]
        cases (s10.orders.getD i defaultOrder).status <;> trivial
    have hle2 : StatusLe ((s10.orders.getD i defaultOrder).status)
        ((s11.orders.getD i defaultOrder).status) := by
      rcases hDep.stats i with h2 | ⟨h2, h3⟩
      · rw [h2]
        exact statusLe_refl _
      · rw [h2, h3]
        trivial
    exact statusLe_trans _ _ _ hle1 hle2
  have hstatkeep : ∀ i : ℕ,
      (s9.orders.getD i defaultOrder).status ≠ OrderStatus.pending →
      (s9.orders.getD i defaultOrder).status ≠ OrderStatus.accepted →
      (s11.orders.getD i defaultOrder).status =
        (s9.orders.getD i defaultOrder).status := by
    intro i hnp hna
    have h10 : (s10.orders.getD i defaultOrder).status =
        (s9.orders.getD i defaultOrder).status := by
      rcases hAcc.stats i with h1 | ⟨h1, _⟩
      · exact h1
      · exact absurd h1 hnp
    rcases hDep.stats i with h2 | ⟨h2, _⟩
    · rw [h2, h10]
    · rw [h10] at h2
      exact absurd h2 hna
  obtain ⟨extd, hdels, hprops⟩ := hDep.delsExt
  have hdels9 : s11.deliveries = s9.deliveries ++ extd := by
    rw [hdels, hAcc.dels]
  refine ⟨⟨invPos_of_pointwise s11 hNodup11 hDep.invPos,
    comZero_of_pointwise s11 hNodup11 (fun eid r => by rw [hDep.comSum eid r]; rfl),
    hNodup11, ?_, ?_, ?_, hFresh11, ?_, ?_, ?_⟩, fun i => hstatle i⟩
  · intro d hd
    rw [hdels9] at hd
    rcases List.mem_append.mp hd with hm | hm
    · exact hI.delsPos d hm
    · exact (hprops d hm).1
  · intro l hl
    rw [hDep.lines, hAcc.lines] at hl
    exact hI.linesPos l hl
  · intro o ho hc
    obtain ⟨i, hilt, hieq⟩ := exists_getD_of_mem s11.orders defaultOrder o ho
    exact absurd (hDep.accRem i (by rw [hieq]; exact hc)) (List.not_mem_nil i)
  · intro d hd
    rw [hdels9] at hd
    rcases List.mem_append.mp hd with hm | hm
    · obtain ⟨k, hk, hkb⟩ := hI.delsFresh d hm
      exact ⟨k, hk, by omega⟩
    · obtain ⟨hq, i, hilt, _, hdid, hst⟩ := hprops d hm
      have hmem : (s11.orders.getD i defaultOrder).id ∈
          s11.orders.map (fun o => o.id) :=
        List.mem_map_of_mem _ (getD_mem_of_lt _ _ _ hilt)
      obtain ⟨ks, hmap, hchain, hbound⟩ := hI.ordersFresh
      rw [hidmap, hmap] at hmem
      obtain ⟨k, hkm, hkeq⟩ := List.mem_map.mp hmem
      refine ⟨k, by rw [hdid, ← hkeq], ?_⟩
      have := hbound k hkm
      omega
  · intro d hd o ho hid
    obtain ⟨j, hjlt, hjeq⟩ := exists_getD_of_mem s11.orders defaultOrder o ho
    rw [hdels9] at hd
    rcases List.mem_append.mp hd with hm | hm
    · have hjlt9 : j < s9.orders.length := by
        rw [← holen]
        exact hjlt
      have hidj : (s9.orders.getD j defaultOrder).id = d.orderId := by
        rw [← hid, ← hjeq]
        exact (congrArg (fun t => t.1) (hcores j)).symm
      have h9st := hI.delOrders d hm _ (getD_mem_of_lt _ _ _ hjlt9) hidj
      have hnp : (s9.orders.getD j defaultOrder).status ≠ OrderStatus.pending := by
        rcases h9st with h | h <;> rw [h] <;> intro hc <;> cases hc
      have hna : (s9.orders.getD j defaultOrder).status ≠ OrderStatus.accepted := by
        rcases h9st with h | h <;> rw [h] <;> intro hc <;> cases hc
      have hkeep := hstatkeep j hnp hna
      rw [← hjeq, hkeep]
      exact h9st
    · obtain ⟨hq, i, hilt, _, hdid, hst⟩ := hprops d hm
      have hji : j = i := getD_id_inj s11.orders hNodupIds11 j i hjlt hilt
        (by rw [hjeq, hid, hdid])
      rw [← hjeq, hji]
      exact Or.inl hst
  · intro o ho
    obtain ⟨i, hilt, hieq⟩ := exists_getD_of_mem s11.orders defaultOrder o ho
    have hilt9 : i < s9.orders.length := by
      rw [← holen]
      exact hilt
    obtain ⟨hb, hs⟩ := hI.parties _ (getD_mem_of_lt _ _ _ hilt9)
    have hbeq : o.buyerEntityId = (s9.orders.getD i defaultOrder).buyerEntityId := by
      rw [← hieq]
      exact congrArg (fun t => t.2.1) (hcores i)
    have hseq : o.sellerEntityId = (s9.orders.getD i defaultOrder).sellerEntityId := by
      rw [← hieq]
      exact congrArg (fun t => t.2.2.1) (hcores i)
    rw [hbeq, hseq]
    exact ⟨entityIn_of_sameIds s9 s11 hIds911 _ hb,
      entityIn_of_sameIds s9 s11 hIds911 _ hs⟩

theorem runOneTick_inv (cfg : GameConfig) (rand : ℕ → ℚ)
    (s : GameState) (actions : List PlayerOrder) (s' : GameState)
    (h : runOneTick cfg rand s actions = some s')
    (hwf : WFConfig cfg) (hI : ReachInv s) : ReachInv s' ∧ StatusOk s s' := by
  unfold runOneTick at h
  dsimp only at h
  obtain ⟨s3, h3, h⟩ := thr_bind_some _ _ _ h
  obtain ⟨s4, h4, h⟩ := thr_bind_some _ _ _ h
  obtain ⟨s5, h5, h⟩ := thr_bind_some _ _ _ h
  have hI1 : ReachInv { s with tick := s.tick + 1 } :=
    reachInv_of_unchanged s _ rfl rfl rfl rfl rfl hI
  have hS1 : StatusOk s { s with tick := s.tick + 1 } :=
    statusOk_of_orders_eq _ _ rfl
  have hI2 := processArrivals_inv _ hI1
  have hS2 := statusOk_trans _ _ _ hS1 hI2.2
  obtain ⟨hde, hdo, hdd, hdl, hdc, hdt⟩ := advanceDemandPhases_spec _ cfg s3 h3
  have hI3 : ReachInv s3 := reachInv_of_unchanged _ s3 hde hdo hdd hdl hdc hI2.1
  have hS3 := statusOk_trans _ _ _ hS2 (statusOk_of_orders_eq _ s3 hdo)
  have hI4 := processProductionLines_inv s3 cfg s4 h4 hwf hI3
  have hS4 := statusOk_trans _ _ _ hS3 hI4.2
  have hH5 := processRetailSelling_harmless s4 cfg rand s5 h5
  have hI5 : ReachInv s5 := reachInv_of_moneyOnly s4 s5 hH5 hI4.1
  have hS5 := statusOk_trans _ _ _ hS4 (statusOk_of_orders_eq s4 s5 hH5.1.1)
  have hH6 := storage_moneyOnly s5 cfg
  have hI6 : ReachInv (processStorageCosts s5 cfg) :=
    reachInv_of_moneyOnly s5 _ hH6 hI5
  have hS6 := statusOk_trans _ _ _ hS5 (statusOk_of_orders_eq s5 _ hH6.1.1)
  have hcont : ∀ t : GameState, ReachInv t → StatusOk s t →
      ((do
        let next ← processAIDecisions t cfg
        let next ← processContractManagement next cfg
        let next ← processOrderAcceptance next cfg
        let next ← processDepartures next cfg
        pure (updateContractStatuses next) : Thr GameState) = some s') →
      ReachInv s' ∧ StatusOk s s' := by
    intro t hIt hSt hr
    obtain ⟨s8, h8, hr⟩ := thr_bind_some _ _ _ hr
    obtain ⟨s9, h9, hr⟩ := thr_bind_some _ _ _ hr
    obtain ⟨s10, h10, hr⟩ := thr_bind_some _ _ _ hr
    obtain ⟨s11, h11, hr⟩ := thr_bind_some _ _ _ hr
    have hP8 := processAIDecisions_phaseStep t cfg s8 h8 hwf
    have hI8 := reachInv_of_phaseStep t s8 hP8 hIt
    have hS8 := statusOk_trans _ _ _ hSt hI8.2
    have hP9 := processContractManagement_phaseStep s8 cfg s9 h9
    have hI9 := reachInv_of_phaseStep s8 s9 hP9 hI8.1
    have hS9 := statusOk_trans _ _ _ hS8 hI9.2
    have hI11 := acceptDepart_inv cfg s9 s10 s11 h10 h11 hI9.1
    have hS11 := statusOk_trans _ _ _ hS9 hI11.2
    have hs' : s' = updateContractStatuses s11 := (Option.some_inj.mp hr).symm
    obtain ⟨hue, huo, hud, hul, huc⟩ := updateContractStatuses_spec s11
    rw [hs']
    exact ⟨reachInv_of_unchanged s11 _ hue huo hud hul huc hI11.1,
      statusOk_trans _ _ _ hS11 (statusOk_of_orders_eq s11 _ huo)⟩
  by_cases hpe : actions.isEmpty
  · rw [if_pos hpe] at h
    obtain ⟨s7, h7, h⟩ := thr_bind_some _ _ _ h
    have hs7 : s7 = processStorageCosts s5 cfg := (Option.some_inj.mp h7).symm
    exact hcont s7 (hs7 ▸ hI6) (hs7 ▸ hS6) h
  · rw [if_neg hpe] at h
    obtain ⟨s7, h7, h⟩ := thr_bind_some _ _ _ h
    have hP := processPlayerOrders_phaseStep _ cfg actions s7 h7 hwf
    have hI7 := reachInv_of_phaseStep _ s7 hP hI6
    exact hcont s7 hI7.1 (statusOk_trans _ _ _ hS6 hI7.2) h

theorem smGet_nonneg_of_entries (m : StrMap ℚ) (r : String)
    (h : ∀ q ∈ m, 0 ≤ q.2) : 0 ≤ smGet m r 0 := by
  unfold smGet smLookup
  cases hf : m.find? (fun p => p.1 == r) with
  | none => exact le_refl 0
  | some p =>
    simp only [Option.map_some', Option.getD_some]
    exact h p (List.mem_of_find?_eq_some hf)

theorem createInitialState_inv (cfg : GameConfig) (pid : Option String)
    (hwf : WFConfig cfg) : ReachInv (createInitialState cfg pid) := by
  obtain ⟨hprod, hinv, hids⟩ := hwf
  unfold createInitialState
  dsimp only
  refine ⟨?_, ?_, ?_, ?_, ?_, ?_, ⟨[], rfl, List.chain'_nil, fun k hk => absurd hk
    (List.not_mem_nil k)⟩, ?_, ?_, ?_⟩
  · intro e he r
    rw [List.mem_map] at he
    obtain ⟨se, hse, rfl⟩ := he
    exact smGet_nonneg_of_entries _ r (fun q hq => hinv se hse q hq)
  · intro e he r
    rw [List.mem_map] at he
    obtain ⟨se, hse, rfl⟩ := he
    rfl
  · unfold IdsNodup
    dsimp only
    rw [List.map_map]
    exact hids
  · intro d hd
    cases hd
  · intro l hl
    cases hl
  · intro o ho
    cases ho
  · intro d hd
    cases hd
  · intro d hd o ho hid
    cases hd
  · intro o ho
    cases ho

theorem runTicks_statusOk (cfg : GameConfig) (rand : ℕ → ℚ) (hwf : WFConfig cfg) :
    ∀ (schedule : List (List PlayerOrder)) (s s' : GameState),
      runTicks cfg rand schedule s = some s' → ReachInv s →
      ReachInv s' ∧ StatusOk s s' := by
  intro schedule
  induction schedule with
  | nil =>
    intro s s' h hI
    cases h
    exact ⟨hI, statusOk_refl s⟩
  | cons actions rest ih =>
    intro s s' h hI
    unfold runTicks at h
    obtain ⟨s2, h2, h3⟩ := thr_bind_some _ _ _ h
    have hstep := runOneTick_inv cfg rand s actions s2 h2 hwf hI
    have hrest := ih s2 s' h3 hstep.1
    exact ⟨hrest.1, statusOk_trans _ _ _ hstep.2 hrest.2⟩

/-- C1: in every state reachable from the initial state by iterating
runOneTick with arbitrary queued player actions (under a wellformed
configuration), every entity's inventory minus committed stock is
nonnegative in every resource at the tick boundary. -/
theorem claim_C1_commitment (cfg : GameConfig) (rand : ℕ → ℚ)
    (pid : Option String) (schedule : List (List PlayerOrder)) (s' : GameState)
    (hwf : WFConfig cfg)
    (h : runTicks cfg rand schedule (createInitialState cfg pid) = some s') :
    ∀ e ∈ s'.entities, ∀ r : String,
      0 ≤ smGet e.inventory r 0 - smGet e.committed r 0 := by
  have hI := (runTicks_statusOk cfg rand hwf schedule _ s' h
    (createInitialState_inv cfg pid hwf)).1
  intro e he r
  have h1 := hI.invPos e he r
  have h2 := hI.comZero e he r
  rw [h2]
  linarith

/-- C3: between any reachable state and any state reached from it by
further runOneTick iterations, every order's status moves only along the
two legal chains pending → accepted → in_transit → delivered and
pending → declined: never accepted → declined, never backward. -/
theorem claim_C3_status_monotonicity (cfg : GameConfig) (rand : ℕ → ℚ)
    (pid : Option String) (sched1 sched2 : List (List PlayerOrder))
    (s1 s2 : GameState) (hwf : WFConfig cfg)
    (h1 : runTicks cfg rand sched1 (createInitialState cfg pid) = some s1)
    (h2 : runTicks cfg rand sched2 s1 = some s2) :
    StatusOk s1 s2 := by
  have hI1 := (runTicks_statusOk cfg rand hwf sched1 _ s1 h1
    (createInitialState_inv cfg pid hwf)).1
  exact (runTicks_statusOk cfg rand hwf sched2 s1 s2 h2 hI1).2

unseal Rat.add Rat.mul Rat.inv Rat.sub in
/-- Witness for C1: the concrete one-entity world keeps a nonnegative
inventory-minus-committed balance after one empty tick. -/
theorem claim_C1_commitment_witness :
    0 ≤ smGet exInitEnt.inventory "r" 0 - smGet exInitEnt.committed "r" 0 :=
  claim_C1_commitment exScenCfg (fun _ => 0) none [[]]
    ((runTicks exScenCfg (fun _ => 0) [[]]
      (createInitialState exScenCfg none)).getD exState0)
    (by unfold WFConfig; decide) (by rfl) exInitEnt
    (List.mem_cons_self _ _) "r"

unseal Rat.add Rat.mul Rat.inv Rat.sub in
/-- Witness for C3: order statuses move forward from the reachable initial
state across one concrete tick. -/
theorem claim_C3_status_monotonicity_witness :
    StatusLe ((createInitialState exScenCfg none).orders.getD 0
        defaultOrder).status
      ((((runTicks exScenCfg (fun _ => 0) [[]]
        (createInitialState exScenCfg none)).getD exState0).orders.getD 0
        defaultOrder).status) :=
  claim_C3_status_monotonicity exScenCfg (fun _ => 0) none [] [[]]
    (createInitialState exScenCfg none)
    ((runTicks exScenCfg (fun _ => 0) [[]]
      (createInitialState exScenCfg none)).getD exState0)
    (by unfold WFConfig; decide) (by rfl) (by rfl) 0
